import Mathlib

/-!
# brain-indexer: usage-rate cache, multi-index queries, balancing, geometry kernel,
sort keys, memory-mapped files and Python bindings

Shallow embedding of `include/spatial_index/detail/multi_index.hpp`,
`src/spatial_index/mpi_wrapper.cpp`, `include/spatial_index/detail/geometries.hpp`,
`include/spatial_index/sort_tile_recursion.hpp`,
`include/spatial_index/detail/index_memdisk.hpp` and `python/rtree_index.hpp`.

Modelling conventions.

* `size_t` counters (query generations, access counts, element counts) are
  natural numbers: they are incremented by one per call, or count elements held
  in memory.  The subtraction `query_count - load_generation_` agrees with the
  machine subtraction when `load_generation_ ≤ query_count`, which holds for
  every record as long as the generations passed to the cache do not decrease;
  the statements whose content depends on it carry that hypothesis.
* `double` is modelled by exact rational numbers; the constant
  `std::numeric_limits<double>::max()` is the rational number `DBL_MAX`.
* `std::sort` is modelled by a sort by insertion; the lemmas use only that its
  result is an ordered rearrangement of its input.
* `subtrees` and `meta_data` are finite maps keyed by the sub-tree id
  (`AList`: association lists with distinct keys).  `m[id]` on `meta_data`
  value-initialises a missing record.
* `std::vector::operator[]` past the end of the vector is undefined behaviour;
  the model reports it as `CacheError.out_of_range`.  The explicit
  `throw std::runtime_error` is `CacheError.runtime_error`.
* An R-tree is represented by the list of the values it stores, in traversal
  order.
* `int` values are integers; the conversions from `size_t` to `int` are the
  checked ones of the code.
* The geometry kernel is read over exact arithmetic, in any linearly ordered
  field; a square root is represented by its argument and compared through
  squares, and a division by zero has no value.
* `unsigned` values are natural numbers below `2 ^ 32`; a conversion to
  `unsigned` takes the value modulo `2 ^ 32`.
* The Python bindings are modelled on the values that reach the bound lambdas;
  an index is the list of the entries inserted into it, in insertion order.
-/

namespace spatial_index

/-- Finite map keyed by sub-tree id. -/
abbrev IdMap (β : Type) := AList (fun _ : Nat => β)

/-- Values stored by an R-tree, in traversal order. -/
structure RTree (V : Type) where
  values : List V

/-- Number of stored values: `rtree.size()`. -/
def RTree.size {V : Type} (t : RTree V) : Nat := t.values.length

/-- Spatial query `rtree.query(predicates, out)`: the stored values whose indexable
satisfies the predicate, in traversal order. -/
def RTree.query {V B : Type} (indexable : V → B) (predicates : B → Bool) (t : RTree V) :
    List V :=
  t.values.filter (fun v => predicates (indexable v))

/-- Modelled from the spec: the declaration of the top-tree value type is not among the
sources; the sub-tree descriptor is `{ sub_tree_id, mbr, n_elements }`, read by the cache
as `subtree_id.id` and `subtree_id.n_elements`. -/
structure SubtreeID (B : Type) where
  id : Nat
  n_elements : Nat
  mbr : B

/-- Failures of the cache code. -/
inductive CacheError where
  | out_of_range
  | runtime_error
  deriving DecidableEq

/-- Modelled from the spec: the declaration of `UsageRateCacheParams` is not among the
sources; the cache is parameterised by `{ max_cached_elements, max_evict_per_miss }`, read
by the code as `cache_params.max_cached_elements` and `cache_params.max_evict`. -/
structure UsageRateCacheParams where
  max_cached_elements : Nat
  max_evict : Nat
  deriving DecidableEq

/-- Modelled from the spec: the declaration of `UsageRateCache::MetaData` is not among the
sources; the record is `{ load_generation, current_access_count, previous_access_count,
previous_age, eviction_count }`, with the member names its methods use. -/
structure MetaData where
  load_generation_ : Nat
  current_access_count_ : Nat
  previous_access_count_ : Nat
  previous_age_ : Nat
  eviction_count_ : Nat
  deriving DecidableEq

/-- Modelled from the spec: the member initialisers of `MetaData` are not among the
sources; the counters of the record that `meta_data[id]` creates for a new id start at
zero. -/
def MetaData.init : MetaData := ⟨0, 0, 0, 0, 0⟩

/-- The constant `std::numeric_limits<double>::max()`, `(2 - 2^(-52)) * 2^1023`. -/
def DBL_MAX : ℚ := 2 ^ 1024 - 2 ^ 971

/-- Method `MetaData::access_count`. -/
def MetaData.access_count (m : MetaData) : Nat :=
  m.previous_access_count_ + m.current_access_count_

/-- Method `MetaData::incache_count`. -/
def MetaData.incache_count (m : MetaData) (query_count : Nat) : Nat :=
  (query_count - m.load_generation_ + 1) + m.previous_age_

/-- Method `MetaData::usage_rate`. -/
def MetaData.usage_rate (m : MetaData) (query_count : Nat) : ℚ :=
  if query_count = m.load_generation_ then DBL_MAX
  else (m.access_count : ℚ) / (m.incache_count query_count : ℚ)

/-- Method `MetaData::eviction_count`. -/
def MetaData.eviction_count (m : MetaData) : Nat := m.eviction_count_

/-- Method `MetaData::on_query`. -/
def MetaData.on_query (m : MetaData) : MetaData :=
  { m with current_access_count_ := m.current_access_count_ + 1 }

/-- Method `MetaData::on_load`. -/
def MetaData.on_load (m : MetaData) (query_count : Nat) : MetaData :=
  { m with load_generation_ := query_count, current_access_count_ := 1 }

/-- Method `MetaData::on_evict`. -/
def MetaData.on_evict (m : MetaData) (query_count : Nat) : MetaData :=
  { m with
    previous_access_count_ := m.previous_access_count_ + m.current_access_count_
    previous_age_ := query_count - m.load_generation_ + 1
    current_access_count_ := 0
    eviction_count_ := m.eviction_count_ + 1 }

/-- Modelled from the spec: the class declaration of `UsageRateCache` is not among the
sources; the state is made of the members its methods use, `cache_params`, `subtrees`,
`meta_data` and `most_recent_query_count` (`storage` is passed to `load_subtree`). -/
structure UsageRateCache (V : Type) where
  cache_params : UsageRateCacheParams
  subtrees : IdMap (RTree V)
  meta_data : IdMap MetaData
  most_recent_query_count : Nat

/-- Read access `meta_data[id]`: the record of `id`, value-initialised when absent. -/
def UsageRateCache.meta {V : Type} (c : UsageRateCache V) (id : Nat) : MetaData :=
  (c.meta_data.lookup id).getD MetaData.init

/-- Update `meta_data[id] = f(meta_data[id])`. -/
def UsageRateCache.update_meta {V : Type} (c : UsageRateCache V) (id : Nat)
    (f : MetaData → MetaData) : UsageRateCache V :=
  { c with meta_data := c.meta_data.insert id (f (c.meta id)) }

/-- Method `UsageRateCache::cached_elements`. -/
def UsageRateCache.cached_elements {V : Type} (c : UsageRateCache V) : Nat :=
  (c.subtrees.entries.map (fun kv => kv.2.size)).sum

/-- Order produced by the comparator of `subtree_ids_sorted_by_usage_rate`: after
`std::sort` with `usage_rate_left < usage_rate_right`, no later id compares less than an
earlier one, so the rates are ascending. -/
def UsageRateCache.usage_rate_le {V : Type} (c : UsageRateCache V) (query_count : Nat)
    (il ir : Nat) : Prop :=
  (c.meta il).usage_rate query_count ≤ (c.meta ir).usage_rate query_count

instance UsageRateCache.usage_rate_le_decidable {V : Type} (c : UsageRateCache V)
    (query_count : Nat) : DecidableRel (c.usage_rate_le query_count) :=
  fun il ir =>
    inferInstanceAs
      (Decidable ((c.meta il).usage_rate query_count ≤ (c.meta ir).usage_rate query_count))

/-- Method `UsageRateCache::subtree_ids_sorted_by_usage_rate`: the resident ids in
ascending order of usage rate.  `std::sort` leaves the order of equal rates open; the
model sorts by insertion. -/
def UsageRateCache.subtree_ids_sorted_by_usage_rate {V : Type} (c : UsageRateCache V)
    (query_count : Nat) : List Nat :=
  List.insertionSort (c.usage_rate_le query_count) c.subtrees.keys

/-- Body of the eviction loop for the victim `i`:
`meta_data[i].on_evict(query_count); subtrees.erase(it);`. -/
def UsageRateCache.evict_one {V : Type} (query_count : Nat) (c : UsageRateCache V) (i : Nat) :
    UsageRateCache V :=
  { c.update_meta i (fun m => m.on_evict query_count) with subtrees := c.subtrees.erase i }

/-- The loop `for (k = 0; k < max_evict; ++k)` of `evict_subtrees`, from index `k`,
with `n` iterations left. -/
def UsageRateCache.evict_loop {V : Type} (loaded_subtree_ids : List Nat) (query_count : Nat) :
    Nat → Nat → UsageRateCache V → Except CacheError (UsageRateCache V)
  | 0, _, c => .ok c
  | n + 1, k, c =>
    match loaded_subtree_ids[k]? with
    | none => .error .out_of_range
    | some i =>
      match c.subtrees.lookup i with
      | none => .error .runtime_error
      | some _ =>
        UsageRateCache.evict_loop loaded_subtree_ids query_count n (k + 1)
          (c.evict_one query_count i)

/-- Method `UsageRateCache::evict_subtrees`. -/
def UsageRateCache.evict_subtrees {V B : Type} (c : UsageRateCache V)
    (subtree_id : SubtreeID B) (query_count : Nat) : Except CacheError (UsageRateCache V) :=
  let n_cached_elements := c.cached_elements
  let n_elements := subtree_id.n_elements
  if n_cached_elements + n_elements ≤ c.cache_params.max_cached_elements then
    .ok c
  else
    let loaded_subtree_ids := c.subtree_ids_sorted_by_usage_rate query_count
    UsageRateCache.evict_loop loaded_subtree_ids query_count c.cache_params.max_evict 0 c

/-- Method `UsageRateCache::load_subtree`; `storage` is `storage.load_subtree`. -/
def UsageRateCache.load_subtree {V B : Type} (storage : Nat → RTree V)
    (c : UsageRateCache V) (subtree_id : SubtreeID B) (query_count : Nat) :
    Except CacheError (UsageRateCache V × RTree V) :=
  let c := { c with most_recent_query_count := query_count }
  let id := subtree_id.id
  match c.subtrees.lookup id with
  | none =>
    match c.evict_subtrees subtree_id query_count with
    | .error e => .error e
    | .ok c =>
      let c := c.update_meta id (fun m => m.on_load query_count)
      let t := storage id
      .ok ({ c with subtrees := c.subtrees.insert id t }, t)
  | some found =>
    .ok (c.update_meta id (fun m => m.on_query), found)

/-- An empty cache with the given parameters. -/
def UsageRateCache.empty (V : Type) (p : UsageRateCacheParams) : UsageRateCache V :=
  ⟨p, ∅, ∅, 0⟩

/-- A stream of `load_subtree` calls `(descriptor, query_count)`, issued one after the
other on the same cache; the first failure ends the stream. -/
def UsageRateCache.load_sequence {V B : Type} (storage : Nat → RTree V) :
    List (SubtreeID B × Nat) → UsageRateCache V → Except CacheError (UsageRateCache V)
  | [], c => .ok c
  | (subtree_id, query_count) :: rest, c =>
    match c.load_subtree storage subtree_id query_count with
    | .error e => .error e
    | .ok (c, _) => UsageRateCache.load_sequence storage rest c

/-- Modelled from the spec: the class declaration of `MultiIndexTreeBase` is not among
the sources; it holds a fully loaded top tree, a cache and the generation counter
`query_count`.  The cooperative `util::check_signals()` hook is not modelled. -/
structure MultiIndexTreeBase (V B : Type) where
  top_rtree : RTree (SubtreeID B)
  subtree_cache : UsageRateCache V
  query_count : Nat

/-- Method `MultiIndexTreeBase::load_subtree`. -/
def MultiIndexTreeBase.load_subtree {V B : Type} (storage : Nat → RTree V)
    (t : MultiIndexTreeBase V B) (subtree_id : SubtreeID B) :
    Except CacheError (MultiIndexTreeBase V B × RTree V) :=
  match t.subtree_cache.load_subtree storage subtree_id t.query_count with
  | .error e => .error e
  | .ok (cache, subtree) => .ok ({ t with subtree_cache := cache }, subtree)

/-- Method `MultiIndexTreeBase::query_subtree`; `out` is the output written so far. -/
def MultiIndexTreeBase.query_subtree {V B : Type} (storage : Nat → RTree V)
    (indexable : V → B) (t : MultiIndexTreeBase V B) (subtree_id : SubtreeID B)
    (predicates : B → Bool) (out : List V) :
    Except CacheError (MultiIndexTreeBase V B × List V) :=
  match t.load_subtree storage subtree_id with
  | .error e => .error e
  | .ok (t, subtree) => .ok (t, out ++ subtree.query indexable predicates)

/-- The loop `for (const auto& value: to_query)` of `MultiIndexTreeBase::query`. -/
def MultiIndexTreeBase.query_loop {V B : Type} (storage : Nat → RTree V)
    (indexable : V → B) (predicates : B → Bool) :
    List (SubtreeID B) → MultiIndexTreeBase V B → List V →
      Except CacheError (MultiIndexTreeBase V B × List V)
  | [], t, out => .ok (t, out)
  | value :: rest, t, out =>
    match t.query_subtree storage indexable value predicates out with
    | .error e => .error e
    | .ok (t, out) => MultiIndexTreeBase.query_loop storage indexable predicates rest t out

/-- Method `MultiIndexTreeBase::query`. -/
def MultiIndexTreeBase.query {V B : Type} (storage : Nat → RTree V) (indexable : V → B)
    (t : MultiIndexTreeBase V B) (predicates : B → Bool) (out : List V) :
    Except CacheError (MultiIndexTreeBase V B × List V) :=
  let to_query := t.top_rtree.query SubtreeID.mbr predicates
  match MultiIndexTreeBase.query_loop storage indexable predicates to_query t out with
  | .error e => .error e
  | .ok (t, out) => .ok ({ t with query_count := t.query_count + 1 }, out)

namespace UsageRateCache

instance usage_rate_le_total {V : Type} (c : UsageRateCache V) (Q : Nat) :
    IsTotal Nat (c.usage_rate_le Q) :=
  ⟨fun a b => le_total ((c.meta a).usage_rate Q) ((c.meta b).usage_rate Q)⟩

instance usage_rate_le_trans {V : Type} (c : UsageRateCache V) (Q : Nat) :
    IsTrans Nat (c.usage_rate_le Q) :=
  ⟨fun _ _ _ h₁ h₂ => le_trans (α := ℚ) h₁ h₂⟩

/-- The ids removed by an eviction at generation `query_count`: the first `max_evict`
entries of the sorted id list. -/
def victims {V : Type} (c : UsageRateCache V) (query_count : Nat) : List Nat :=
  (c.subtree_ids_sorted_by_usage_rate query_count).take c.cache_params.max_evict

end UsageRateCache

/-- Storage of the examples in which every sub-tree holds one value. -/
def unit_storage : Nat → RTree Unit := fun _ => ⟨[()]⟩

/-- Storage of the examples in which sub-tree `id` holds `id + 1` values. -/
def growing_storage : Nat → RTree Unit := fun id => ⟨List.replicate (id + 1) ()⟩

/-- Cache of the examples: room for two elements, `max_evict = 1`; sub-tree 0 was loaded at
generation 0 and sub-tree 1 at generation 1, each holds one value and was accessed once. -/
def two_resident : UsageRateCache Unit :=
  { cache_params := ⟨2, 1⟩
    subtrees := AList.insert 1 ⟨[()]⟩ (AList.singleton 0 ⟨[()]⟩)
    meta_data := AList.insert 1 ⟨1, 1, 0, 0, 0⟩ (AList.singleton 0 ⟨0, 1, 0, 0, 0⟩)
    most_recent_query_count := 1 }

/-- Multi-index of the examples: the top tree holds the descriptors of sub-trees 0 and 1,
the cache has room for two elements and is empty, no query was made yet. -/
def two_subtrees : MultiIndexTreeBase Unit Unit :=
  { top_rtree := ⟨[⟨0, 1, ()⟩, ⟨1, 1, ()⟩]⟩
    subtree_cache := UsageRateCache.empty Unit ⟨2, 1⟩
    query_count := 0 }

/-- The lambda `inner_sweep` of `MultiIndexTree::is_intersecting`, on the values that the
query iterator `tree.qbegin(bgi::intersects(...))` yields: `true` at the first value for
which `geometry_intersects(shape, value)` holds. -/
def MultiIndexTree.inner_sweep_loop {V : Type} (geometry_intersects : V → Bool) :
    List V → Bool
  | [] => false
  | value :: rest =>
    if geometry_intersects value then true
    else MultiIndexTree.inner_sweep_loop geometry_intersects rest

/-- The lambda `inner_sweep` of `MultiIndexTree::is_intersecting`; `bbox_intersects` is
the predicate `bgi::intersects(bgi::indexable<ShapeT>{}(shape))`. -/
def MultiIndexTree.inner_sweep {V B : Type} (indexable : V → B) (bbox_intersects : B → Bool)
    (geometry_intersects : V → Bool) (tree : RTree V) : Bool :=
  MultiIndexTree.inner_sweep_loop geometry_intersects (tree.query indexable bbox_intersects)

/-- The loop over the top tree of `MultiIndexTree::is_intersecting`;
`geometry_intersects_top` is `geometry_intersects(shape, *it)` on the entries of the top
tree and `geometry_intersects` the same test on the values of a sub-tree. -/
def MultiIndexTree.is_intersecting_loop {V B : Type} (storage : Nat → RTree V)
    (indexable : V → B) (bbox_intersects : B → Bool)
    (geometry_intersects_top : SubtreeID B → Bool) (geometry_intersects : V → Bool) :
    List (SubtreeID B) → MultiIndexTreeBase V B →
      Except CacheError (MultiIndexTreeBase V B × Bool)
  | [], t => .ok (t, false)
  | value :: rest, t =>
    if geometry_intersects_top value then
      match t.load_subtree storage value with
      | .error e => .error e
      | .ok (t, tree) =>
        if MultiIndexTree.inner_sweep indexable bbox_intersects geometry_intersects tree then
          .ok (t, true)
        else
          MultiIndexTree.is_intersecting_loop storage indexable bbox_intersects
            geometry_intersects_top geometry_intersects rest t
    else
      MultiIndexTree.is_intersecting_loop storage indexable bbox_intersects
        geometry_intersects_top geometry_intersects rest t

/-- Method `MultiIndexTree::is_intersecting`. -/
def MultiIndexTree.is_intersecting {V B : Type} (storage : Nat → RTree V)
    (indexable : V → B) (bbox_intersects : B → Bool)
    (geometry_intersects_top : SubtreeID B → Bool) (geometry_intersects : V → Bool)
    (t : MultiIndexTreeBase V B) : Except CacheError (MultiIndexTreeBase V B × Bool) :=
  MultiIndexTree.is_intersecting_loop storage indexable bbox_intersects
    geometry_intersects_top geometry_intersects
    (t.top_rtree.query SubtreeID.mbr bbox_intersects) t

/-- The resident sub-trees of the cache are the ones held by the storage: the cache only
holds trees it read from the storage, which is written once. -/
def UsageRateCache.coherent {V : Type} (storage : Nat → RTree V) (c : UsageRateCache V) :
    Prop :=
  ∀ (i : Nat) (tree : RTree V), c.subtrees.lookup i = some tree → tree = storage i

/-- Storage of the examples in which sub-tree `id` holds the values `10 * id` and
`10 * id + 1`. -/
def numbered_storage : Nat → RTree Nat := fun id => ⟨[10 * id, 10 * id + 1]⟩

/-- Multi-index of the examples over `numbered_storage`: the top tree holds the
descriptors of sub-trees 0, 1 and 2 with the boxes 0, 1 and 2, the cache has room for four
elements and is empty, no query was made yet. -/
def three_subtrees : MultiIndexTreeBase Nat Nat :=
  { top_rtree := ⟨[⟨0, 2, 0⟩, ⟨1, 2, 1⟩, ⟨2, 2, 2⟩]⟩
    subtree_cache := UsageRateCache.empty Nat ⟨4, 1⟩
    query_count := 0 }

/-! ### Balancing of a distributed array (`src/spatial_index/mpi_wrapper.cpp`) -/

/-- Failures of the MPI helpers: a count outside the range of `int` (the
`std::runtime_error` of `assert_counts_are_safe` and the failure of
`util::safe_integer_cast`), and an index past the end of a vector. -/
inductive MpiError where
  | overflow
  | out_of_range
  deriving DecidableEq

/-- The constant `std::numeric_limits<int>::max()` of a 32-bit `int`. -/
def INT_MAX : Nat := 2147483647

/-- Modelled from the spec: `util::safe_integer_cast` is not among the sources; the cast
of a `size_t` to `int` fails for a count that exceeds the 32-bit range of `int`. -/
def safe_integer_cast_int (x : Nat) : Except MpiError Int :=
  if x ≤ INT_MAX then .ok (Int.ofNat x) else .error .overflow

/-- Modelled from the spec: `util::balanced_chunk_sizes` is not among the sources; the
balanced chunk sizes are `total / N`, with the remainder spread to the low ranks. -/
def util.balanced_chunk_sizes (n_total n_chunks : Nat) : List Nat :=
  (List.range n_chunks).map
    (fun i => n_total / n_chunks + (if i < n_total % n_chunks then 1 else 0))

/-- Function `mpi::check_count_is_safe`. -/
def mpi.check_count_is_safe (count : Nat) : Bool := decide (count ≤ INT_MAX)

/-- Function `mpi::check_counts_are_safe`: the `int` counts are accumulated as `size_t`
(an `int` converts to `size_t` modulo `2 ^ 64`). -/
def mpi.check_counts_are_safe (counts : List Int) : Bool :=
  let total_elements := (counts.map (fun x => (x % 2 ^ 64).toNat)).sum
  mpi.check_count_is_safe total_elements

/-- The loop `for (size_t i = 0ul; i < comm_size; i++)` of `compute_balance_send_counts`,
from index `i` with `n` iterations left; it yields the entries `i, i + 1, ...` of
`send_counts`, each of which is 0 unless the iteration assigns it. -/
def mpi.compute_balance_send_counts_loop (local_start local_end : Nat)
    (balanced_count_per_rank : List Nat) :
    Nat → Nat → Nat → Nat → Except MpiError (List Int)
  | 0, _, _, _ => .ok []
  | n + 1, i, balanced_start, balanced_end =>
    match balanced_count_per_rank[i]? with
    | none => .error .out_of_range
    | some size =>
      let balanced_end := balanced_end + size
      let entry : Except MpiError Int :=
        if balanced_start < local_end ∧ local_start < balanced_end then
          safe_integer_cast_int (min balanced_end local_end - max balanced_start local_start)
        else .ok 0
      match entry with
      | .error e => .error e
      | .ok x =>
        let balanced_start := balanced_end
        match mpi.compute_balance_send_counts_loop local_start local_end
            balanced_count_per_rank n (i + 1) balanced_start balanced_end with
        | .error e => .error e
        | .ok rest => .ok (x :: rest)

/-- Function `mpi::compute_balance_send_counts`; `balanced_chunk_sizes` is
`util::balanced_chunk_sizes`. -/
def mpi.compute_balance_send_counts (balanced_chunk_sizes : Nat → Nat → List Nat)
    (counts_per_rank : List Nat) (mpi_rank : Nat) : Except MpiError (List Int) :=
  let comm_size := counts_per_rank.length
  let global_count := counts_per_rank.sum
  let local_start := (counts_per_rank.take mpi_rank).sum
  match counts_per_rank[mpi_rank]? with
  | none => .error .out_of_range
  | some count =>
    let local_end := local_start + count
    let balanced_count_per_rank := balanced_chunk_sizes global_count comm_size
    match mpi.compute_balance_send_counts_loop local_start local_end balanced_count_per_rank
        comm_size 0 0 0 with
    | .error e => .error e
    | .ok send_counts =>
      if mpi.check_counts_are_safe send_counts then .ok send_counts else .error .overflow

/-- Length of the intersection of the index intervals `[local_start, local_end)` and
`[balanced_start, balanced_end)`. -/
def mpi.overlap (local_start local_end balanced_start balanced_end : Nat) : Nat :=
  if balanced_start < local_end ∧ local_start < balanced_end then
    min balanced_end local_end - max balanced_start local_start
  else 0

/-- The overlaps of `[local_start, local_end)` with the consecutive intervals of the
given sizes that start at `start`. -/
def mpi.overlaps (local_start local_end : Nat) : List Nat → Nat → List Nat
  | [], _ => []
  | size :: sizes, start =>
    mpi.overlap local_start local_end start (start + size) ::
      mpi.overlaps local_start local_end sizes (start + size)

/-! ### Geometry kernel (`include/spatial_index/detail/geometries.hpp`)

The coordinate type `CoordType` is any linearly ordered field `K`: the code is read over
exact arithmetic, and evaluates over the rational numbers.  A square root is represented
by its argument (`Sqrt`), and a comparison with a square root by the equivalent comparison
of squares.  A division whose divisor is zero has no value (`checked_div`). -/

/-- Modelled from the spec: the declarations of `Point3D` and `Point3Dx` are not among
the sources; a point has three coordinates of the type `CoordType`. -/
structure Point3D (K : Type) where
  x : K
  y : K
  z : K

/-- Modelled from the spec: the declaration of `Sphere` is not among the sources; a
sphere is `(centroid, radius)`. -/
structure Sphere (K : Type) where
  centroid : Point3D K
  radius : K

/-- Modelled from the spec: the declaration of `Cylinder` is not among the sources; a
cylinder is `(p1, p2, radius)`. -/
structure Cylinder (K : Type) where
  p1 : Point3D K
  p2 : Point3D K
  radius : K

/-- The value of `std::sqrt(sq)` and of `norm()`, represented by its square `sq`. -/
structure Sqrt (K : Type) where
  sq : K

/-- Difference of two points, `a - b`. -/
def Point3D.sub {K : Type} [LinearOrderedField K] (a b : Point3D K) : Point3D K :=
  ⟨a.x - b.x, a.y - b.y, a.z - b.z⟩

/-- Sum of two points, `a + b`. -/
def Point3D.add {K : Type} [LinearOrderedField K] (a b : Point3D K) : Point3D K :=
  ⟨a.x + b.x, a.y + b.y, a.z + b.z⟩

/-- Product with a scalar, `k * a`. -/
def Point3D.smul {K : Type} [LinearOrderedField K] (k : K) (a : Point3D K) : Point3D K :=
  ⟨k * a.x, k * a.y, k * a.z⟩

/-- Scalar product, `a.dot(b)`. -/
def Point3D.dot {K : Type} [LinearOrderedField K] (a b : Point3D K) : K :=
  a.x * b.x + a.y * b.y + a.z * b.z

/-- Euclidean norm, `a.norm()`: the square root of `a.dot(a)`. -/
def Point3D.norm {K : Type} [LinearOrderedField K] (a : Point3D K) : Sqrt K :=
  ⟨a.dot a⟩

/-- Comparison `std::sqrt(sq) < r`, for `0 ≤ sq`. -/
def Sqrt.lt {K : Type} [LinearOrderedField K] (n : Sqrt K) (r : K) : Bool :=
  decide (0 < r ∧ n.sq < r * r)

/-- Comparison `std::sqrt(sq) > r`, for `0 ≤ sq`. -/
def Sqrt.gt {K : Type} [LinearOrderedField K] (n : Sqrt K) (r : K) : Bool :=
  decide (r < 0 ∨ r * r < n.sq)

/-- Comparison `m / std::sqrt(sq) < std::sqrt(sq) + r`, for `0 < sq`: it is
`m - sq < r * std::sqrt(sq)`. -/
def Sqrt.div_lt_add {K : Type} [LinearOrderedField K] (m : K) (n : Sqrt K) (r : K) : Bool :=
  decide ((0 ≤ r ∧ (m - n.sq < 0 ∨ (m - n.sq) * (m - n.sq) < r * r * n.sq)) ∨
    (r < 0 ∧ m - n.sq < 0 ∧ r * r * n.sq < (m - n.sq) * (m - n.sq)))

/-- Division `x / y`; without a value when the divisor is zero. -/
def checked_div {K : Type} [LinearOrderedField K] (x y : K) : Option K :=
  if y = 0 then none else some (x / y)

/-- The constant `EPSILON = 1e-6` of `distance_segment_segment`. -/
def EPSILON {K : Type} [LinearOrderedField K] : K := 1 / 1000000

/-- The variables `sN`, `sD`, `tN`, `tD` of `distance_segment_segment`. -/
structure SegmentParameters (K : Type) where
  sN : K
  sD : K
  tN : K
  tD : K

/-- First part of `distance_segment_segment`: "compute the line parameters of the two
closest points", up to the `s` edges. -/
def distance_segment_segment.line_parameters {K : Type} [LinearOrderedField K]
    (a b c d e : K) : SegmentParameters K :=
  let D := a * c - b * b
  if D < EPSILON then
    ⟨0, 1, e, c⟩
  else
    let sN := b * e - c * d
    let tN := a * e - b * d
    if sN < 0 then ⟨0, D, e, c⟩
    else if sN > D then ⟨D, D, e + b, c⟩
    else ⟨sN, D, tN, D⟩

/-- Second part of `distance_segment_segment`: the `t` edges, with `sc` recomputed. -/
def distance_segment_segment.edge_parameters {K : Type} [LinearOrderedField K]
    (a b d : K) (p : SegmentParameters K) : SegmentParameters K :=
  if p.tN < 0 then
    if -d < 0 then ⟨0, p.sD, 0, p.tD⟩
    else if -d > a then ⟨p.sD, p.sD, 0, p.tD⟩
    else ⟨-d, a, 0, p.tD⟩
  else if p.tN > p.tD then
    if (-d + b) < 0 then ⟨0, p.sD, p.tD, p.tD⟩
    else if (-d + b) > a then ⟨p.sD, p.sD, p.tD, p.tD⟩
    else ⟨-d + b, a, p.tD, p.tD⟩
  else p

/-- The values of `sN`, `sD`, `tN`, `tD` before the final divisions of
`distance_segment_segment`, from the scalar products `a`, `b`, `c`, `d`, `e`. -/
def distance_segment_segment.parameters {K : Type} [LinearOrderedField K]
    (a b c d e : K) : SegmentParameters K :=
  distance_segment_segment.edge_parameters a b d
    (distance_segment_segment.line_parameters a b c d e)

/-- The final division `(abs(N) < EPSILON ? 0.0 : N / D)` of `distance_segment_segment`. -/
def distance_segment_segment.quotient {K : Type} [LinearOrderedField K] (N D : K) :
    Option K :=
  if abs N < EPSILON then some 0 else checked_div N D

/-- The values of `sN`, `sD`, `tN`, `tD` before the final divisions of
`distance_segment_segment`, from the end points of the two segments. -/
def distance_segment_segment.point_parameters {K : Type} [LinearOrderedField K]
    (s1_0 s1_1 s2_0 s2_1 : Point3D K) : SegmentParameters K :=
  let u := s1_1.sub s1_0
  let v := s2_1.sub s2_0
  let w := s1_0.sub s2_0
  let a := u.dot u
  let b := u.dot v
  let c := v.dot v
  let d := u.dot w
  let e := v.dot w
  distance_segment_segment.parameters a b c d e

/-- Function `detail::distance_segment_segment`. -/
def distance_segment_segment {K : Type} [LinearOrderedField K]
    (s1_0 s1_1 s2_0 s2_1 : Point3D K) : Option (Sqrt K) :=
  let u := s1_1.sub s1_0
  let v := s2_1.sub s2_0
  let w := s1_0.sub s2_0
  let p := distance_segment_segment.point_parameters s1_0 s1_1 s2_0 s2_1
  match distance_segment_segment.quotient p.sN p.sD,
      distance_segment_segment.quotient p.tN p.tD with
  | some sc, some tc =>
    let dP := (w.add (Point3D.smul sc u)).sub (Point3D.smul tc v)
    some dP.norm
  | _, _ => none

/-- Method `Sphere::intersects(Cylinder const&)`. -/
def Sphere.intersects {K : Type} [LinearOrderedField K] (s : Sphere K) (c : Cylinder K) :
    Option Bool :=
  let u := s.centroid.sub c.p1
  let v := c.p2.sub c.p1
  let proj := u.dot v
  match checked_div (proj * proj) (v.dot v) with
  | none => none
  | some q =>
    let distance : Sqrt K := ⟨u.dot u - q⟩
    let radii_sum := s.radius + c.radius
    if distance.gt radii_sum then some false
    else
      let w := s.centroid.sub c.p2
      let v_norm := v.norm
      if v_norm.sq = 0 then none
      else some (Sqrt.div_lt_add (max (abs proj) (abs (w.dot v))) v_norm s.radius)

/-- Method `Cylinder::intersects(Cylinder const&)`. -/
def Cylinder.intersects {K : Type} [LinearOrderedField K] (c1 c : Cylinder K) :
    Option Bool :=
  match distance_segment_segment c1.p1 c1.p2 c.p1 c.p2 with
  | none => none
  | some min_dist => some (min_dist.lt (c1.radius + c.radius))

/-- Point `p0 + k * (p1 - p0)` of the segment from `p0` to `p1`, for `0 ≤ k ≤ 1`. -/
def segment_point {K : Type} [LinearOrderedField K] (p0 p1 : Point3D K) (k : K) :
    Point3D K :=
  p0.add (Point3D.smul k (p1.sub p0))

/-- Square of the Euclidean distance of two points. -/
def distance_sq {K : Type} [LinearOrderedField K] (p q : Point3D K) : K :=
  (p.sub q).dot (p.sub q)

/-- The test that the spec describes for a sphere and a cylinder with `p1 ≠ p2` and
`0 ≤ r_sphere + r_cyl`: the perpendicular distance from the centre of the sphere to the
infinite axis is at most `r_sphere + r_cyl`, and the point of the axis whose parameter is
the projection parameter of the centre, clamped to the segment, lies within
`r_sphere + r_cyl` of the centre. -/
def sphere_cylinder_clamped_test {K : Type} [LinearOrderedField K] (s : Sphere K)
    (c : Cylinder K) : Bool :=
  let u := s.centroid.sub c.p1
  let v := c.p2.sub c.p1
  let proj := u.dot v
  let radii_sum := s.radius + c.radius
  let k := max 0 (min 1 (proj / v.dot v))
  decide (u.dot u - proj * proj / v.dot v ≤ radii_sum * radii_sum ∧
    distance_sq s.centroid (segment_point c.p1 c.p2 k) ≤ radii_sum * radii_sum)

/-- A point with rational coordinates. -/
def rat_point (x y z : ℚ) : Point3D ℚ := ⟨x, y, z⟩

/-! ### Sort keys of the sort tile recursion (`include/spatial_index/sort_tile_recursion.hpp`) -/

/-- Method `STRKey<GetCoordinate, dim>::apply`; `GetCoordinate dim a` is
`GetCoordinate::apply<dim>(a)`. -/
def STRKey.apply {V K : Type} (GetCoordinate : Nat → V → K) (dim : Nat) (a : V) : K :=
  GetCoordinate dim a

/-- Method `STRKey<GetCoordinate, dim>::compare`: the primary template, which hands ties
over to `dim + 1`, and the specialisation for `dim = 2`, which ends the recursion.  The
program instantiates it for `dim` in `{0, 1, 2}` only. -/
def STRKey.compare {V K : Type} [LinearOrder K] (GetCoordinate : Nat → V → K) (dim : Nat)
    (a b : V) : Bool :=
  let xa := STRKey.apply GetCoordinate dim a
  let xb := STRKey.apply GetCoordinate dim b
  if dim < 2 then
    if xa = xb then STRKey.compare GetCoordinate (dim + 1) a b
    else decide (xa < xb)
  else decide (xa < xb)
termination_by 2 - dim

/-- The coordinate tuple `(x_dim, ..., x_2)` of a value. -/
def STRKey.coordinates {V K : Type} (GetCoordinate : Nat → V → K) (dim : Nat) (a : V) :
    List K :=
  (List.range' dim (3 - dim)).map (fun i => GetCoordinate i a)

/-- Coordinates of the examples: the components of a triple of natural numbers. -/
def triple_coordinate (dim : Nat) (a : Nat × Nat × Nat) : Nat :=
  if dim = 0 then a.1 else if dim = 1 then a.2.1 else a.2.2

/-! ### Memory-mapped index files (`include/spatial_index/detail/index_memdisk.hpp`)

The file system maps a file name to the managed mapped file stored under it, if any.  A
managed mapped file holds named objects; the two names the code uses are `.version` and
`object`.  Failures of the operating system (a file that cannot be removed, a mapping
that cannot be allocated) are not modelled. -/

/-- Modelled from the spec: the macros `SPATIAL_INDEX_STRUCT_VERSION` and `BOOST_VERSION`
are defined outside the sources; they are constants of a build of the library, in the
range of `unsigned`, and a file may be written by one build and opened by another. -/
structure BuildConstants where
  SPATIAL_INDEX_STRUCT_VERSION : Nat
  BOOST_VERSION : Nat
  deriving DecidableEq

/-- Struct `detail::file_versioning`. -/
structure file_versioning where
  struct_version : Nat
  boost_version : Nat
  deriving DecidableEq

/-- The member initialisers of `detail::file_versioning`, in a given build. -/
def file_versioning.init (build : BuildConstants) : file_versioning :=
  ⟨build.SPATIAL_INDEX_STRUCT_VERSION, build.BOOST_VERSION⟩

/-- Failures of the bindings: `std::invalid_argument`, `py::value_error`, the
`py::index_error` of a checked array access, and a read past the end of an array. -/
inductive PyError where
  | invalid_argument
  | value_error
  | index_error
  | out_of_bounds
  deriving DecidableEq

/-- Modelled from the spec: the alias `array_t` is declared outside the sources; it is a
dense NumPy array of coordinates in row-major order. -/
structure array_t (K : Type) where
  shape : List Nat
  elements : List K

/-- Number of dimensions, `a.ndim()`. -/
def array_t.ndim {K : Type} (a : array_t K) : Nat := a.shape.length

/-- Number of elements, `a.size()`: the product of the extents. -/
def array_t.size {K : Type} (a : array_t K) : Nat := a.shape.prod

/-- Checked access `a.data(i, j)`: the pointer to the element with the indices `i`, `j`
(and 0 for the remaining dimensions), as an offset into the elements.  It raises
`py::index_error` when the array has fewer than two dimensions or an index is not below
its extent. -/
def array_t.data {K : Type} (a : array_t K) (i j : Nat) : Except PyError Nat :=
  match a.shape with
  | n0 :: n1 :: rest =>
    if i < n0 ∧ j < n1 then .ok ((i * n1 + j) * rest.prod) else .error .index_error
  | _ => .error .index_error

/-- Modelled from the spec: the declaration of `si::Box3D` is not among the sources; a box
is `(min_corner, max_corner)`. -/
structure Box3D (K : Type) where
  min_corner : Point3D K
  max_corner : Point3D K

/-- The point `point_t(c[0], c[1], c[2])` read through the pointer `c` into the elements
of an array. -/
def array_t.point_at {K : Type} (a : array_t K) (c : Nat) : Except PyError (Point3D K) :=
  match a.elements[c]?, a.elements[c + 1]?, a.elements[c + 2]? with
  | some x, some y, some z => .ok ⟨x, y, z⟩
  | _, _, _ => .error .out_of_bounds

/-- The lambda that `add_IndexTree_place_bindings` binds to `place`; `place` is
`obj.place` and `soma` the shape `SomaT{gid, mk_point(center), rad}`. -/
def add_IndexTree_place_bindings {K S R : Type} (place : Box3D K → S → R)
    (region_corners : array_t K) (soma : S) : Except PyError R :=
  if region_corners.ndim ≠ 2 ∨ region_corners.size ≠ 6 then .error .invalid_argument
  else
    match region_corners.data 0 0 with
    | .error e => .error e
    | .ok c0 =>
      match region_corners.data 1 0 with
      | .error e => .error e
      | .ok c1 =>
        match region_corners.point_at c0 with
        | .error e => .error e
        | .ok min_corner =>
          match region_corners.point_at c1 with
          | .error e => .error e
          | .ok max_corner => .ok (place ⟨min_corner, max_corner⟩ soma)

/-- The lambda that `add_MorphIndex_place_bindings` binds to `place`; `place` is
`obj.place` and `segment` the shape
`si::Segment{gid, section_id, segment_id, mk_point(p1), mk_point(p2), radius}`. -/
def add_MorphIndex_place_bindings {K S R : Type} (place : Box3D K → S → R)
    (region_corners : array_t K) (segment : S) : Except PyError R :=
  if region_corners.ndim ≠ 2 ∨ region_corners.size ≠ 6 then .error .invalid_argument
  else
    match region_corners.data 0 0 with
    | .error e => .error e
    | .ok c0 =>
      match region_corners.data 1 0 with
      | .error e => .error e
      | .ok c1 =>
        match region_corners.point_at c0 with
        | .error e => .error e
        | .ok min_corner =>
          match region_corners.point_at c1 with
          | .error e => .error e
          | .ok max_corner => .ok (place ⟨min_corner, max_corner⟩ segment)

/-- Modelled from the spec: the declarations of `si::Soma`, `si::Segment` and
`MorphoEntry` are not among the sources; an entry of a morphology index is a soma
`Soma{gid, centroid, radius}` or a segment
`Segment{gid, section_id, segment_id, p1, p2, radius}`. -/
inductive MorphoEntry (K : Type) where
  | soma (gid : Nat) (centroid : Point3D K) (radius : K)
  | segment (gid section_id segment_id : Nat) (p1 p2 : Point3D K) (radius : K)

/-- The entry is a segment of the given section. -/
def MorphoEntry.is_segment_of {K : Type} (section_id : Nat) : MorphoEntry K → Bool
  | .soma _ _ _ => false
  | .segment _ s _ _ _ _ => decide (s = section_id)

/-- The entry is a soma. -/
def MorphoEntry.is_soma {K : Type} : MorphoEntry K → Bool
  | .soma _ _ _ => true
  | .segment _ _ _ _ _ _ => false

/-- Conversion of an integer to `unsigned`: the value modulo `2 ^ 32`. -/
def to_unsigned (x : Int) : Nat := (x % 4294967296).toNat

/-- The loop of `add_branch`, from the segment `i` with `n` iterations left.  The index
is the list of the entries inserted so far; `points` and `radii` are the arrays into which
the pointer arguments point, at the offset `p_start`. -/
def add_branch_loop {K : Type} (neuron_id section_id : Nat) (points : List (Point3D K))
    (radii : List K) (p_start : Nat) :
    Nat → Nat → List (MorphoEntry K) → Except PyError (List (MorphoEntry K))
  | 0, _, obj => .ok obj
  | n + 1, i, obj =>
    match points[p_start + i]?, points[p_start + (i + 1)]?, radii[p_start + i]? with
    | some p1, some p2, some radius =>
      add_branch_loop neuron_id section_id points radii p_start n (i + 1)
        (obj ++ [.segment neuron_id section_id i p1 p2 radius])
    | _, _, _ => .error .out_of_bounds

/-- Function `add_branch`, called with the pointers `points + p_start` and
`radii + p_start`. -/
def add_branch {K : Type} (obj : List (MorphoEntry K)) (neuron_id section_id n_segments : Nat)
    (points : List (Point3D K)) (radii : List K) (p_start : Nat) :
    Except PyError (List (MorphoEntry K)) :=
  add_branch_loop neuron_id section_id points radii p_start n_segments 0 obj

/-- The loop `for (unsigned branch_i = 0; branch_i < n_branches - 1; branch_i++)` of
`add_neuron`, from the branch `branch_i` with `n` iterations left. -/
def add_neuron_loop {K : Type} (gid : Nat) (points : List (Point3D K)) (radii : List K)
    (offsets : List Nat) :
    Nat → Nat → List (MorphoEntry K) → Except PyError (List (MorphoEntry K))
  | 0, _, obj => .ok obj
  | n + 1, branch_i, obj =>
    match offsets[branch_i]?, offsets[branch_i + 1]? with
    | some p_start, some next =>
      let n_segments := to_unsigned ((next : Int) - (p_start : Int) - 1)
      match add_branch obj gid (branch_i + 1) n_segments points radii p_start with
      | .error e => .error e
      | .ok obj => add_neuron_loop gid points radii offsets n (branch_i + 1) obj
    | _, _ => .error .out_of_bounds

/-- The sanity checks of `add_neuron`; the result is the list of the warnings logged. -/
def add_neuron_checks (npoints radii_size n_branches : Nat) (offsets : List Nat)
    (has_soma : Bool) : Except PyError (List String) :=
  if has_soma = true ∧ npoints < 1 then .error .value_error
  else
    let n_segment_points := to_unsigned ((npoints : Int) - (if has_soma then 1 else 0))
    if n_segment_points = 0 then
      if has_soma = true ∧ radii_size ≠ 1 then .error .value_error
      else .ok ["Neuron has no segments"]
    else
      if n_segment_points < 2 then .error .value_error
      else if (radii_size : Int) < (npoints : Int) - 1 then .error .value_error
      else if n_branches < 1 then .error .value_error
      else if n_branches > n_segment_points - 1 then .error .value_error
      else
        let max_offset := offsets.foldl max 0
        if (max_offset : Int) > (npoints : Int) - 2 then .error .value_error
        else .ok []

/-- The lambda that `add_MorphIndex_add_neuron_bindings` binds to `add_neuron`.
Modelled from the spec: `convert_input` and the alias `array_offsets` are declared outside
the sources; the `N x 3` array `centroids_np` is read as `N` points, `radii_np` as a flat
array, and the branch offsets are `unsigned` values.  The result is the index after the
insertions and the list of the warnings logged. -/
def add_neuron {K : Type} (obj : List (MorphoEntry K)) (gid : Nat)
    (centroids_np : List (Point3D K)) (radii_np : List K) (branches_offset_np : List Nat)
    (has_soma : Bool) : Except PyError (List (MorphoEntry K) × List String) :=
  let points := centroids_np
  let npoints := centroids_np.length
  let radii := radii_np
  let n_branches := branches_offset_np.length
  let offsets := branches_offset_np
  match add_neuron_checks npoints radii_np.length n_branches offsets has_soma with
  | .error e => .error e
  | .ok warnings =>
    let with_soma : Except PyError (List (MorphoEntry K)) :=
      if has_soma then
        match points[0]?, radii[0]? with
        | some p, some r => .ok (obj ++ [.soma gid p r])
        | _, _ => .error .out_of_bounds
      else .ok obj
    match with_soma with
    | .error e => .error e
    | .ok obj =>
      match add_neuron_loop gid points radii offsets (n_branches - 1) 0 obj with
      | .error e => .error e
      | .ok obj =>
        if n_branches ≠ 0 then
          match offsets[n_branches - 1]? with
          | none => .error .out_of_bounds
          | some p_start =>
            let n_segments := to_unsigned ((npoints : Int) - (p_start : Int) - 1)
            match add_branch obj gid n_branches n_segments points radii p_start with
            | .error e => .error e
            | .ok obj => .ok (obj, warnings)
        else .ok (obj, warnings)

/-- Points of the examples: `n` points on the first axis, at the abscissae `0, 1, ...`. -/
def line_points (n : Nat) : List (Point3D ℚ) :=
  (List.range n).map (fun i => ⟨(i : ℚ), 0, 0⟩)

/-! ### Exchange of the elements of a distributed array -/

/-- Function `mpi::offsets_from_counts`: the running sums of the counts, from 0 on. -/
def mpi.offsets_from_counts (counts : List Int) : List Int :=
  (List.range (counts.length + 1)).map (fun i => (counts.take i).sum)

/-- Modelled from the spec: the exchange of the elements (step 5, "Alltoallv exchanges
elements") is not among the sources.  The block that a rank sends to rank `i`: the
`send_counts[i]` elements of its local array from the offset
`offsets_from_counts(send_counts)[i]` on. -/
def mpi.send_block {α : Type} (local_array : List α) (send_counts : List Int) (i : Nat) :
    List α :=
  (local_array.drop ((mpi.offsets_from_counts send_counts).getD i 0).toNat).take
    (send_counts.getD i 0).toNat

/-- Modelled from the spec: the exchange of the elements is not among the sources.  The
array of rank `i` after the exchange: the blocks sent to it, in the order of the sending
ranks; `arrays` are the local arrays before the exchange and `sends r` the send counts of
rank `r`. -/
def mpi.received {α : Type} (arrays : List (List α)) (sends : Nat → List Int) (i : Nat) :
    List α :=
  ((List.range arrays.length).map
    (fun r => mpi.send_block (arrays.getD r []) (sends r) i)).flatten

/-- The elements of a list with the indices `a, ..., b - 1`. -/
def mpi.slice {α : Type} (l : List α) (a b : Nat) : List α := (l.drop a).take (b - a)

/-! ## Lemmas -/

namespace UsageRateCache

variable {V B : Type}

/-! ### Metadata access -/

theorem meta_update_meta_self (c : UsageRateCache V) (i : Nat) (f : MetaData → MetaData) :
    (c.update_meta i f).meta i = f (c.meta i) := by
  simp [UsageRateCache.meta, update_meta, AList.lookup_insert]

theorem meta_update_meta_ne (c : UsageRateCache V) {i j : Nat} (f : MetaData → MetaData)
    (h : j ≠ i) : (c.update_meta i f).meta j = c.meta j := by
  simp [UsageRateCache.meta, update_meta, AList.lookup_insert_ne h]

theorem meta_evict_one_self (Q : Nat) (c : UsageRateCache V) (i : Nat) :
    (c.evict_one Q i).meta i = (c.meta i).on_evict Q :=
  meta_update_meta_self c i (fun m => m.on_evict Q)

theorem meta_evict_one_ne (Q : Nat) (c : UsageRateCache V) {i j : Nat} (h : j ≠ i) :
    (c.evict_one Q i).meta j = c.meta j :=
  meta_update_meta_ne c (fun m => m.on_evict Q) h

theorem mem_evict_one (Q : Nat) (c : UsageRateCache V) (i j : Nat) :
    j ∈ (c.evict_one Q i).subtrees ↔ j ≠ i ∧ j ∈ c.subtrees := by
  simp [evict_one, update_meta, AList.mem_erase]

/-! ### Evicting a list of victims -/

theorem mem_foldl_evict_one (Q : Nat) (vs : List Nat) :
    ∀ (c : UsageRateCache V) (j : Nat),
      j ∈ (vs.foldl (evict_one Q) c).subtrees ↔ j ∈ c.subtrees ∧ j ∉ vs := by
  induction vs with
  | nil => intro c j; simp
  | cons v vs ih =>
    intro c j
    rw [List.foldl_cons, ih, mem_evict_one]
    simp only [List.mem_cons, not_or]
    tauto

theorem lookup_foldl_evict_one (Q : Nat) (vs : List Nat) :
    ∀ (c : UsageRateCache V) (j : Nat), j ∉ vs →
      (vs.foldl (evict_one Q) c).subtrees.lookup j = c.subtrees.lookup j := by
  induction vs with
  | nil => intro c j _; rfl
  | cons v vs ih =>
    intro c j hj
    simp only [List.mem_cons, not_or] at hj
    rw [List.foldl_cons, ih _ _ hj.2]
    simp [evict_one, update_meta, AList.lookup_erase_ne hj.1]

theorem meta_foldl_evict_one_of_not_mem (Q : Nat) (vs : List Nat) :
    ∀ (c : UsageRateCache V) (j : Nat), j ∉ vs →
      (vs.foldl (evict_one Q) c).meta j = c.meta j := by
  induction vs with
  | nil => intro c j _; rfl
  | cons v vs ih =>
    intro c j hj
    simp only [List.mem_cons, not_or] at hj
    rw [List.foldl_cons, ih _ _ hj.2, meta_evict_one_ne Q c hj.1]

theorem meta_foldl_evict_one_of_mem (Q : Nat) (vs : List Nat) :
    ∀ (c : UsageRateCache V) (j : Nat), vs.Nodup → j ∈ vs →
      (vs.foldl (evict_one Q) c).meta j = (c.meta j).on_evict Q := by
  induction vs with
  | nil => intro c j _ hj; simp at hj
  | cons v vs ih =>
    intro c j hnd hj
    rw [List.nodup_cons] at hnd
    rw [List.foldl_cons]
    rcases List.mem_cons.1 hj with rfl | hj
    · rw [meta_foldl_evict_one_of_not_mem Q vs _ _ hnd.1, meta_evict_one_self]
    · have hne : j ≠ v := fun h => hnd.1 (h ▸ hj)
      rw [ih _ _ hnd.2 hj, meta_evict_one_ne Q c hne]

theorem cache_params_foldl_evict_one (Q : Nat) (vs : List Nat) :
    ∀ c : UsageRateCache V, (vs.foldl (evict_one Q) c).cache_params = c.cache_params := by
  induction vs with
  | nil => intro c; rfl
  | cons v vs ih => intro c; rw [List.foldl_cons, ih]; rfl

theorem most_recent_foldl_evict_one (Q : Nat) (vs : List Nat) :
    ∀ c : UsageRateCache V,
      (vs.foldl (evict_one Q) c).most_recent_query_count = c.most_recent_query_count := by
  induction vs with
  | nil => intro c; rfl
  | cons v vs ih => intro c; rw [List.foldl_cons, ih]; rfl

theorem cached_elements_evict_one_le (Q : Nat) (c : UsageRateCache V) (i : Nat) :
    (c.evict_one Q i).cached_elements ≤ c.cached_elements := by
  unfold cached_elements evict_one update_meta
  apply List.Sublist.sum_le_sum
  · exact (List.kerase_sublist i c.subtrees.entries).map _
  · intro a _; exact Nat.zero_le a

theorem cached_elements_foldl_evict_one_le (Q : Nat) (vs : List Nat) :
    ∀ c : UsageRateCache V, (vs.foldl (evict_one Q) c).cached_elements ≤ c.cached_elements := by
  induction vs with
  | nil => intro c; exact le_rfl
  | cons v vs ih =>
    intro c
    rw [List.foldl_cons]
    exact (ih _).trans (cached_elements_evict_one_le Q c v)

/-! ### The eviction loop -/

theorem evict_loop_ok (ids : List Nat) (Q : Nat) :
    ∀ (n k : Nat) (c : UsageRateCache V), k + n ≤ ids.length → ids.Nodup →
      (∀ i ∈ ids.drop k, i ∈ c.subtrees) →
      evict_loop ids Q n k c = .ok (((ids.drop k).take n).foldl (evict_one Q) c) := by
  intro n
  induction n with
  | zero => intro k c _ _ _; simp [evict_loop]
  | succ n ih =>
    intro k c hlen hnd hmem
    have hk : k < ids.length := by omega
    have hdrop : ids.drop k = ids[k] :: ids.drop (k + 1) := List.drop_eq_getElem_cons hk
    have hin : ids[k] ∈ c.subtrees := hmem _ (by rw [hdrop]; exact List.mem_cons_self _ _)
    obtain ⟨t, ht⟩ := Option.isSome_iff_exists.1 (AList.lookup_isSome.2 hin)
    have hnd' : (ids[k] :: ids.drop (k + 1)).Nodup := hdrop ▸ hnd.sublist (List.drop_sublist k ids)
    rw [List.nodup_cons] at hnd'
    have hrest : ∀ i ∈ ids.drop (k + 1), i ∈ (c.evict_one Q ids[k]).subtrees := by
      intro i hi
      rw [mem_evict_one]
      refine ⟨fun h => hnd'.1 (h ▸ hi), hmem i ?_⟩
      rw [hdrop]; exact List.mem_cons_of_mem _ hi
    rw [evict_loop, List.getElem?_eq_getElem hk]
    simp only [ht]
    rw [ih (k + 1) _ (by omega) hnd hrest, hdrop, List.take_succ_cons, List.foldl_cons]

theorem evict_loop_out_of_range (ids : List Nat) (Q : Nat) :
    ∀ (n k : Nat) (c : UsageRateCache V), k ≤ ids.length → ids.length < k + n → ids.Nodup →
      (∀ i ∈ ids.drop k, i ∈ c.subtrees) →
      evict_loop ids Q n k c = .error .out_of_range := by
  intro n
  induction n with
  | zero => intro k c h1 h2 _ _; omega
  | succ n ih =>
    intro k c hle hlt hnd hmem
    rcases Nat.lt_or_ge k ids.length with hk | hk
    · have hdrop : ids.drop k = ids[k] :: ids.drop (k + 1) := List.drop_eq_getElem_cons hk
      have hin : ids[k] ∈ c.subtrees := hmem _ (by rw [hdrop]; exact List.mem_cons_self _ _)
      obtain ⟨t, ht⟩ := Option.isSome_iff_exists.1 (AList.lookup_isSome.2 hin)
      have hnd' : (ids[k] :: ids.drop (k + 1)).Nodup :=
        hdrop ▸ hnd.sublist (List.drop_sublist k ids)
      rw [List.nodup_cons] at hnd'
      have hrest : ∀ i ∈ ids.drop (k + 1), i ∈ (c.evict_one Q ids[k]).subtrees := by
        intro i hi
        rw [mem_evict_one]
        refine ⟨fun h => hnd'.1 (h ▸ hi), hmem i ?_⟩
        rw [hdrop]; exact List.mem_cons_of_mem _ hi
      rw [evict_loop, List.getElem?_eq_getElem hk]
      simp only [ht]
      exact ih (k + 1) _ hk (by omega) hnd hrest
    · rw [evict_loop, List.getElem?_eq_none hk]

/-! ### The sorted id list -/

theorem sorted_ids_perm (c : UsageRateCache V) (Q : Nat) :
    (c.subtree_ids_sorted_by_usage_rate Q).Perm c.subtrees.keys :=
  List.perm_insertionSort _ _

theorem sorted_ids_nodup (c : UsageRateCache V) (Q : Nat) :
    (c.subtree_ids_sorted_by_usage_rate Q).Nodup :=
  (sorted_ids_perm c Q).nodup_iff.2 c.subtrees.keys_nodup

theorem mem_sorted_ids (c : UsageRateCache V) (Q : Nat) (i : Nat) :
    i ∈ c.subtree_ids_sorted_by_usage_rate Q ↔ i ∈ c.subtrees :=
  ((sorted_ids_perm c Q).mem_iff).trans AList.mem_keys.symm

theorem length_sorted_ids (c : UsageRateCache V) (Q : Nat) :
    (c.subtree_ids_sorted_by_usage_rate Q).length = c.subtrees.keys.length :=
  (sorted_ids_perm c Q).length_eq

theorem sorted_ids_sorted (c : UsageRateCache V) (Q : Nat) :
    (c.subtree_ids_sorted_by_usage_rate Q).Sorted (c.usage_rate_le Q) :=
  List.sorted_insertionSort _ _

theorem victims_nodup (c : UsageRateCache V) (Q : Nat) : (c.victims Q).Nodup :=
  (sorted_ids_nodup c Q).sublist (List.take_sublist _ _)

theorem mem_of_mem_victims (c : UsageRateCache V) (Q : Nat) {i : Nat} (h : i ∈ c.victims Q) :
    i ∈ c.subtrees :=
  (mem_sorted_ids c Q i).1 (List.mem_of_mem_take h)

theorem length_victims (c : UsageRateCache V) (Q : Nat)
    (hk : c.cache_params.max_evict ≤ c.subtrees.keys.length) :
    (c.victims Q).length = c.cache_params.max_evict := by
  rw [victims, List.length_take, length_sorted_ids]
  exact Nat.min_eq_left hk

/-- Every victim has a usage rate not above that of every resident id that is not a
victim. -/
theorem victims_usage_rate_le (c : UsageRateCache V) (Q : Nat) {e r : Nat}
    (he : e ∈ c.victims Q) (hr : r ∈ c.subtrees) (hr' : r ∉ c.victims Q) :
    (c.meta e).usage_rate Q ≤ (c.meta r).usage_rate Q := by
  have hs := sorted_ids_sorted c Q
  have hsplit := List.take_append_drop c.cache_params.max_evict
    (c.subtree_ids_sorted_by_usage_rate Q)
  unfold List.Sorted at hs
  rw [← hsplit, List.pairwise_append] at hs
  have hmem : r ∈ c.subtree_ids_sorted_by_usage_rate Q := (mem_sorted_ids c Q r).2 hr
  rw [← hsplit, List.mem_append] at hmem
  rcases hmem with h | h
  · exact absurd h hr'
  · exact hs.2.2 e he r h

/-! ### Outcome of `evict_subtrees` -/

theorem evict_subtrees_of_fits (c : UsageRateCache V) (d : SubtreeID B) (Q : Nat)
    (h : c.cached_elements + d.n_elements ≤ c.cache_params.max_cached_elements) :
    c.evict_subtrees d Q = .ok c := by
  simp [evict_subtrees, h]

theorem evict_subtrees_of_evict (c : UsageRateCache V) (d : SubtreeID B) (Q : Nat)
    (h : c.cache_params.max_cached_elements < c.cached_elements + d.n_elements)
    (hk : c.cache_params.max_evict ≤ c.subtrees.keys.length) :
    c.evict_subtrees d Q = .ok ((c.victims Q).foldl (evict_one Q) c) := by
  have h' : ¬ c.cached_elements + d.n_elements ≤ c.cache_params.max_cached_elements :=
    Nat.not_le.2 h
  simp only [evict_subtrees, h', if_false]
  rw [evict_loop_ok _ Q _ 0 c (by rw [length_sorted_ids]; omega) (sorted_ids_nodup c Q)
    (fun i hi => (mem_sorted_ids c Q i).1 (List.mem_of_mem_drop hi))]
  rfl

theorem evict_subtrees_out_of_range (c : UsageRateCache V) (d : SubtreeID B) (Q : Nat)
    (h : c.cache_params.max_cached_elements < c.cached_elements + d.n_elements)
    (hk : c.subtrees.keys.length < c.cache_params.max_evict) :
    c.evict_subtrees d Q = .error .out_of_range := by
  have h' : ¬ c.cached_elements + d.n_elements ≤ c.cache_params.max_cached_elements :=
    Nat.not_le.2 h
  simp only [evict_subtrees, h', if_false]
  exact evict_loop_out_of_range _ Q _ 0 c (Nat.zero_le _) (by rw [length_sorted_ids]; omega)
    (sorted_ids_nodup c Q) (fun i hi => (mem_sorted_ids c Q i).1 (List.mem_of_mem_drop hi))

/-- A successful `evict_subtrees` either changes nothing or removes the victims. -/
theorem evict_subtrees_ok (c : UsageRateCache V) (d : SubtreeID B) (Q : Nat)
    (hk : c.cached_elements + d.n_elements ≤ c.cache_params.max_cached_elements ∨
      c.cache_params.max_evict ≤ c.subtrees.keys.length) :
    ∃ vs : List Nat, c.evict_subtrees d Q = .ok (vs.foldl (evict_one Q) c) ∧
      (c.cached_elements + d.n_elements ≤ c.cache_params.max_cached_elements → vs = []) ∧
      (c.cache_params.max_cached_elements < c.cached_elements + d.n_elements →
        vs = c.victims Q) := by
  rcases Nat.lt_or_ge c.cache_params.max_cached_elements (c.cached_elements + d.n_elements)
    with h | h
  · have hk' : c.cache_params.max_evict ≤ c.subtrees.keys.length := by
      rcases hk with hk | hk
      · omega
      · exact hk
    exact ⟨c.victims Q, evict_subtrees_of_evict c d Q h hk', fun h' => by omega, fun _ => rfl⟩
  · exact ⟨[], evict_subtrees_of_fits c d Q h, fun _ => rfl, fun h' => by omega⟩

/-! ### Outcome of `load_subtree` -/

theorem load_subtree_hit_eq (storage : Nat → RTree V) (c : UsageRateCache V)
    (d : SubtreeID B) (Q : Nat) (found : RTree V) (h : c.subtrees.lookup d.id = some found) :
    c.load_subtree storage d Q =
      .ok (({ c with most_recent_query_count := Q } : UsageRateCache V).update_meta d.id
        (fun m => m.on_query), found) := by
  simp [load_subtree, h]

theorem load_subtree_miss_eq (storage : Nat → RTree V) (c : UsageRateCache V)
    (d : SubtreeID B) (Q : Nat) (c1 : UsageRateCache V) (h : c.subtrees.lookup d.id = none)
    (h1 : ({ c with most_recent_query_count := Q } : UsageRateCache V).evict_subtrees d Q =
      .ok c1) :
    c.load_subtree storage d Q =
      .ok ({ c1.update_meta d.id (fun m => m.on_load Q) with
              subtrees := c1.subtrees.insert d.id (storage d.id) }, storage d.id) := by
  simp [load_subtree, h, h1, update_meta]

theorem load_subtree_miss_error (storage : Nat → RTree V) (c : UsageRateCache V)
    (d : SubtreeID B) (Q : Nat) (e : CacheError) (h : c.subtrees.lookup d.id = none)
    (h1 : ({ c with most_recent_query_count := Q } : UsageRateCache V).evict_subtrees d Q =
      .error e) :
    c.load_subtree storage d Q = .error e := by
  simp [load_subtree, h, h1]

theorem meta_load_result_ne (c : UsageRateCache V) (id : Nat) (f : MetaData → MetaData)
    (t : RTree V) {i : Nat} (h : i ≠ id) :
    ({ c.update_meta id f with subtrees := c.subtrees.insert id t } : UsageRateCache V).meta i =
      c.meta i :=
  meta_update_meta_ne c f h

theorem meta_load_result_self (c : UsageRateCache V) (id : Nat) (f : MetaData → MetaData)
    (t : RTree V) :
    ({ c.update_meta id f with subtrees := c.subtrees.insert id t } : UsageRateCache V).meta id =
      f (c.meta id) :=
  meta_update_meta_self c id f

theorem usage_rate_of_loaded_now (m : MetaData) (Q : Nat) (h : m.load_generation_ = Q) :
    m.usage_rate Q = DBL_MAX := by
  simp [MetaData.usage_rate, h]

theorem one_le_incache_count (m : MetaData) (Q : Nat) : 1 ≤ m.incache_count Q := by
  unfold MetaData.incache_count; omega

theorem usage_rate_lt_DBL_MAX (m : MetaData) (Q : Nat) (hr : m.access_count < 2 ^ 64)
    (h : m.load_generation_ ≠ Q) : m.usage_rate Q < DBL_MAX := by
  have hne : ¬ Q = m.load_generation_ := fun h' => h h'.symm
  have hb : (1 : ℚ) ≤ (m.incache_count Q : ℚ) := by
    exact_mod_cast one_le_incache_count m Q
  have ha : (m.access_count : ℚ) < 2 ^ 64 := by exact_mod_cast hr
  have hdiv : (m.access_count : ℚ) / (m.incache_count Q : ℚ) ≤ (m.access_count : ℚ) :=
    div_le_self (Nat.cast_nonneg _) hb
  have hmax : (2 : ℚ) ^ 64 < DBL_MAX := by norm_num [DBL_MAX]
  simp only [MetaData.usage_rate, hne, if_false]
  exact lt_of_le_of_lt hdiv (lt_trans ha hmax)

theorem usage_rate_le_DBL_MAX (m : MetaData) (Q : Nat) (hr : m.access_count < 2 ^ 64) :
    m.usage_rate Q ≤ DBL_MAX := by
  by_cases h : m.load_generation_ = Q
  · exact le_of_eq (usage_rate_of_loaded_now m Q h)
  · exact le_of_lt (usage_rate_lt_DBL_MAX m Q hr h)

/-- In a list in which an element satisfying `p` is only preceded by elements satisfying
`p`, the first `m` elements satisfy `p` when at least `m` elements do. -/
theorem forall_mem_take_of_le_length_filter {α : Type} (p : α → Bool) :
    ∀ (l : List α) (m : Nat), l.Pairwise (fun a b => p b = true → p a = true) →
      m ≤ (l.filter p).length → ∀ x ∈ l.take m, p x = true := by
  intro l
  induction l with
  | nil => intro m _ _ x hx; simp at hx
  | cons a l ih =>
    intro m hp hm x hx
    cases m with
    | zero => simp at hx
    | succ m =>
      rw [List.pairwise_cons] at hp
      rw [List.take_succ_cons, List.mem_cons] at hx
      by_cases ha : p a = true
      · rcases hx with rfl | hx
        · exact ha
        · rw [List.filter_cons_of_pos ha, List.length_cons] at hm
          exact ih m hp.2 (by omega) x hx
      · exfalso
        have hnil : l.filter p = [] := by
          rw [List.filter_eq_nil_iff]
          intro b hb hpb
          exact ha (hp.1 b hb hpb)
        rw [List.filter_cons_of_neg ha, hnil] at hm
        simp at hm

/-- No victim was loaded in the current generation when enough resident sub-trees were
loaded in earlier generations. -/
theorem victims_not_loaded_now (c : UsageRateCache V) (Q : Nat)
    (hrange : ∀ i ∈ c.subtrees.keys, (c.meta i).access_count < 2 ^ 64)
    (hold : c.cache_params.max_evict ≤
      (c.subtrees.keys.filter (fun i => decide ((c.meta i).load_generation_ ≠ Q))).length) :
    ∀ i ∈ c.victims Q, (c.meta i).load_generation_ ≠ Q := by
  intro i hi
  have hmemk : ∀ j, j ∈ c.subtree_ids_sorted_by_usage_rate Q → j ∈ c.subtrees.keys :=
    fun j hj => (sorted_ids_perm c Q).mem_iff.1 hj
  have hp : (c.subtree_ids_sorted_by_usage_rate Q).Pairwise
      (fun a b => decide ((c.meta b).load_generation_ ≠ Q) = true →
        decide ((c.meta a).load_generation_ ≠ Q) = true) := by
    refine List.Pairwise.imp_of_mem ?_ (sorted_ids_sorted c Q)
    intro a b _ hb hab hpb
    have hpb' : (c.meta b).load_generation_ ≠ Q := of_decide_eq_true hpb
    apply decide_eq_true
    intro ha
    have h1 : (c.meta a).usage_rate Q = DBL_MAX := usage_rate_of_loaded_now _ Q ha
    have h2 := usage_rate_lt_DBL_MAX _ Q (hrange b (hmemk b hb)) hpb'
    have h3 : (c.meta a).usage_rate Q ≤ (c.meta b).usage_rate Q := hab
    rw [h1] at h3
    exact absurd h2 (not_lt.2 h3)
  have hlen : c.cache_params.max_evict ≤ ((c.subtree_ids_sorted_by_usage_rate Q).filter
      (fun i => decide ((c.meta i).load_generation_ ≠ Q))).length := by
    rw [((sorted_ids_perm c Q).filter _).length_eq]
    exact hold
  exact of_decide_eq_true
    (forall_mem_take_of_le_length_filter _ _ _ hp hlen i hi)

theorem cached_elements_insert (c : UsageRateCache V) (id : Nat) (f : MetaData → MetaData)
    (t : RTree V) (h : id ∉ c.subtrees) :
    ({ c.update_meta id f with subtrees := c.subtrees.insert id t } :
      UsageRateCache V).cached_elements = c.cached_elements + t.size := by
  simp only [cached_elements, update_meta]
  rw [AList.insert_entries_of_neg h, List.map_cons, List.sum_cons]
  exact Nat.add_comm _ _

/-- The ids removed between two resident sets are the victims when the second is the
first without the victims. -/
theorem removed_perm {keys keys' vs : List Nat} (hnd : keys.Nodup) (hvs : vs.Nodup)
    (hsub : ∀ i ∈ vs, i ∈ keys) (h : ∀ i, i ∈ keys' ↔ i ∈ keys ∧ i ∉ vs) :
    (keys.filter (fun i => decide (i ∉ keys'))).Perm vs := by
  rw [List.perm_ext_iff_of_nodup (hnd.filter _) hvs]
  intro a
  simp only [List.mem_filter, decide_eq_true_eq, h, not_and, not_not]
  constructor
  · rintro ⟨ha, hb⟩
    exact hb ha
  · intro ha
    exact ⟨hsub a ha, fun _ => ha⟩

/-! ### One call of `load_subtree` -/

theorem victims_with_query_count (c : UsageRateCache V) (q Q : Nat) :
    ({ c with most_recent_query_count := q } : UsageRateCache V).victims Q = c.victims Q :=
  rfl

theorem load_subtree_step_hit (storage : Nat → RTree V) (c : UsageRateCache V)
    (d : SubtreeID B) (Q : Nat) (found : RTree V) (h : c.subtrees.lookup d.id = some found) :
    ∃ c', c.load_subtree storage d Q = .ok (c', found) ∧
      c'.cache_params = c.cache_params ∧ c'.subtrees = c.subtrees ∧
      c'.most_recent_query_count = Q ∧
      c'.meta d.id = (c.meta d.id).on_query ∧
      ∀ i, i ≠ d.id → c'.meta_data.lookup i = c.meta_data.lookup i := by
  refine ⟨_, load_subtree_hit_eq storage c d Q found h, rfl, rfl, rfl,
    meta_update_meta_self _ _ _, ?_⟩
  intro i hi
  simp [update_meta, AList.lookup_insert_ne hi]

theorem load_subtree_step_fits (storage : Nat → RTree V) (c : UsageRateCache V)
    (d : SubtreeID B) (Q : Nat) (h : c.subtrees.lookup d.id = none)
    (hfit : c.cached_elements + d.n_elements ≤ c.cache_params.max_cached_elements) :
    ∃ c', c.load_subtree storage d Q = .ok (c', storage d.id) ∧
      c'.cache_params = c.cache_params ∧
      c'.subtrees = c.subtrees.insert d.id (storage d.id) ∧
      c'.most_recent_query_count = Q ∧
      c'.cached_elements = c.cached_elements + (storage d.id).size ∧
      c'.meta d.id = (c.meta d.id).on_load Q ∧
      ∀ i, i ≠ d.id → c'.meta_data.lookup i = c.meta_data.lookup i := by
  have hnot : d.id ∉ c.subtrees := AList.lookup_eq_none.1 h
  have hev := evict_subtrees_of_fits
    ({ c with most_recent_query_count := Q } : UsageRateCache V) d Q hfit
  refine ⟨_, load_subtree_miss_eq storage c d Q _ h hev, rfl, rfl, rfl, ?_, ?_, ?_⟩
  · exact cached_elements_insert _ d.id _ (storage d.id) hnot
  · exact meta_load_result_self _ _ _ _
  · intro i hi
    simp [update_meta, AList.lookup_insert_ne hi]

theorem load_subtree_step_evict (storage : Nat → RTree V) (c : UsageRateCache V)
    (d : SubtreeID B) (Q : Nat) (h : c.subtrees.lookup d.id = none)
    (hfull : c.cache_params.max_cached_elements < c.cached_elements + d.n_elements)
    (hk : c.cache_params.max_evict ≤ c.subtrees.keys.length) :
    ∃ c', c.load_subtree storage d Q = .ok (c', storage d.id) ∧
      c'.cache_params = c.cache_params ∧
      c'.subtrees = ((c.victims Q).foldl (evict_one Q)
        ({ c with most_recent_query_count := Q } : UsageRateCache V)).subtrees.insert d.id
          (storage d.id) ∧
      c'.most_recent_query_count = Q ∧
      (∀ i, i ∈ c'.subtrees ↔ i = d.id ∨ (i ∈ c.subtrees ∧ i ∉ c.victims Q)) ∧
      c'.meta d.id = (c.meta d.id).on_load Q ∧
      (∀ i ∈ c.victims Q, c'.meta i = (c.meta i).on_evict Q) ∧
      (∀ i, i ≠ d.id → i ∉ c.victims Q → c'.meta i = c.meta i) := by
  have hnot : d.id ∉ c.subtrees := AList.lookup_eq_none.1 h
  have hev := evict_subtrees_of_evict
    ({ c with most_recent_query_count := Q } : UsageRateCache V) d Q hfull hk
  rw [victims_with_query_count] at hev
  have hidv : d.id ∉ c.victims Q := fun hv => hnot (mem_of_mem_victims c Q hv)
  refine ⟨_, load_subtree_miss_eq storage c d Q _ h hev, ?_, rfl, ?_, ?_, ?_, ?_, ?_⟩
  · exact cache_params_foldl_evict_one Q _ _
  · exact most_recent_foldl_evict_one Q _ _
  · intro i
    rw [AList.mem_insert, mem_foldl_evict_one]
  · rw [meta_load_result_self, meta_foldl_evict_one_of_not_mem Q _ _ _ hidv]
    rfl
  · intro i hi
    have hne : i ≠ d.id := fun h' => hidv (h' ▸ hi)
    rw [meta_load_result_ne _ _ _ _ hne, meta_foldl_evict_one_of_mem Q _ _ _ (victims_nodup c Q) hi]
    rfl
  · intro i hne hi
    rw [meta_load_result_ne _ _ _ _ hne, meta_foldl_evict_one_of_not_mem Q _ _ _ hi]
    rfl

theorem load_subtree_step_out_of_range (storage : Nat → RTree V) (c : UsageRateCache V)
    (d : SubtreeID B) (Q : Nat) (h : c.subtrees.lookup d.id = none)
    (hfull : c.cache_params.max_cached_elements < c.cached_elements + d.n_elements)
    (hk : c.subtrees.keys.length < c.cache_params.max_evict) :
    c.load_subtree storage d Q = .error .out_of_range :=
  load_subtree_miss_error storage c d Q _ h
    (evict_subtrees_out_of_range
      ({ c with most_recent_query_count := Q } : UsageRateCache V) d Q hfull hk)

theorem meta_eq_of_lookup_eq {c c' : UsageRateCache V} {i : Nat}
    (h : c'.meta_data.lookup i = c.meta_data.lookup i) : c'.meta i = c.meta i := by
  simp [UsageRateCache.meta, h]

theorem cached_elements_eq_of_subtrees_eq {c c' : UsageRateCache V}
    (h : c'.subtrees = c.subtrees) : c'.cached_elements = c.cached_elements := by
  simp [cached_elements, h]

theorem load_sequence_cons_ok (storage : Nat → RTree V) (c c' : UsageRateCache V)
    (d : SubtreeID B) (Q : Nat) (t : RTree V) (rest : List (SubtreeID B × Nat))
    (h : c.load_subtree storage d Q = .ok (c', t)) :
    load_sequence storage ((d, Q) :: rest) c = load_sequence storage rest c' := by
  simp [load_sequence, h]

theorem evict_loop_with_query_count (ids : List Nat) (q Q : Nat) :
    ∀ (n k : Nat) (c : UsageRateCache V),
      evict_loop ids Q n k ({ c with most_recent_query_count := q } : UsageRateCache V) =
        (evict_loop ids Q n k c).map (fun x => { x with most_recent_query_count := q }) := by
  intro n
  induction n with
  | zero => intro k c; rfl
  | succ n ih =>
    intro k c
    rw [evict_loop, evict_loop]
    cases ids[k]? with
    | none => rfl
    | some i =>
      cases hl : c.subtrees.lookup i with
      | none => simp only [hl]; rfl
      | some t =>
        simp only [hl]
        exact ih (k + 1) (c.evict_one Q i)

theorem evict_subtrees_with_query_count (c : UsageRateCache V) (d : SubtreeID B) (q Q : Nat) :
    ({ c with most_recent_query_count := q } : UsageRateCache V).evict_subtrees d Q =
      (c.evict_subtrees d Q).map (fun x => { x with most_recent_query_count := q }) := by
  unfold evict_subtrees
  by_cases h : c.cached_elements + d.n_elements ≤ c.cache_params.max_cached_elements
  · have h' : ({ c with most_recent_query_count := q } : UsageRateCache V).cached_elements +
        d.n_elements ≤ c.cache_params.max_cached_elements := h
    simp only [h, h', if_true]
    rfl
  · have h' : ¬ ({ c with most_recent_query_count := q } : UsageRateCache V).cached_elements +
        d.n_elements ≤ c.cache_params.max_cached_elements := h
    simp only [h, h', if_false]
    exact evict_loop_with_query_count _ q Q _ 0 c

/-- A successful `evict_subtrees` removes a duplicate-free list of resident ids. -/
theorem evict_subtrees_ok_victims (c : UsageRateCache V) (d : SubtreeID B) (Q : Nat)
    (hk : c.cached_elements + d.n_elements ≤ c.cache_params.max_cached_elements ∨
      c.cache_params.max_evict ≤ c.subtrees.keys.length) :
    ∃ vs : List Nat, c.evict_subtrees d Q = .ok (vs.foldl (evict_one Q) c) ∧
      vs.Nodup ∧ (∀ i ∈ vs, i ∈ c.subtrees) := by
  obtain ⟨vs, hev, hfit, hvs⟩ := evict_subtrees_ok c d Q hk
  refine ⟨vs, hev, ?_, ?_⟩
  · rcases Nat.lt_or_ge c.cache_params.max_cached_elements (c.cached_elements + d.n_elements)
      with h | h
    · rw [hvs h]; exact victims_nodup c Q
    · rw [hfit h]; exact List.nodup_nil
  · intro i hi
    rcases Nat.lt_or_ge c.cache_params.max_cached_elements (c.cached_elements + d.n_elements)
      with h | h
    · rw [hvs h] at hi; exact mem_of_mem_victims c Q hi
    · rw [hfit h] at hi; simp at hi

end UsageRateCache

namespace MultiIndexTreeBase

variable {V B : Type}

theorem query_loop_ok (storage : Nat → RTree V) (indexable : V → B) (predicates : B → Bool) :
    ∀ (to_query : List (SubtreeID B)) (t t' : MultiIndexTreeBase V B) (out out' : List V),
      query_loop storage indexable predicates to_query t out = .ok (t', out') →
      t'.query_count = t.query_count ∧ t'.top_rtree = t.top_rtree ∧
      UsageRateCache.load_sequence storage (to_query.map (fun d => (d, t.query_count)))
        t.subtree_cache = .ok t'.subtree_cache := by
  intro to_query
  induction to_query with
  | nil =>
    intro t t' out out' h
    simp only [query_loop, Except.ok.injEq, Prod.mk.injEq] at h
    obtain ⟨rfl, -⟩ := h
    exact ⟨rfl, rfl, rfl⟩
  | cons value rest ih =>
    intro t t' out out' h
    rw [query_loop, query_subtree, load_subtree] at h
    cases hl : t.subtree_cache.load_subtree storage value t.query_count with
    | error e => simp [hl] at h
    | ok r =>
      obtain ⟨cache, subtree⟩ := r
      simp only [hl] at h
      obtain ⟨h1, h2, h3⟩ := ih _ _ _ _ h
      refine ⟨h1, h2, ?_⟩
      rw [List.map_cons, UsageRateCache.load_sequence_cons_ok storage _ _ _ _ _ _ hl]
      exact h3

end MultiIndexTreeBase

/-! ### Coherence of the cache with the storage -/

namespace UsageRateCache

variable {V B : Type}

theorem coherent_empty (storage : Nat → RTree V) (p : UsageRateCacheParams) :
    (UsageRateCache.empty V p).coherent storage := by
  intro i tree h
  simp [UsageRateCache.empty] at h

theorem evict_loop_lookup (ids : List Nat) (Q : Nat) :
    ∀ (n k : Nat) (c c1 : UsageRateCache V), evict_loop ids Q n k c = .ok c1 →
      ∀ (i : Nat) (tree : RTree V), c1.subtrees.lookup i = some tree →
        c.subtrees.lookup i = some tree := by
  intro n
  induction n with
  | zero =>
    intro k c c1 h i tree hi
    simp only [evict_loop, Except.ok.injEq] at h
    rw [h]; exact hi
  | succ n ih =>
    intro k c c1 h i tree hi
    rw [evict_loop] at h
    cases hk : ids[k]? with
    | none => simp [hk] at h
    | some v =>
      simp only [hk] at h
      cases hl : c.subtrees.lookup v with
      | none => simp [hl] at h
      | some t0 =>
        simp only [hl] at h
        have h1 := ih (k + 1) _ c1 h i tree hi
        have h2 : (c.evict_one Q v).subtrees = c.subtrees.erase v := rfl
        rw [h2] at h1
        by_cases hiv : i = v
        · subst hiv
          rw [AList.lookup_erase] at h1
          exact absurd h1 (by simp)
        · rw [AList.lookup_erase_ne hiv] at h1
          exact h1

theorem evict_subtrees_lookup (c c1 : UsageRateCache V) (d : SubtreeID B) (Q : Nat)
    (h : c.evict_subtrees d Q = .ok c1) (i : Nat) (tree : RTree V)
    (hi : c1.subtrees.lookup i = some tree) : c.subtrees.lookup i = some tree := by
  unfold evict_subtrees at h
  by_cases hfit : c.cached_elements + d.n_elements ≤ c.cache_params.max_cached_elements
  · simp only [hfit, if_true, Except.ok.injEq] at h
    rw [h]; exact hi
  · simp only [hfit, if_false] at h
    exact evict_loop_lookup _ Q _ 0 c c1 h i tree hi

/-- A call of `load_subtree` on a coherent cache returns the tree of the storage, keeps
the cache coherent, and leaves resident only ids that were resident or the requested
one. -/
theorem load_subtree_coherent (storage : Nat → RTree V) (c c' : UsageRateCache V)
    (d : SubtreeID B) (Q : Nat) (tree : RTree V) (hc : c.coherent storage)
    (h : c.load_subtree storage d Q = .ok (c', tree)) :
    tree = storage d.id ∧ c'.coherent storage ∧
      ∀ i ∈ c'.subtrees.keys, i ∈ c.subtrees.keys ∨ i = d.id := by
  cases hfind : c.subtrees.lookup d.id with
  | some found =>
    rw [load_subtree_hit_eq storage c d Q found hfind] at h
    simp only [Except.ok.injEq, Prod.mk.injEq] at h
    obtain ⟨h1, h2⟩ := h
    subst h1 h2
    exact ⟨hc _ _ hfind, hc, fun i hi => Or.inl hi⟩
  | none =>
    cases hev : ({ c with most_recent_query_count := Q } : UsageRateCache V).evict_subtrees d Q
      with
    | error e =>
      rw [load_subtree_miss_error storage c d Q e hfind hev] at h
      exact absurd h (by simp)
    | ok c1 =>
      rw [load_subtree_miss_eq storage c d Q c1 hfind hev] at h
      simp only [Except.ok.injEq, Prod.mk.injEq] at h
      obtain ⟨h1, h2⟩ := h
      subst h1 h2
      have hsub : ∀ (i : Nat) (t0 : RTree V), c1.subtrees.lookup i = some t0 →
          c.subtrees.lookup i = some t0 :=
        fun i t0 hi => evict_subtrees_lookup _ c1 d Q hev i t0 hi
      refine ⟨rfl, ?_, ?_⟩
      · intro i t0 hi
        by_cases hid : i = d.id
        · subst hid
          have hi' : AList.lookup d.id (AList.insert d.id (storage d.id) c1.subtrees) = some t0 :=
            hi
          rw [AList.lookup_insert] at hi'
          exact (Option.some.inj hi').symm
        · have hi' : AList.lookup i (AList.insert d.id (storage d.id) c1.subtrees) = some t0 :=
            hi
          rw [AList.lookup_insert_ne hid] at hi'
          exact hc i t0 (hsub i t0 hi')
      · intro i hi
        have hi' : i ∈ AList.insert d.id (storage d.id) c1.subtrees := AList.mem_keys.2 hi
        rcases (AList.mem_insert _).1 hi' with h0 | h0
        · exact Or.inr h0
        · left
          obtain ⟨t0, ht0⟩ := Option.isSome_iff_exists.1 (AList.lookup_isSome.2 h0)
          exact AList.mem_keys.1 (AList.lookup_isSome.1 (by rw [hsub i t0 ht0]; rfl))

end UsageRateCache

namespace MultiIndexTreeBase

variable {V B : Type}

/-- With a coherent cache the loop of `query` appends the results of the stored
sub-trees, in the order of the descriptors. -/
theorem query_loop_results (storage : Nat → RTree V) (indexable : V → B)
    (predicates : B → Bool) :
    ∀ (to_query : List (SubtreeID B)) (t t' : MultiIndexTreeBase V B) (out out' : List V),
      t.subtree_cache.coherent storage →
      query_loop storage indexable predicates to_query t out = .ok (t', out') →
      out' = out ++ (to_query.map
        (fun d => (storage d.id).query indexable predicates)).flatten ∧
      t'.subtree_cache.coherent storage ∧
      ∀ i ∈ t'.subtree_cache.subtrees.keys,
        i ∈ t.subtree_cache.subtrees.keys ∨ ∃ d ∈ to_query, d.id = i := by
  intro to_query
  induction to_query with
  | nil =>
    intro t t' out out' hc h
    simp only [query_loop, Except.ok.injEq, Prod.mk.injEq] at h
    obtain ⟨rfl, rfl⟩ := h
    exact ⟨by simp, hc, fun i hi => Or.inl hi⟩
  | cons value rest ih =>
    intro t t' out out' hc h
    rw [query_loop, query_subtree, load_subtree] at h
    cases hl : t.subtree_cache.load_subtree storage value t.query_count with
    | error e => simp [hl] at h
    | ok r =>
      obtain ⟨cache, subtree⟩ := r
      simp only [hl] at h
      obtain ⟨htree, hc1, hkeys1⟩ :=
        UsageRateCache.load_subtree_coherent storage _ _ _ _ _ hc hl
      obtain ⟨h1, h2, h3⟩ := ih _ _ _ _ hc1 h
      refine ⟨?_, h2, ?_⟩
      · rw [h1, htree]
        simp [List.append_assoc]
      · intro i hi
        rcases h3 i hi with h4 | ⟨d, hd, hid⟩
        · rcases hkeys1 i h4 with h5 | h5
          · exact Or.inl h5
          · exact Or.inr ⟨value, List.mem_cons_self _ _, h5.symm⟩
        · exact Or.inr ⟨d, List.mem_cons_of_mem _ hd, hid⟩

end MultiIndexTreeBase

namespace MultiIndexTree

variable {V B : Type}

theorem inner_sweep_loop_eq_true (geometry_intersects : V → Bool) :
    ∀ values : List V, inner_sweep_loop geometry_intersects values = true ↔
      ∃ v ∈ values, geometry_intersects v = true := by
  intro values
  induction values with
  | nil => simp [inner_sweep_loop]
  | cons v rest ih =>
    rw [inner_sweep_loop]
    cases hv : geometry_intersects v with
    | true =>
      simp only [if_true, true_iff]
      exact ⟨v, List.mem_cons_self _ _, hv⟩
    | false =>
      simp only [Bool.false_eq_true, if_false, ih, List.mem_cons]
      constructor
      · rintro ⟨x, hx, hgx⟩
        exact ⟨x, Or.inr hx, hgx⟩
      · rintro ⟨x, hx | hx, hgx⟩
        · rw [hx, hv] at hgx
          exact absurd hgx (by simp)
        · exact ⟨x, hx, hgx⟩

theorem inner_sweep_eq_true (indexable : V → B) (bbox_intersects : B → Bool)
    (geometry_intersects : V → Bool) (tree : RTree V) :
    inner_sweep indexable bbox_intersects geometry_intersects tree = true ↔
      ∃ v ∈ tree.values, bbox_intersects (indexable v) = true ∧
        geometry_intersects v = true := by
  rw [inner_sweep, inner_sweep_loop_eq_true]
  simp only [RTree.query, List.mem_filter]
  constructor
  · rintro ⟨v, ⟨hv, hb⟩, hg⟩
    exact ⟨v, hv, hb, hg⟩
  · rintro ⟨v, hv, hb, hg⟩
    exact ⟨v, ⟨hv, hb⟩, hg⟩

/-- Outcome of the loop of `is_intersecting` on a coherent cache: the candidates are the
entries that pass `geometry_intersects_top`; they are loaded in order with the current
`query_count`, up to and including the first one whose stored sub-tree has a match. -/
theorem is_intersecting_loop_ok (storage : Nat → RTree V) (indexable : V → B)
    (bbox_intersects : B → Bool) (geometry_intersects_top : SubtreeID B → Bool)
    (geometry_intersects : V → Bool) :
    ∀ (entries : List (SubtreeID B)) (t t' : MultiIndexTreeBase V B) (r : Bool),
      t.subtree_cache.coherent storage →
      is_intersecting_loop storage indexable bbox_intersects geometry_intersects_top
        geometry_intersects entries t = .ok (t', r) →
      t'.query_count = t.query_count ∧ t'.top_rtree = t.top_rtree ∧
      t'.subtree_cache.coherent storage ∧
      (r = true → ∃ pre d post,
        entries.filter geometry_intersects_top = pre ++ d :: post ∧
        inner_sweep indexable bbox_intersects geometry_intersects (storage d.id) = true ∧
        (∀ x ∈ pre,
          inner_sweep indexable bbox_intersects geometry_intersects (storage x.id) = false) ∧
        UsageRateCache.load_sequence storage
          ((pre ++ [d]).map (fun x => (x, t.query_count))) t.subtree_cache =
            .ok t'.subtree_cache) ∧
      (r = false →
        (∀ x ∈ entries.filter geometry_intersects_top,
          inner_sweep indexable bbox_intersects geometry_intersects (storage x.id) = false) ∧
        UsageRateCache.load_sequence storage
          ((entries.filter geometry_intersects_top).map (fun x => (x, t.query_count)))
          t.subtree_cache = .ok t'.subtree_cache) := by
  intro entries
  induction entries with
  | nil =>
    intro t t' r hc h
    simp only [is_intersecting_loop, Except.ok.injEq, Prod.mk.injEq] at h
    obtain ⟨rfl, rfl⟩ := h
    refine ⟨rfl, rfl, hc, fun h => absurd h (by simp), fun _ => ⟨by simp, rfl⟩⟩
  | cons value rest ih =>
    intro t t' r hc h
    rw [is_intersecting_loop] at h
    by_cases hg : geometry_intersects_top value = true
    · simp only [hg, if_true, MultiIndexTreeBase.load_subtree] at h
      cases hl : t.subtree_cache.load_subtree storage value t.query_count with
      | error e => simp [hl] at h
      | ok res =>
        obtain ⟨cache, subtree⟩ := res
        simp only [hl] at h
        obtain ⟨htree, hc1, -⟩ :=
          UsageRateCache.load_subtree_coherent storage _ _ _ _ _ hc hl
        rw [htree] at h
        have hseq : ∀ l : List (SubtreeID B),
            UsageRateCache.load_sequence storage
              ((value :: l).map (fun x => (x, t.query_count))) t.subtree_cache =
            UsageRateCache.load_sequence storage (l.map (fun x => (x, t.query_count))) cache := by
          intro l
          rw [List.map_cons, UsageRateCache.load_sequence_cons_ok storage _ _ _ _ _ _ hl]
        by_cases hs : inner_sweep indexable bbox_intersects geometry_intersects
            (storage value.id) = true
        · simp only [hs, if_true, Except.ok.injEq, Prod.mk.injEq] at h
          obtain ⟨rfl, rfl⟩ := h
          refine ⟨rfl, rfl, hc1, fun _ => ?_, fun h => absurd h (by simp)⟩
          refine ⟨[], value, rest.filter geometry_intersects_top, ?_, hs, by simp, ?_⟩
          · rw [List.filter_cons_of_pos hg]; rfl
          · rw [List.nil_append, hseq []]; rfl
        · simp only [hs, if_false] at h
          have hs' : inner_sweep indexable bbox_intersects geometry_intersects
              (storage value.id) = false := by simpa using hs
          obtain ⟨h1, h2, h3, h4, h5⟩ :=
            ih { t with subtree_cache := cache } t' r hc1 h
          refine ⟨h1, h2, h3, ?_, ?_⟩
          · intro hr
            obtain ⟨pre, d, post, hsplit, hd, hpre, hload⟩ := h4 hr
            refine ⟨value :: pre, d, post, ?_, hd, ?_, ?_⟩
            · rw [List.filter_cons_of_pos hg, hsplit]; rfl
            · intro x hx
              rcases List.mem_cons.1 hx with rfl | hx
              · exact hs'
              · exact hpre x hx
            · rw [List.cons_append, hseq]; exact hload
          · intro hr
            obtain ⟨hall, hload⟩ := h5 hr
            refine ⟨?_, ?_⟩
            · intro x hx
              rw [List.filter_cons_of_pos hg] at hx
              rcases List.mem_cons.1 hx with rfl | hx
              · exact hs'
              · exact hall x hx
            · rw [List.filter_cons_of_pos hg, hseq]; exact hload
    · simp only [hg, if_false] at h
      obtain ⟨h1, h2, h3, h4, h5⟩ := ih t t' r hc h
      refine ⟨h1, h2, h3, ?_, ?_⟩
      · intro hr
        obtain ⟨pre, d, post, hsplit, hrest⟩ := h4 hr
        exact ⟨pre, d, post, by rw [List.filter_cons_of_neg hg]; exact hsplit, hrest⟩
      · intro hr
        rw [List.filter_cons_of_neg hg]
        exact h5 hr

end MultiIndexTree

/-! ### Balancing of a distributed array -/

namespace mpi

theorem overlap_comm (x y lo hi : Nat) : overlap x y lo hi = overlap lo hi x y := by
  unfold overlap
  split_ifs <;> omega

theorem overlap_le (x y lo hi : Nat) : overlap x y lo hi ≤ y - x := by
  unfold overlap
  split_ifs <;> omega

theorem sum_overlaps (x y : Nat) :
    ∀ (sizes : List Nat) (start : Nat),
      (overlaps x y sizes start).sum = min (start + sizes.sum) y - max start x := by
  intro sizes
  induction sizes with
  | nil => intro start; simp only [overlaps, List.sum_nil]; omega
  | cons size sizes ih =>
    intro start
    simp only [overlaps, List.sum_cons, ih, overlap]
    split_ifs <;> omega

theorem length_overlaps (x y : Nat) :
    ∀ (sizes : List Nat) (start : Nat), (overlaps x y sizes start).length = sizes.length := by
  intro sizes
  induction sizes with
  | nil => intro start; rfl
  | cons size sizes ih => intro start; simp [overlaps, ih]

theorem mem_overlaps_le (x y : Nat) :
    ∀ (sizes : List Nat) (start : Nat), ∀ v ∈ overlaps x y sizes start, v ≤ y - x := by
  intro sizes
  induction sizes with
  | nil => intro start v hv; simp [overlaps] at hv
  | cons size sizes ih =>
    intro start v hv
    simp only [overlaps, List.mem_cons] at hv
    rcases hv with rfl | hv
    · exact overlap_le _ _ _ _
    · exact ih _ v hv

theorem getD_overlaps (x y : Nat) :
    ∀ (sizes : List Nat) (start i : Nat), i < sizes.length →
      (overlaps x y sizes start).getD i 0 =
        overlap x y (start + (sizes.take i).sum) (start + (sizes.take (i + 1)).sum) := by
  intro sizes
  induction sizes with
  | nil => intro start i hi; simp at hi
  | cons size sizes ih =>
    intro start i hi
    cases i with
    | zero => simp [overlaps]
    | succ i =>
      have hi' : i < sizes.length := by simpa using hi
      simp only [overlaps, List.getD_cons_succ, List.take_succ_cons, List.sum_cons]
      rw [ih (start + size) i hi', Nat.add_assoc, Nat.add_assoc]

/-- The loop computes the overlaps with the balanced intervals when every overlap
fits in `int`. -/
theorem compute_balance_send_counts_loop_ok (x y : Nat) (balanced : List Nat)
    (hfit : y - x ≤ INT_MAX) :
    ∀ (n i start : Nat), i + n ≤ balanced.length →
      compute_balance_send_counts_loop x y balanced n i start start =
        .ok ((overlaps x y ((balanced.drop i).take n) start).map Int.ofNat) := by
  intro n
  induction n with
  | zero => intro i start _; simp [compute_balance_send_counts_loop, overlaps]
  | succ n ih =>
    intro i start hlen
    have hi : i < balanced.length := by omega
    have hdrop : balanced.drop i = balanced[i] :: balanced.drop (i + 1) :=
      List.drop_eq_getElem_cons hi
    rw [compute_balance_send_counts_loop, List.getElem?_eq_getElem hi]
    simp only []
    rw [ih (i + 1) (start + balanced[i]) (by omega), hdrop, List.take_succ_cons]
    simp only [overlaps, List.map_cons]
    by_cases hov : start < y ∧ x < start + balanced[i]
    · have hcast : min (start + balanced[i]) y - max start x ≤ INT_MAX := by omega
      simp [hov, safe_integer_cast_int, hcast, overlap]
    · simp [hov, overlap]

theorem check_counts_are_safe_ofNat (l : List Nat) (h : l.sum ≤ INT_MAX)
    (hl : ∀ v ∈ l, v ≤ INT_MAX) : check_counts_are_safe (l.map Int.ofNat) = true := by
  have hmap : (l.map Int.ofNat).map (fun x => (x % 2 ^ 64).toNat) = l := by
    rw [List.map_map]
    conv_rhs => rw [← List.map_id l]
    apply List.map_congr_left
    intro v hv
    have hv' := hl v hv
    simp only [Function.comp, id, INT_MAX] at hv' ⊢
    have : (Int.ofNat v) % 2 ^ 64 = Int.ofNat v := by
      apply Int.emod_eq_of_lt
      · exact Int.ofNat_nonneg v
      · have : (v : Int) < 2 ^ 64 := by omega
        exact this
    rw [this]
    rfl
  simp only [check_counts_are_safe, check_count_is_safe, hmap]
  exact decide_eq_true h

theorem take_sum_add_getElem_le (l : List Nat) (r : Nat) (h : r < l.length) :
    (l.take r).sum + l[r] ≤ l.sum := by
  have h1 : (l.take (r + 1)).sum = (l.take r).sum + l[r] := by
    rw [List.take_succ, List.sum_append, List.getElem?_eq_getElem h]
    simp
  have h2 : (l.take (r + 1)).sum ≤ l.sum := by
    conv_rhs => rw [← List.take_append_drop (r + 1) l, List.sum_append]
    exact Nat.le_add_right _ _
  omega

/-- Outcome of `compute_balance_send_counts` for balanced sizes of the right number and
total and a local count in the range of `int`: the overlaps of the local index interval
with the balanced intervals. -/
theorem compute_balance_send_counts_ok (balanced_chunk_sizes : Nat → Nat → List Nat)
    (counts : List Nat) (r : Nat) (hr : r < counts.length)
    (hlen : (balanced_chunk_sizes counts.sum counts.length).length = counts.length)
    (hfit : counts[r] ≤ INT_MAX) :
    compute_balance_send_counts balanced_chunk_sizes counts r =
      .ok ((overlaps (counts.take r).sum ((counts.take r).sum + counts[r])
        (balanced_chunk_sizes counts.sum counts.length) 0).map Int.ofNat) := by
  have hloop := compute_balance_send_counts_loop_ok (counts.take r).sum
    ((counts.take r).sum + counts[r]) (balanced_chunk_sizes counts.sum counts.length)
    (by omega) counts.length 0 0 (by omega)
  rw [List.drop_zero, List.take_of_length_le (Nat.le_of_eq hlen)] at hloop
  have hsafe := check_counts_are_safe_ofNat
    (overlaps (counts.take r).sum ((counts.take r).sum + counts[r])
      (balanced_chunk_sizes counts.sum counts.length) 0)
    (by rw [sum_overlaps]; omega)
    (fun v hv => (mem_overlaps_le _ _ _ _ v hv).trans (by omega))
  simp only [compute_balance_send_counts, List.getElem?_eq_getElem hr, hloop, hsafe, if_true]

end mpi

namespace mpi

theorem sum_map_ofNat (l : List Nat) : (l.map Int.ofNat).sum = (l.sum : Int) := by
  induction l with
  | nil => rfl
  | cons a l ih => simp only [List.map_cons, List.sum_cons, ih]; push_cast; rfl

theorem map_range_getD (l : List Nat) :
    (List.range l.length).map (fun r => l.getD r 0) = l := by
  apply List.ext_getElem
  · simp
  · intro n h1 h2
    simp only [List.getElem_map, List.getElem_range]
    exact List.getD_eq_getElem l 0 h2

theorem take_succ_sum (l : List Nat) (r : Nat) (h : r < l.length) :
    (l.take (r + 1)).sum = (l.take r).sum + l[r] := by
  rw [List.take_succ, List.sum_append, List.getElem?_eq_getElem h]
  simp

theorem take_sum_le (l : List Nat) (r : Nat) : (l.take r).sum ≤ l.sum := by
  conv_rhs => rw [← List.take_append_drop r l, List.sum_append]
  exact Nat.le_add_right _ _

theorem length_balanced_chunk_sizes (n_total n_chunks : Nat) :
    (util.balanced_chunk_sizes n_total n_chunks).length = n_chunks := by
  simp [util.balanced_chunk_sizes]

theorem getElem_balanced_chunk_sizes (n_total n_chunks i : Nat)
    (h : i < (util.balanced_chunk_sizes n_total n_chunks).length) :
    (util.balanced_chunk_sizes n_total n_chunks)[i] =
      n_total / n_chunks + (if i < n_total % n_chunks then 1 else 0) := by
  simp [util.balanced_chunk_sizes]

theorem sum_range_chunks (q m : Nat) :
    ∀ n : Nat, ((List.range n).map (fun i => q + (if i < m then 1 else 0))).sum =
      n * q + min n m := by
  intro n
  induction n with
  | zero => simp
  | succ n ih =>
    rw [List.range_succ, List.map_append, List.sum_append, ih]
    simp only [List.map_cons, List.map_nil, List.sum_cons, List.sum_nil, Nat.add_zero]
    rw [Nat.succ_mul]
    split_ifs <;> omega

theorem sum_balanced_chunk_sizes (n_total n_chunks : Nat) (h : 0 < n_chunks) :
    (util.balanced_chunk_sizes n_total n_chunks).sum = n_total := by
  rw [util.balanced_chunk_sizes, sum_range_chunks]
  have h1 : n_total % n_chunks < n_chunks := Nat.mod_lt _ h
  have h2 := Nat.div_add_mod n_total n_chunks
  rw [Nat.min_eq_right (Nat.le_of_lt h1)]
  omega

/-- Entry `i` of the send counts of rank `r`, summed over the ranks, is the size of the
balanced interval `i`, for balanced sizes of the right total. -/
theorem sum_column_overlaps (counts balanced : List Nat) (i : Nat)
    (hsum : balanced.sum = counts.sum)
    (hi : i < balanced.length) :
    ((List.range counts.length).map (fun r =>
      (overlaps (counts.take r).sum ((counts.take (r + 1)).sum) balanced 0).getD i 0)).sum =
        balanced[i] := by
  have hcol : (List.range counts.length).map (fun r =>
      (overlaps (counts.take r).sum ((counts.take (r + 1)).sum) balanced 0).getD i 0) =
      overlaps (balanced.take i).sum ((balanced.take (i + 1)).sum) counts 0 := by
    conv_rhs => rw [← map_range_getD (overlaps _ _ counts 0), length_overlaps]
    apply List.map_congr_left
    intro r hr
    rw [List.mem_range] at hr
    rw [getD_overlaps _ _ _ _ _ hi, getD_overlaps _ _ _ _ _ hr, overlap_comm]
    simp only [Nat.zero_add]
  rw [hcol, sum_overlaps, take_succ_sum balanced i hi]
  have h1 := take_sum_add_getElem_le balanced i hi
  omega

end mpi

/-! ### Geometry kernel -/

section geometry

variable {K : Type} [LinearOrderedField K]

theorem EPSILON_pos : (0 : K) < EPSILON := by
  unfold EPSILON
  positivity

theorem dot_self_nonneg (p : Point3D K) : 0 ≤ p.dot p := by
  unfold Point3D.dot
  nlinarith [mul_self_nonneg p.x, mul_self_nonneg p.y, mul_self_nonneg p.z]

theorem line_parameters_bounds (a b c d e : K) (hc : 0 ≤ c) :
    0 ≤ (distance_segment_segment.line_parameters a b c d e).sN ∧
    (distance_segment_segment.line_parameters a b c d e).sN ≤
      (distance_segment_segment.line_parameters a b c d e).sD ∧
    0 ≤ (distance_segment_segment.line_parameters a b c d e).tD := by
  have hε : (0 : K) < EPSILON := EPSILON_pos
  unfold distance_segment_segment.line_parameters
  dsimp only
  split_ifs with h1 h2 h3
  · exact ⟨le_refl _, zero_le_one, hc⟩
  · exact ⟨le_refl _, by dsimp only; linarith, hc⟩
  · exact ⟨by dsimp only; linarith, le_refl _, hc⟩
  · exact ⟨by dsimp only; linarith, by dsimp only; linarith, by dsimp only; linarith⟩

theorem edge_parameters_bounds (a b d : K) (p : SegmentParameters K)
    (h0 : 0 ≤ p.sN) (h1 : p.sN ≤ p.sD) (h2 : 0 ≤ p.tD) :
    0 ≤ (distance_segment_segment.edge_parameters a b d p).sN ∧
    (distance_segment_segment.edge_parameters a b d p).sN ≤
      (distance_segment_segment.edge_parameters a b d p).sD ∧
    0 ≤ (distance_segment_segment.edge_parameters a b d p).tN ∧
    (distance_segment_segment.edge_parameters a b d p).tN ≤
      (distance_segment_segment.edge_parameters a b d p).tD := by
  unfold distance_segment_segment.edge_parameters
  split_ifs with g1 g2 g3 g4 g5 g6
  · exact ⟨le_refl _, by dsimp only; linarith, le_refl _, h2⟩
  · exact ⟨by dsimp only; linarith, le_refl _, le_refl _, h2⟩
  · exact ⟨by dsimp only; linarith, by dsimp only; linarith, le_refl _, h2⟩
  · exact ⟨le_refl _, by dsimp only; linarith, h2, le_refl _⟩
  · exact ⟨by dsimp only; linarith, le_refl _, h2, le_refl _⟩
  · exact ⟨by dsimp only; linarith, by dsimp only; linarith, h2, le_refl _⟩
  · exact ⟨h0, h1, by linarith, by linarith⟩

/-- The numerators lie between 0 and their denominators. -/
theorem parameters_bounds (a b c d e : K) (hc : 0 ≤ c) :
    0 ≤ (distance_segment_segment.parameters a b c d e).sN ∧
    (distance_segment_segment.parameters a b c d e).sN ≤
      (distance_segment_segment.parameters a b c d e).sD ∧
    0 ≤ (distance_segment_segment.parameters a b c d e).tN ∧
    (distance_segment_segment.parameters a b c d e).tN ≤
      (distance_segment_segment.parameters a b c d e).tD := by
  obtain ⟨h0, h1, h2⟩ := line_parameters_bounds a b c d e hc
  exact edge_parameters_bounds a b d _ h0 h1 h2

/-- A final division has a value between 0 and 1 when the numerator lies between 0 and
the denominator. -/
theorem quotient_bounds (N D : K) (h0 : 0 ≤ N) (h1 : N ≤ D) :
    ∃ q, distance_segment_segment.quotient N D = some q ∧ 0 ≤ q ∧ q ≤ 1 ∧
      (abs D < EPSILON → q = 0) ∧ (q ≠ 0 → D ≠ 0 ∧ q = N / D) := by
  unfold distance_segment_segment.quotient
  by_cases hN : abs N < EPSILON
  · exact ⟨0, by simp [hN], le_refl _, zero_le_one, fun _ => rfl, fun h => absurd rfl h⟩
  · have hNε : EPSILON ≤ N := by
      rw [abs_of_nonneg h0] at hN
      exact not_lt.1 hN
    have hD : 0 < D := lt_of_lt_of_le (lt_of_lt_of_le EPSILON_pos hNε) h1
    refine ⟨N / D, by simp [hN, checked_div, ne_of_gt hD], div_nonneg h0 (le_of_lt hD),
      (div_le_one hD).2 h1, ?_, fun _ => ⟨ne_of_gt hD, rfl⟩⟩
    intro hDε
    rw [abs_of_pos hD] at hDε
    exact absurd (lt_of_le_of_lt (le_trans hNε h1) hDε) (lt_irrefl _)

theorem point_parameters_bounds (s1_0 s1_1 s2_0 s2_1 : Point3D K) :
    0 ≤ (distance_segment_segment.point_parameters s1_0 s1_1 s2_0 s2_1).sN ∧
    (distance_segment_segment.point_parameters s1_0 s1_1 s2_0 s2_1).sN ≤
      (distance_segment_segment.point_parameters s1_0 s1_1 s2_0 s2_1).sD ∧
    0 ≤ (distance_segment_segment.point_parameters s1_0 s1_1 s2_0 s2_1).tN ∧
    (distance_segment_segment.point_parameters s1_0 s1_1 s2_0 s2_1).tN ≤
      (distance_segment_segment.point_parameters s1_0 s1_1 s2_0 s2_1).tD :=
  parameters_bounds _ _ _ _ _ (dot_self_nonneg _)

theorem distance_sq_segment_points (s1_0 s1_1 s2_0 s2_1 : Point3D K) (sc tc : K) :
    (((s1_0.sub s2_0).add (Point3D.smul sc (s1_1.sub s1_0))).sub
      (Point3D.smul tc (s2_1.sub s2_0))).norm =
      ⟨distance_sq (segment_point s1_0 s1_1 sc) (segment_point s2_0 s2_1 tc)⟩ := by
  simp only [Point3D.norm, distance_sq, segment_point, Point3D.sub, Point3D.add,
    Point3D.smul, Point3D.dot, Sqrt.mk.injEq]
  ring

/-- The value of `distance_segment_segment` is the distance of two points of the
segments, with the parameters `sc` and `tc` of the final divisions. -/
theorem distance_segment_segment_eq (s1_0 s1_1 s2_0 s2_1 : Point3D K) :
    ∃ sc tc,
      distance_segment_segment.quotient
        (distance_segment_segment.point_parameters s1_0 s1_1 s2_0 s2_1).sN
        (distance_segment_segment.point_parameters s1_0 s1_1 s2_0 s2_1).sD = some sc ∧
      distance_segment_segment.quotient
        (distance_segment_segment.point_parameters s1_0 s1_1 s2_0 s2_1).tN
        (distance_segment_segment.point_parameters s1_0 s1_1 s2_0 s2_1).tD = some tc ∧
      0 ≤ sc ∧ sc ≤ 1 ∧ 0 ≤ tc ∧ tc ≤ 1 ∧
      distance_segment_segment s1_0 s1_1 s2_0 s2_1 =
        some ⟨distance_sq (segment_point s1_0 s1_1 sc) (segment_point s2_0 s2_1 tc)⟩ := by
  obtain ⟨h0, h1, h2, h3⟩ := point_parameters_bounds s1_0 s1_1 s2_0 s2_1
  obtain ⟨sc, hsc, hs0, hs1, -⟩ := quotient_bounds _ _ h0 h1
  obtain ⟨tc, htc, ht0, ht1, -⟩ := quotient_bounds _ _ h2 h3
  refine ⟨sc, tc, hsc, htc, hs0, hs1, ht0, ht1, ?_⟩
  unfold distance_segment_segment
  simp only [hsc, htc]
  rw [distance_sq_segment_points]

end geometry

/-! ### Minimum of the squared distance over the unit square -/

section minimum

variable {K : Type} [LinearOrderedField K]

end minimum

section stages

variable {K : Type} [LinearOrderedField K]

end stages

section distance

variable {K : Type} [LinearOrderedField K]

theorem sqrt_lt_eq_false (n : Sqrt K) (r : K) (h : r * r ≤ n.sq) : n.lt r = false := by
  unfold Sqrt.lt
  apply decide_eq_false
  intro hcon
  exact absurd hcon.2 (not_lt.2 h)

/-- A degenerate cylinder makes `Sphere::intersects` divide by zero. -/
theorem sphere_intersects_degenerate (s : Sphere K) (c : Cylinder K) (h : c.p1 = c.p2) :
    s.intersects c = none := by
  have hv : (c.p2.sub c.p1).dot (c.p2.sub c.p1) = 0 := by
    rw [h]
    simp [Point3D.sub, Point3D.dot]
  simp [Sphere.intersects, checked_div, hv]

end distance

/-! ### The comparisons of squares are comparisons of square roots -/

section real

theorem sqrt_lt_iff_real (x r : ℝ) :
    (Sqrt.lt ⟨x⟩ r = true) ↔ Real.sqrt x < r := by
  unfold Sqrt.lt
  rw [decide_eq_true_iff]
  constructor
  · rintro ⟨hr, h⟩
    rw [Real.sqrt_lt' hr]
    calc x < r * r := h
      _ = r ^ 2 := by ring
  · intro h
    have hr : 0 < r := lt_of_le_of_lt (Real.sqrt_nonneg x) h
    refine ⟨hr, ?_⟩
    have := (Real.sqrt_lt' hr).1 h
    calc x < r ^ 2 := this
      _ = r * r := by ring

theorem sqrt_gt_iff_real (x r : ℝ) :
    (Sqrt.gt ⟨x⟩ r = true) ↔ r < Real.sqrt x := by
  unfold Sqrt.gt
  rw [decide_eq_true_iff]
  constructor
  · rintro (h | h)
    · exact lt_of_lt_of_le h (Real.sqrt_nonneg x)
    · by_cases hr : r < 0
      · exact lt_of_lt_of_le hr (Real.sqrt_nonneg x)
      · rw [Real.lt_sqrt (not_lt.1 hr)]
        calc r ^ 2 = r * r := by ring
          _ < x := h
  · intro h
    by_cases hr : r < 0
    · exact Or.inl hr
    · right
      have := (Real.lt_sqrt (not_lt.1 hr)).1 h
      calc r * r = r ^ 2 := by ring
        _ < x := this

theorem div_lt_add_iff_real (m q r : ℝ) (hq : 0 < q) :
    (Sqrt.div_lt_add m ⟨q⟩ r = true) ↔ m / Real.sqrt q < Real.sqrt q + r := by
  have hL : 0 < Real.sqrt q := Real.sqrt_pos.2 hq
  have hLL : Real.sqrt q * Real.sqrt q = q := Real.mul_self_sqrt (le_of_lt hq)
  unfold Sqrt.div_lt_add
  rw [decide_eq_true_iff, div_lt_iff₀ hL]
  dsimp only
  have hrhs : (Real.sqrt q + r) * Real.sqrt q = q + r * Real.sqrt q := by
    rw [add_mul, hLL]
  rw [hrhs]
  constructor
  · rintro (⟨hr, h | h⟩ | ⟨hr, hk, h⟩)
    · have : 0 ≤ r * Real.sqrt q := mul_nonneg hr (le_of_lt hL)
      linarith
    · by_contra hcon
      have h1 : r * Real.sqrt q ≤ m - q := by linarith
      have h2 : 0 ≤ r * Real.sqrt q := mul_nonneg hr (le_of_lt hL)
      have h3 : (r * Real.sqrt q) * (r * Real.sqrt q) ≤ (m - q) * (m - q) :=
        mul_self_le_mul_self h2 h1
      have h4 : (r * Real.sqrt q) * (r * Real.sqrt q) = r * r * q := by
        rw [mul_mul_mul_comm, hLL]
      linarith
    · by_contra hcon
      have h1 : m - q ≤ 0 := le_of_lt hk
      have h2 : r * Real.sqrt q ≤ m - q := by linarith
      have h3 : (m - q) * (m - q) ≤ (r * Real.sqrt q) * (r * Real.sqrt q) := by
        nlinarith
      have h4 : (r * Real.sqrt q) * (r * Real.sqrt q) = r * r * q := by
        rw [mul_mul_mul_comm, hLL]
      linarith
  · intro h
    have h4 : (r * Real.sqrt q) * (r * Real.sqrt q) = r * r * q := by
      rw [mul_mul_mul_comm, hLL]
    by_cases hr : 0 ≤ r
    · left
      refine ⟨hr, ?_⟩
      by_cases hk : m - q < 0
      · exact Or.inl hk
      · right
        have h1 : m - q < r * Real.sqrt q := by linarith
        have h3 : (m - q) * (m - q) < (r * Real.sqrt q) * (r * Real.sqrt q) :=
          mul_self_lt_mul_self (not_lt.1 hk) h1
        linarith
    · right
      have hr' : r < 0 := not_le.1 hr
      have hneg : r * Real.sqrt q < 0 := mul_neg_of_neg_of_pos hr' hL
      have h1 : m - q < r * Real.sqrt q := by linarith
      refine ⟨hr', by linarith, ?_⟩
      have h3 : (r * Real.sqrt q) * (r * Real.sqrt q) < (m - q) * (m - q) := by
        nlinarith
      linarith

theorem dot_self_pos_of_ne (p q : Point3D ℝ) (h : p ≠ q) : 0 < (q.sub p).dot (q.sub p) := by
  rcases lt_or_eq_of_le (dot_self_nonneg (q.sub p)) with h0 | h0
  · exact h0
  · exfalso
    apply h
    have hx : (q.x - p.x) * (q.x - p.x) = 0 := by
      have := h0
      simp only [Point3D.sub, Point3D.dot] at this
      nlinarith [mul_self_nonneg (q.x - p.x), mul_self_nonneg (q.y - p.y),
        mul_self_nonneg (q.z - p.z)]
    have hy : (q.y - p.y) * (q.y - p.y) = 0 := by
      have := h0
      simp only [Point3D.sub, Point3D.dot] at this
      nlinarith [mul_self_nonneg (q.x - p.x), mul_self_nonneg (q.y - p.y),
        mul_self_nonneg (q.z - p.z)]
    have hz : (q.z - p.z) * (q.z - p.z) = 0 := by
      have := h0
      simp only [Point3D.sub, Point3D.dot] at this
      nlinarith [mul_self_nonneg (q.x - p.x), mul_self_nonneg (q.y - p.y),
        mul_self_nonneg (q.z - p.z)]
    obtain ⟨px, py, pz⟩ := p
    obtain ⟨qx, qy, qz⟩ := q
    simp only [Point3D.mk.injEq]
    simp only [mul_self_eq_zero, sub_eq_zero] at hx hy hz
    exact ⟨hx.symm, hy.symm, hz.symm⟩

end real

section real_sphere

/-- The test of the caps: the largest projection, divided by the length `L` of the axis,
is below `L + r` exactly when the axial coordinate of the centre lies between `-r` and
`L + r`. -/
theorem caps_test_iff (proj vv r : ℝ) (hvv : 0 < vv) :
    max (abs proj) (abs (proj - vv)) / Real.sqrt vv < Real.sqrt vv + r ↔
      -r < proj / Real.sqrt vv ∧ proj / Real.sqrt vv < Real.sqrt vv + r := by
  have hL : 0 < Real.sqrt vv := Real.sqrt_pos.2 hvv
  have hLL : Real.sqrt vv * Real.sqrt vv = vv := Real.mul_self_sqrt (le_of_lt hvv)
  have hX : (Real.sqrt vv + r) * Real.sqrt vv = vv + r * Real.sqrt vv := by
    rw [add_mul, hLL]
  rw [div_lt_iff₀ hL, lt_div_iff₀ hL, div_lt_iff₀ hL, hX, max_lt_iff, abs_lt, abs_lt]
  constructor
  · rintro ⟨⟨-, h2⟩, ⟨h3, -⟩⟩
    exact ⟨by linarith, h2⟩
  · rintro ⟨h1, h2⟩
    exact ⟨⟨by linarith, h2⟩, ⟨by linarith, by linarith⟩⟩

end real_sphere

/-! ### Sort keys -/

namespace STRKey

theorem coordinates_two {V K : Type} (G : Nat → V → K) (a : V) : coordinates G 2 a = [G 2 a] := by
  simp [coordinates, List.range']

theorem coordinates_lt_two {V K : Type} (G : Nat → V → K) (dim : Nat) (h : dim < 2) (a : V) :
    coordinates G dim a = G dim a :: coordinates G (dim + 1) a := by
  have h3 : 3 - dim = (3 - (dim + 1)) + 1 := by omega
  simp only [coordinates]
  rw [h3, List.range']
  simp

variable {V K : Type} [LinearOrder K]

theorem compare_two (G : Nat → V → K) (a b : V) :
    compare G 2 a b = decide (G 2 a < G 2 b) := by
  rw [compare]; simp [apply]

theorem compare_lt_two (G : Nat → V → K) (dim : Nat) (h : dim < 2) (a b : V) :
    compare G dim a b =
      if G dim a = G dim b then compare G (dim + 1) a b else decide (G dim a < G dim b) := by
  rw [compare]; simp [apply, h]

theorem lex_singleton (x y : K) : List.Lex (· < ·) [x] [y] ↔ x < y := by
  constructor
  · intro h
    cases h with
    | cons h => cases h
    | rel h => exact h
  · intro h
    exact List.Lex.rel h

theorem lex_cons (x y : K) (l1 l2 : List K) :
    List.Lex (· < ·) (x :: l1) (y :: l2) ↔
      (if x = y then List.Lex (· < ·) l1 l2 else x < y) := by
  by_cases hxy : x = y
  · subst hxy
    simp only [if_true]
    constructor
    · intro h
      cases h with
      | cons h => exact h
      | rel h => exact absurd h (lt_irrefl _)
    · intro h
      exact List.Lex.cons h
  · simp only [hxy, if_false]
    constructor
    · intro h
      cases h with
      | cons h => exact absurd rfl hxy
      | rel h => exact h
    · intro h
      exact List.Lex.rel h

theorem compare_iff_lex (G : Nat → V → K) (a b : V) :
    ∀ dim, dim ≤ 2 →
      (compare G dim a b = true ↔
        List.Lex (· < ·) (coordinates G dim a) (coordinates G dim b)) := by
  have h2 : compare G 2 a b = true ↔
      List.Lex (· < ·) (coordinates G 2 a) (coordinates G 2 b) := by
    rw [compare_two, coordinates_two, coordinates_two, lex_singleton]; simp
  have h1 : compare G 1 a b = true ↔
      List.Lex (· < ·) (coordinates G 1 a) (coordinates G 1 b) := by
    rw [compare_lt_two G 1 (by decide), coordinates_lt_two G 1 (by decide),
      coordinates_lt_two G 1 (by decide), lex_cons]
    split_ifs
    · exact h2
    · simp
  intro dim hdim
  interval_cases dim
  · rw [compare_lt_two G 0 (by decide), coordinates_lt_two G 0 (by decide),
      coordinates_lt_two G 0 (by decide), lex_cons]
    split_ifs
    · exact h1
    · simp
  · exact h1
  · exact h2

theorem compare_self (G : Nat → V → K) (a : V) : ∀ dim, dim ≤ 2 → compare G dim a a = false := by
  have h2 : compare G 2 a a = false := by rw [compare_two]; simp
  have h1 : compare G 1 a a = false := by rw [compare_lt_two G 1 (by decide)]; simpa using h2
  intro dim hdim
  interval_cases dim
  · rw [compare_lt_two G 0 (by decide)]; simpa using h1
  · exact h1
  · exact h2

theorem compare_asymm_step (G : Nat → V → K) (a b : V) (dim : Nat) (h : dim < 2)
    (ih : compare G (dim + 1) a b = true → compare G (dim + 1) b a = false) :
    compare G dim a b = true → compare G dim b a = false := by
  rw [compare_lt_two G dim h, compare_lt_two G dim h]
  by_cases hab : G dim a = G dim b
  · rw [if_pos hab, if_pos hab.symm]; exact ih
  · rw [if_neg hab, if_neg (Ne.symm hab)]
    intro hlt
    have hlt' : G dim a < G dim b := by simpa using hlt
    simpa using le_of_lt hlt'

theorem compare_asymm (G : Nat → V → K) (a b : V) :
    ∀ dim, dim ≤ 2 → compare G dim a b = true → compare G dim b a = false := by
  have h2 : compare G 2 a b = true → compare G 2 b a = false := by
    rw [compare_two, compare_two]
    intro hlt
    have hlt' : G 2 a < G 2 b := by simpa using hlt
    simpa using le_of_lt hlt'
  have h1 := compare_asymm_step G a b 1 (by decide) h2
  intro dim hdim
  interval_cases dim
  · exact compare_asymm_step G a b 0 (by decide) h1
  · exact h1
  · exact h2

theorem compare_trans_step (G : Nat → V → K) (a b c : V) (dim : Nat) (h : dim < 2)
    (ih : compare G (dim + 1) a b = true → compare G (dim + 1) b c = true →
      compare G (dim + 1) a c = true) :
    compare G dim a b = true → compare G dim b c = true → compare G dim a c = true := by
  rw [compare_lt_two G dim h, compare_lt_two G dim h, compare_lt_two G dim h]
  by_cases hab : G dim a = G dim b
  · by_cases hbc : G dim b = G dim c
    · rw [if_pos hab, if_pos hbc, if_pos (hab.trans hbc)]; exact ih
    · rw [if_pos hab, if_neg hbc, if_neg (by rw [hab]; exact hbc)]
      intro _ hlt
      rw [hab]; exact hlt
  · by_cases hbc : G dim b = G dim c
    · rw [if_neg hab, if_pos hbc, if_neg (by rw [← hbc]; exact hab)]
      intro hlt _
      rw [← hbc]; exact hlt
    · rw [if_neg hab, if_neg hbc]
      intro h1 h2
      have h1' : G dim a < G dim b := by simpa using h1
      have h2' : G dim b < G dim c := by simpa using h2
      have h3 : G dim a < G dim c := lt_trans h1' h2'
      rw [if_neg (ne_of_lt h3)]
      simpa using h3

theorem compare_trans (G : Nat → V → K) (a b c : V) :
    ∀ dim, dim ≤ 2 → compare G dim a b = true → compare G dim b c = true →
      compare G dim a c = true := by
  have h2 : compare G 2 a b = true → compare G 2 b c = true → compare G 2 a c = true := by
    rw [compare_two, compare_two, compare_two]
    intro h1 h2
    have h1' : G 2 a < G 2 b := by simpa using h1
    have h2' : G 2 b < G 2 c := by simpa using h2
    simpa using lt_trans h1' h2'
  have h1 := compare_trans_step G a b c 1 (by decide) h2
  intro dim hdim
  interval_cases dim
  · exact compare_trans_step G a b c 0 (by decide) h1
  · exact h1
  · exact h2

end STRKey

/-! ### Memory-mapped index files -/

theorem add_branch_loop_ok {K : Type} (neuron_id section_id : Nat) (points : List (Point3D K))
    (radii : List K) (p_start : Nat) :
    ∀ (n i : Nat) (obj : List (MorphoEntry K)),
      (n = 0 ∨ p_start + i + n < points.length) → p_start + i + n ≤ radii.length →
      ∃ segments : List (MorphoEntry K),
        add_branch_loop neuron_id section_id points radii p_start n i obj =
          .ok (obj ++ segments) ∧
        segments.length = n ∧
        ∀ k, k < n → ∃ p1 p2 radius,
          points[p_start + i + k]? = some p1 ∧ points[p_start + i + k + 1]? = some p2 ∧
          radii[p_start + i + k]? = some radius ∧
          segments[k]? = some (.segment neuron_id section_id (i + k) p1 p2 radius) := by
  intro n
  induction n with
  | zero =>
    intro i obj _ _
    exact ⟨[], by simp [add_branch_loop], rfl, fun k hk => absurd hk (Nat.not_lt_zero k)⟩
  | succ n ih =>
    intro i obj hp hr
    have hp' : p_start + i + (n + 1) < points.length := by
      rcases hp with h | h
      · exact absurd h (Nat.succ_ne_zero n)
      · exact h
    have h1 : p_start + i < points.length := by omega
    have h2 : p_start + (i + 1) < points.length := by omega
    have h3 : p_start + i < radii.length := by omega
    obtain ⟨rest, hrest, hlen, hseg⟩ :=
      ih (i + 1) (obj ++ [.segment neuron_id section_id i (points[p_start + i])
        (points[p_start + (i + 1)]) (radii[p_start + i])]) (Or.inr (by omega)) (by omega)
    refine ⟨.segment neuron_id section_id i (points[p_start + i])
      (points[p_start + (i + 1)]) (radii[p_start + i]) :: rest, ?_, by simp [hlen], ?_⟩
    · rw [add_branch_loop, List.getElem?_eq_getElem h1, List.getElem?_eq_getElem h2,
        List.getElem?_eq_getElem h3]
      simp only [hrest, List.append_assoc, List.singleton_append]
    · intro k hk
      cases k with
      | zero =>
        exact ⟨points[p_start + i], points[p_start + (i + 1)], radii[p_start + i],
          by simp [List.getElem?_eq_getElem h1], by
            rw [Nat.add_zero, Nat.add_assoc]; exact List.getElem?_eq_getElem h2,
          by simp [List.getElem?_eq_getElem h3], by simp⟩
      | succ k =>
        obtain ⟨p1, p2, radius, e1, e2, e3, e4⟩ := hseg k (by omega)
        refine ⟨p1, p2, radius, ?_, ?_, ?_, ?_⟩
        · rw [← e1]; congr 1; omega
        · rw [← e2]; congr 1; omega
        · rw [← e3]; congr 1; omega
        · rw [List.getElem?_cons_succ, e4]; congr 2; omega

theorem add_branch_loop_out_of_bounds {K : Type} (neuron_id section_id : Nat)
    (points : List (Point3D K)) (radii : List K) (p_start : Nat) :
    ∀ (n i : Nat) (obj : List (MorphoEntry K)),
      0 < n → points.length ≤ p_start + i + n →
      add_branch_loop neuron_id section_id points radii p_start n i obj =
        .error .out_of_bounds := by
  intro n
  induction n with
  | zero => intro i obj h _; exact absurd h (Nat.lt_irrefl 0)
  | succ n ih =>
    intro i obj _ hp
    rw [add_branch_loop]
    cases h1 : points[p_start + i]? with
    | none => rfl
    | some p1 =>
      cases h2 : points[p_start + (i + 1)]? with
      | none => rfl
      | some p2 =>
        cases h3 : radii[p_start + i]? with
        | none => rfl
        | some radius =>
          simp only []
          have hlt : p_start + (i + 1) < points.length := by
            by_contra hge
            rw [List.getElem?_eq_none (Nat.le_of_not_lt hge)] at h2
            exact Option.noConfusion h2
          exact ih (i + 1) _ (by omega) (by omega)

theorem to_unsigned_of_lt (x : Nat) (y : Int) (hy : (x : Int) = y) (h : x < 4294967296) :
    to_unsigned y = x := by
  subst hy
  unfold to_unsigned
  omega

theorem add_branch_ok {K : Type} (obj : List (MorphoEntry K))
    (neuron_id section_id n_segments : Nat) (points : List (Point3D K)) (radii : List K)
    (p_start : Nat) (hp : n_segments = 0 ∨ p_start + n_segments < points.length)
    (hr : p_start + n_segments ≤ radii.length) :
    ∃ segments : List (MorphoEntry K),
      add_branch obj neuron_id section_id n_segments points radii p_start =
        .ok (obj ++ segments) ∧
      segments.length = n_segments ∧
      ∀ e ∈ segments, e.is_segment_of section_id = true := by
  obtain ⟨segments, h1, h2, h3⟩ :=
    add_branch_loop_ok neuron_id section_id points radii p_start n_segments 0 obj
      (by simpa using hp) (by simpa using hr)
  refine ⟨segments, h1, h2, ?_⟩
  intro e he
  obtain ⟨k, hk, hek⟩ := List.getElem_of_mem he
  obtain ⟨p1, p2, radius, _, _, _, h4⟩ := h3 k (by omega)
  rw [List.getElem?_eq_getElem hk, hek] at h4
  rw [Option.some.inj h4]
  simp [MorphoEntry.is_segment_of]

theorem add_neuron_checks_example (npoints radii_size : Nat) (hn : 13 ≤ npoints)
    (hmax : npoints < 4294967296) (hr : npoints - 1 ≤ radii_size) :
    add_neuron_checks npoints radii_size 2 [1, 11] true = .ok [] := by
  have hu : to_unsigned ((npoints : Int) - 1) = npoints - 1 :=
    to_unsigned_of_lt (npoints - 1) _ (by omega) (by omega)
  unfold add_neuron_checks
  simp only [if_true, hu, List.foldl]
  split_ifs <;> first | rfl | omega

/-! ### Access counts along a stream of `load_subtree` calls -/

namespace UsageRateCache

variable {V B : Type}

theorem load_subtree_access_count (storage : Nat → RTree V) (c c' : UsageRateCache V)
    (d : SubtreeID B) (Q : Nat) (tree : RTree V)
    (hout : ∀ i, i ∉ c.subtrees → (c.meta i).current_access_count_ = 0)
    (hin : ∀ i, i ∈ c.subtrees → 1 ≤ (c.meta i).current_access_count_)
    (h : c.load_subtree storage d Q = .ok (c', tree)) :
    (∀ i, i ∉ c'.subtrees → (c'.meta i).current_access_count_ = 0) ∧
    (∀ i, i ∈ c'.subtrees → 1 ≤ (c'.meta i).current_access_count_) ∧
    (∀ i, (c'.meta i).access_count =
      (c.meta i).access_count + (if i = d.id then 1 else 0)) := by
  cases hl : c.subtrees.lookup d.id with
  | some found =>
    obtain ⟨c1, h1, -, hsub, -, hself, hother⟩ := load_subtree_step_hit storage c d Q found hl
    rw [h1] at h
    obtain rfl : c1 = c' := congrArg Prod.fst (Except.ok.inj h)
    have hmem : d.id ∈ c.subtrees := by
      rw [← AList.lookup_isSome, hl]; rfl
    refine ⟨?_, ?_, ?_⟩
    · intro i hi
      rw [hsub] at hi
      have hne : i ≠ d.id := fun e => hi (e ▸ hmem)
      rw [meta_eq_of_lookup_eq (hother i hne)]
      exact hout i hi
    · intro i hi
      rw [hsub] at hi
      by_cases hne : i = d.id
      · subst hne
        rw [hself]
        simp [MetaData.on_query]
      · rw [meta_eq_of_lookup_eq (hother i hne)]
        exact hin i hi
    · intro i
      by_cases hne : i = d.id
      · subst hne
        rw [hself, if_pos rfl]
        simp only [MetaData.access_count, MetaData.on_query]
        omega
      · rw [meta_eq_of_lookup_eq (hother i hne), if_neg hne, Nat.add_zero]
  | none =>
    have hnot : d.id ∉ c.subtrees := AList.lookup_eq_none.1 hl
    have hzero := hout d.id hnot
    by_cases hfit : c.cached_elements + d.n_elements ≤ c.cache_params.max_cached_elements
    · obtain ⟨c1, h1, -, hsub, -, -, hself, hother⟩ :=
        load_subtree_step_fits storage c d Q hl hfit
      rw [h1] at h
      obtain rfl : c1 = c' := congrArg Prod.fst (Except.ok.inj h)
      refine ⟨?_, ?_, ?_⟩
      · intro i hi
        rw [hsub, AList.mem_insert, not_or] at hi
        rw [meta_eq_of_lookup_eq (hother i hi.1)]
        exact hout i hi.2
      · intro i hi
        rw [hsub, AList.mem_insert] at hi
        by_cases hne : i = d.id
        · subst hne
          rw [hself]
          simp [MetaData.on_load]
        · rw [meta_eq_of_lookup_eq (hother i hne)]
          exact hin i (hi.resolve_left hne)
      · intro i
        by_cases hne : i = d.id
        · subst hne
          rw [hself, if_pos rfl]
          simp only [MetaData.access_count, MetaData.on_load]
          omega
        · rw [meta_eq_of_lookup_eq (hother i hne), if_neg hne, Nat.add_zero]
    · have hfull : c.cache_params.max_cached_elements < c.cached_elements + d.n_elements :=
        Nat.lt_of_not_le hfit
      by_cases hk : c.cache_params.max_evict ≤ c.subtrees.keys.length
      · obtain ⟨c1, h1, -, -, -, hmem, hself, hvict, hother⟩ :=
          load_subtree_step_evict storage c d Q hl hfull hk
        rw [h1] at h
        obtain rfl : c1 = c' := congrArg Prod.fst (Except.ok.inj h)
        refine ⟨?_, ?_, ?_⟩
        · intro i hi
          rw [hmem, not_or] at hi
          by_cases hv : i ∈ c.victims Q
          · rw [hvict i hv]
            rfl
          · rw [hother i hi.1 hv]
            exact hout i (fun hm => hi.2 ⟨hm, hv⟩)
        · intro i hi
          rw [hmem] at hi
          by_cases hne : i = d.id
          · subst hne
            rw [hself]
            simp [MetaData.on_load]
          · have hi' := hi.resolve_left hne
            rw [hother i hne hi'.2]
            exact hin i hi'.1
        · intro i
          by_cases hne : i = d.id
          · subst hne
            rw [hself, if_pos rfl]
            simp only [MetaData.access_count, MetaData.on_load]
            omega
          · rw [if_neg hne, Nat.add_zero]
            by_cases hv : i ∈ c.victims Q
            · rw [hvict i hv]
              simp only [MetaData.access_count, MetaData.on_evict]
              omega
            · rw [hother i hne hv]
      · rw [load_subtree_step_out_of_range storage c d Q hl hfull (Nat.lt_of_not_le hk)] at h
        exact Except.noConfusion h

theorem load_sequence_access_count (storage : Nat → RTree V) :
    ∀ (calls : List (SubtreeID B × Nat)) (c c' : UsageRateCache V),
      (∀ i, i ∉ c.subtrees → (c.meta i).current_access_count_ = 0) →
      (∀ i, i ∈ c.subtrees → 1 ≤ (c.meta i).current_access_count_) →
      load_sequence storage calls c = .ok c' →
      (∀ i, i ∉ c'.subtrees → (c'.meta i).current_access_count_ = 0) ∧
      (∀ i, i ∈ c'.subtrees → 1 ≤ (c'.meta i).current_access_count_) ∧
      (∀ i, (c'.meta i).access_count =
        (c.meta i).access_count +
          (calls.filter (fun call => decide (call.1.id = i))).length) := by
  intro calls
  induction calls with
  | nil =>
    intro c c' hout hin h
    obtain rfl : c = c' := Except.ok.inj h
    exact ⟨hout, hin, fun i => by simp⟩
  | cons call rest ih =>
    intro c c' hout hin h
    obtain ⟨d, Q⟩ := call
    cases h1 : c.load_subtree storage d Q with
    | error e =>
      simp only [load_sequence, h1] at h
      exact Except.noConfusion h
    | ok r =>
      obtain ⟨c1, tree⟩ := r
      rw [load_sequence_cons_ok storage c c1 d Q tree rest h1] at h
      obtain ⟨hout1, hin1, hacc1⟩ := load_subtree_access_count storage c c1 d Q tree hout hin h1
      obtain ⟨hout2, hin2, hacc2⟩ := ih c1 c' hout1 hin1 h
      refine ⟨hout2, hin2, ?_⟩
      intro i
      rw [hacc2 i, hacc1 i, List.filter_cons]
      by_cases hi : i = d.id
      · subst hi
        simp
        omega
      · have hi' : ¬ d.id = i := fun e => hi e.symm
        simp [hi, hi']

theorem load_sequence_append (storage : Nat → RTree V) :
    ∀ (pre post : List (SubtreeID B × Nat)) (c c' : UsageRateCache V),
      load_sequence storage (pre ++ post) c = .ok c' →
      ∃ c0, load_sequence storage pre c = .ok c0 ∧ load_sequence storage post c0 = .ok c' := by
  intro pre
  induction pre with
  | nil => intro post c c' h; exact ⟨c, rfl, h⟩
  | cons call rest ih =>
    intro post c c' h
    obtain ⟨d, Q⟩ := call
    cases h1 : c.load_subtree storage d Q with
    | error e =>
      simp only [List.cons_append, load_sequence, h1] at h
      exact Except.noConfusion h
    | ok r =>
      obtain ⟨c1, tree⟩ := r
      rw [List.cons_append, load_sequence_cons_ok storage c c1 d Q tree _ h1] at h
      obtain ⟨c0, h2, h3⟩ := ih post c1 c' h
      exact ⟨c0, by rw [load_sequence_cons_ok storage c c1 d Q tree _ h1]; exact h2, h3⟩

theorem empty_meta (p : UsageRateCacheParams) (i : Nat) :
    (UsageRateCache.empty V p).meta i = MetaData.init := rfl

end UsageRateCache

namespace MultiIndexTree

variable {V B : Type}

theorem is_intersecting_loop_query_count (storage : Nat → RTree V) (indexable : V → B)
    (bbox_intersects : B → Bool) (geometry_intersects_top : SubtreeID B → Bool)
    (geometry_intersects : V → Bool) :
    ∀ (entries : List (SubtreeID B)) (t t' : MultiIndexTreeBase V B) (r : Bool),
      is_intersecting_loop storage indexable bbox_intersects geometry_intersects_top
        geometry_intersects entries t = .ok (t', r) →
      t'.query_count = t.query_count := by
  intro entries
  induction entries with
  | nil =>
    intro t t' r h
    simp only [is_intersecting_loop] at h
    obtain rfl : t = t' := congrArg Prod.fst (Except.ok.inj h)
    rfl
  | cons value rest ih =>
    intro t t' r h
    rw [is_intersecting_loop] at h
    cases hg : geometry_intersects_top value with
    | false =>
      rw [hg] at h
      exact ih t t' r h
    | true =>
      rw [hg] at h
      simp only [if_true] at h
      cases hl : t.load_subtree storage value with
      | error e =>
        rw [hl] at h
        exact Except.noConfusion h
      | ok p =>
        obtain ⟨t1, tree⟩ := p
        rw [hl] at h
        simp only [] at h
        have hq : t1.query_count = t.query_count := by
          unfold MultiIndexTreeBase.load_subtree at hl
          cases hc : t.subtree_cache.load_subtree storage value t.query_count with
          | error e =>
            rw [hc] at hl
            exact Except.noConfusion hl
          | ok q =>
            obtain ⟨cache, subtree⟩ := q
            rw [hc] at hl
            have ht : ({ t with subtree_cache := cache } : MultiIndexTreeBase V B) = t1 :=
              congrArg Prod.fst (Except.ok.inj hl)
            rw [← ht]
        cases hs : inner_sweep indexable bbox_intersects geometry_intersects tree with
        | true =>
          rw [hs] at h
          simp only [if_true] at h
          obtain rfl : t1 = t' := congrArg Prod.fst (Except.ok.inj h)
          exact hq
        | false =>
          rw [hs] at h
          exact (ih t1 t' r h).trans hq

end MultiIndexTree

/-! ### Orientation of the axis in the sphere-cylinder test -/

section orientation

variable {K : Type} [LinearOrderedField K]

theorem dot_self_ne_zero_of_ne (p q : Point3D K) (h : p ≠ q) : (q.sub p).dot (q.sub p) ≠ 0 := by
  intro h0
  apply h
  simp only [Point3D.sub, Point3D.dot] at h0
  have hx : (q.x - p.x) * (q.x - p.x) = 0 := by
    nlinarith [mul_self_nonneg (q.x - p.x), mul_self_nonneg (q.y - p.y),
      mul_self_nonneg (q.z - p.z)]
  have hy : (q.y - p.y) * (q.y - p.y) = 0 := by
    nlinarith [mul_self_nonneg (q.x - p.x), mul_self_nonneg (q.y - p.y),
      mul_self_nonneg (q.z - p.z)]
  have hz : (q.z - p.z) * (q.z - p.z) = 0 := by
    nlinarith [mul_self_nonneg (q.x - p.x), mul_self_nonneg (q.y - p.y),
      mul_self_nonneg (q.z - p.z)]
  obtain ⟨px, py, pz⟩ := p
  obtain ⟨qx, qy, qz⟩ := q
  simp only [Point3D.mk.injEq]
  simp only [mul_self_eq_zero, sub_eq_zero] at hx hy hz
  exact ⟨hx.symm, hy.symm, hz.symm⟩

theorem sphere_intersects_form (s : Sphere K) (c : Cylinder K)
    (hv : (c.p2.sub c.p1).dot (c.p2.sub c.p1) ≠ 0) :
    s.intersects c =
      some (if Sqrt.gt ⟨(s.centroid.sub c.p1).dot (s.centroid.sub c.p1) -
          (s.centroid.sub c.p1).dot (c.p2.sub c.p1) * (s.centroid.sub c.p1).dot (c.p2.sub c.p1) /
            (c.p2.sub c.p1).dot (c.p2.sub c.p1)⟩ (s.radius + c.radius) = true
        then false
        else Sqrt.div_lt_add
          (max (abs ((s.centroid.sub c.p1).dot (c.p2.sub c.p1)))
            (abs ((s.centroid.sub c.p2).dot (c.p2.sub c.p1))))
          ⟨(c.p2.sub c.p1).dot (c.p2.sub c.p1)⟩ s.radius) := by
  unfold Sphere.intersects
  simp only [checked_div, if_neg hv, Point3D.norm]
  split_ifs <;> rfl

theorem sphere_intersects_swap (s : Sphere K) (p1 p2 : Point3D K) (radius : K)
    (hne : p1 ≠ p2) :
    s.intersects ⟨p1, p2, radius⟩ = s.intersects ⟨p2, p1, radius⟩ := by
  have hv := dot_self_ne_zero_of_ne p1 p2 hne
  have hv' := dot_self_ne_zero_of_ne p2 p1 (Ne.symm hne)
  have hvv : (p1.sub p2).dot (p1.sub p2) = (p2.sub p1).dot (p2.sub p1) := by
    simp only [Point3D.sub, Point3D.dot]; ring
  have hproj : (s.centroid.sub p2).dot (p1.sub p2) = -((s.centroid.sub p2).dot (p2.sub p1)) := by
    simp only [Point3D.sub, Point3D.dot]; ring
  have hproj' : (s.centroid.sub p1).dot (p1.sub p2) = -((s.centroid.sub p1).dot (p2.sub p1)) := by
    simp only [Point3D.sub, Point3D.dot]; ring
  have hdist : (s.centroid.sub p2).dot (s.centroid.sub p2) -
      (s.centroid.sub p2).dot (p1.sub p2) * (s.centroid.sub p2).dot (p1.sub p2) /
        (p1.sub p2).dot (p1.sub p2) =
      (s.centroid.sub p1).dot (s.centroid.sub p1) -
      (s.centroid.sub p1).dot (p2.sub p1) * (s.centroid.sub p1).dot (p2.sub p1) /
        (p2.sub p1).dot (p2.sub p1) := by
    rw [hvv, hproj]
    have hwv : (s.centroid.sub p2).dot (p2.sub p1) =
        (s.centroid.sub p1).dot (p2.sub p1) - (p2.sub p1).dot (p2.sub p1) := by
      simp only [Point3D.sub, Point3D.dot]; ring
    have hww : (s.centroid.sub p2).dot (s.centroid.sub p2) =
        (s.centroid.sub p1).dot (s.centroid.sub p1) - 2 * (s.centroid.sub p1).dot (p2.sub p1) +
          (p2.sub p1).dot (p2.sub p1) := by
      simp only [Point3D.sub, Point3D.dot]; ring
    rw [hwv, hww]
    field_simp
    ring
  rw [sphere_intersects_form s ⟨p1, p2, radius⟩ hv, sphere_intersects_form s ⟨p2, p1, radius⟩ hv']
  simp only []
  rw [hdist, hvv, hproj, hproj', abs_neg, abs_neg,
    max_comm (abs ((s.centroid.sub p2).dot (p2.sub p1)))]

end orientation

/-! ### The exchange keeps the global sequence -/

namespace mpi

theorem take_overlaps (x y : Nat) :
    ∀ (sizes : List Nat) (start i : Nat),
      (overlaps x y sizes start).take i = overlaps x y (sizes.take i) start := by
  intro sizes
  induction sizes with
  | nil => intro start i; simp [overlaps]
  | cons size sizes ih =>
    intro start i
    cases i with
    | zero => simp [overlaps]
    | succ i => simp [overlaps, ih]

theorem getD_offsets_from_counts (l : List Nat) (i : Nat) (hi : i ≤ l.length) :
    ((offsets_from_counts (l.map Int.ofNat)).getD i 0).toNat = (l.take i).sum := by
  have hlt : i < (List.range ((l.map Int.ofNat).length + 1)).length := by
    simp; omega
  have hsum : ((l.map Int.ofNat).take i).sum = (((l.take i).sum : Nat) : Int) := by
    rw [← List.map_take, sum_map_ofNat]
  unfold offsets_from_counts
  rw [List.getD_eq_getElem?_getD, List.getElem?_map, List.getElem?_eq_getElem hlt,
    List.getElem_range]
  simp only [Option.map_some', Option.getD_some]
  rw [hsum]
  exact Int.toNat_ofNat _

theorem getD_map_ofNat (l : List Nat) (i : Nat) :
    ((l.map Int.ofNat).getD i 0).toNat = l.getD i 0 := by
  rw [List.getD_eq_getElem?_getD, List.getD_eq_getElem?_getD, List.getElem?_map]
  cases l[i]? <;> simp

theorem take_sum_mono (l : List Nat) {i j : Nat} (h : i ≤ j) :
    (l.take i).sum ≤ (l.take j).sum := by
  have : l.take i = (l.take j).take i := by
    rw [List.take_take, Nat.min_eq_left h]
  rw [this]
  exact take_sum_le _ _

theorem slice_append {α : Type} (l : List α) {a b c : Nat} (hab : a ≤ b) (hbc : b ≤ c) :
    slice l a b ++ slice l b c = slice l a c := by
  unfold slice
  have h1 : l.drop b = (l.drop a).drop (b - a) := by
    rw [List.drop_drop]; congr 1; omega
  have h2 : c - a = (b - a) + (c - b) := by omega
  rw [h1, h2, List.take_add]

theorem slice_self {α : Type} (l : List α) {a b : Nat} (h : b ≤ a) : slice l a b = [] := by
  unfold slice
  rw [Nat.sub_eq_zero_of_le h, List.take_zero]

theorem slice_all {α : Type} (l : List α) {b : Nat} (h : l.length ≤ b) : slice l 0 b = l := by
  unfold slice
  rw [List.drop_zero, Nat.sub_zero, List.take_of_length_le h]

theorem slice_slice {α : Type} (l : List α) (x y a b : Nat) (h : x + b ≤ y) :
    slice (slice l x y) a b = slice l (x + a) (x + b) := by
  unfold slice
  rw [List.drop_take, List.drop_drop, List.take_take]
  congr 1
  omega

theorem flatten_slices {α : Type} (l : List α) (f : Nat → Nat) :
    ∀ n, (∀ k, k < n → f k ≤ f (k + 1)) →
      ((List.range n).map (fun k => slice l (f k) (f (k + 1)))).flatten =
        slice l (f 0) (f n) ∧ f 0 ≤ f n := by
  intro n
  induction n with
  | zero => intro _; exact ⟨by simp [slice], Nat.le_refl _⟩
  | succ n ih =>
    intro hf
    obtain ⟨h1, h2⟩ := ih (fun k hk => hf k (Nat.lt_succ_of_lt hk))
    have h3 := hf n (Nat.lt_succ_self n)
    refine ⟨?_, Nat.le_trans h2 h3⟩
    rw [List.range_succ, List.map_append, List.flatten_append, h1]
    simp only [List.map_cons, List.map_nil, List.flatten_cons, List.flatten_nil,
      List.append_nil]
    exact slice_append l h2 h3

theorem getD_eq_slice_flatten {α : Type} :
    ∀ (arrays : List (List α)) (r : Nat), r < arrays.length →
      arrays.getD r [] =
        slice arrays.flatten ((arrays.map List.length).take r).sum
          ((arrays.map List.length).take (r + 1)).sum := by
  intro arrays
  induction arrays with
  | nil => intro r hr; simp at hr
  | cons a rest ih =>
    intro r hr
    cases r with
    | zero =>
      simp [slice]
    | succ r =>
      have hr' : r < rest.length := by simpa using hr
      rw [List.getD_cons_succ, ih r hr']
      simp only [List.map_cons, List.take_succ_cons, List.sum_cons, List.flatten_cons, slice]
      rw [List.drop_append_eq_append_drop]
      have hd : List.drop (a.length + ((rest.map List.length).take r).sum) a = [] :=
        List.drop_of_length_le (Nat.le_add_right _ _)
      have h1 : a.length + ((rest.map List.length).take r).sum - a.length =
          ((rest.map List.length).take r).sum := by omega
      have h2 : a.length + ((rest.map List.length).take (r + 1)).sum -
          (a.length + ((rest.map List.length).take r).sum) =
          ((rest.map List.length).take (r + 1)).sum - ((rest.map List.length).take r).sum := by
        omega
      rw [hd, h1, h2, List.nil_append]

theorem sum_map_length_flatten {α : Type} (arrays : List (List α)) :
    (arrays.map List.length).sum = arrays.flatten.length := by
  rw [List.length_flatten]

theorem slice_congr {α : Type} (l : List α) {a b a' b' : Nat}
    (h : (a = a' ∧ b = b') ∨ (b ≤ a ∧ b' ≤ a')) : slice l a b = slice l a' b' := by
  rcases h with ⟨rfl, rfl⟩ | ⟨h1, h2⟩
  · rfl
  · rw [slice_self l h1, slice_self l h2]

theorem send_block_overlaps {α : Type} (D : List α) (x y : Nat) (B : List Nat) (i : Nat)
    (hi : i < B.length) (hxy : x ≤ y) :
    send_block D ((overlaps x y B 0).map Int.ofNat) i =
      slice D (max x (min (B.take i).sum y) - x) (max x (min (B.take (i + 1)).sum y) - x) := by
  have hmono : (B.take i).sum ≤ (B.take (i + 1)).sum := take_sum_mono B (Nat.le_add_right i 1)
  unfold send_block slice
  rw [getD_offsets_from_counts _ i (by rw [length_overlaps]; omega), take_overlaps,
    sum_overlaps, getD_map_ofNat, getD_overlaps x y B 0 i hi]
  simp only [overlap, Nat.zero_add]
  congr 1
  · split_ifs <;> omega
  · congr 1
    omega

theorem flatten_send_blocks {α : Type} (D : List α) (x y : Nat) (B : List Nat)
    (hD : D.length = y - x) (hxy : x ≤ y) (hB : y ≤ B.sum) :
    ((List.range B.length).map
      (fun i => send_block D ((overlaps x y B 0).map Int.ofNat) i)).flatten = D := by
  have hmap : (List.range B.length).map
      (fun i => send_block D ((overlaps x y B 0).map Int.ofNat) i) =
      (List.range B.length).map (fun i =>
        slice D ((fun k => max x (min (B.take k).sum y) - x) i)
          ((fun k => max x (min (B.take k).sum y) - x) (i + 1))) := by
    apply List.map_congr_left
    intro i hi
    exact send_block_overlaps D x y B i (List.mem_range.1 hi) hxy
  rw [hmap, (flatten_slices D (fun k => max x (min (B.take k).sum y) - x) B.length
    (fun k _ => by
      have := take_sum_mono B (Nat.le_add_right k 1)
      beta_reduce
      omega)).1]
  simp only [List.take_zero, List.sum_nil, List.take_length]
  have h0 : max x (min 0 y) - x = 0 := by omega
  rw [h0]
  exact slice_all D (by omega)

theorem received_eq_slice {α : Type} (arrays : List (List α)) (B : List Nat) (i : Nat)
    (hi : i < B.length) (hsum : B.sum = (arrays.map List.length).sum) :
    received arrays
      (fun r => (overlaps ((arrays.map List.length).take r).sum
        ((arrays.map List.length).take (r + 1)).sum B 0).map Int.ofNat) i =
      slice arrays.flatten (B.take i).sum (B.take (i + 1)).sum := by
  have hB : (B.take i).sum ≤ (B.take (i + 1)).sum := take_sum_mono B (Nat.le_add_right i 1)
  have hBt : (B.take (i + 1)).sum ≤ (arrays.map List.length).sum := by
    rw [← hsum]; exact take_sum_le _ _
  have hmap : (List.range arrays.length).map
      (fun r => send_block (arrays.getD r [])
        ((overlaps ((arrays.map List.length).take r).sum
          ((arrays.map List.length).take (r + 1)).sum B 0).map Int.ofNat) i) =
      (List.range arrays.length).map (fun r =>
        slice arrays.flatten
          ((fun k => max (B.take i).sum
            (min ((arrays.map List.length).take k).sum (B.take (i + 1)).sum)) r)
          ((fun k => max (B.take i).sum
            (min ((arrays.map List.length).take k).sum (B.take (i + 1)).sum)) (r + 1))) := by
    apply List.map_congr_left
    intro r hr
    have hr' : r < arrays.length := List.mem_range.1 hr
    have hx : ((arrays.map List.length).take r).sum ≤
        ((arrays.map List.length).take (r + 1)).sum := take_sum_mono _ (Nat.le_add_right r 1)
    rw [getD_eq_slice_flatten arrays r hr', send_block_overlaps _ _ _ B i hi hx,
      slice_slice _ _ _ _ _ (by omega)]
    apply slice_congr
    simp only []
    omega
  unfold received
  rw [hmap, (flatten_slices arrays.flatten (fun k => max (B.take i).sum
      (min ((arrays.map List.length).take k).sum (B.take (i + 1)).sum)) arrays.length
    (fun k _ => by
      have := take_sum_mono (arrays.map List.length) (Nat.le_add_right k 1)
      beta_reduce
      omega)).1]
  have hall : (arrays.map List.length).take arrays.length = arrays.map List.length :=
    List.take_of_length_le (by simp)
  simp only [List.take_zero, List.sum_nil, hall]
  apply slice_congr
  left
  constructor <;> omega

theorem flatten_received {α : Type} (arrays : List (List α)) (B : List Nat)
    (hsum : B.sum = (arrays.map List.length).sum) :
    ((List.range B.length).map (fun i => received arrays
      (fun r => (overlaps ((arrays.map List.length).take r).sum
        ((arrays.map List.length).take (r + 1)).sum B 0).map Int.ofNat) i)).flatten =
      arrays.flatten := by
  have hmap : (List.range B.length).map (fun i => received arrays
      (fun r => (overlaps ((arrays.map List.length).take r).sum
        ((arrays.map List.length).take (r + 1)).sum B 0).map Int.ofNat) i) =
      (List.range B.length).map (fun i =>
        slice arrays.flatten ((fun k => (B.take k).sum) i) ((fun k => (B.take k).sum) (i + 1))) := by
    apply List.map_congr_left
    intro i hi
    exact received_eq_slice arrays B i (List.mem_range.1 hi) hsum
  rw [hmap, (flatten_slices arrays.flatten (fun k => (B.take k).sum) B.length
    (fun k _ => take_sum_mono B (Nat.le_add_right k 1))).1]
  simp only [List.take_zero, List.sum_nil, List.take_length]
  exact slice_all _ (by rw [hsum, sum_map_length_flatten])

theorem balanced_chunk_sizes_antitone (n_total n_chunks j k : Nat) (hjk : j ≤ k)
    (hk : k < n_chunks) :
    (util.balanced_chunk_sizes n_total n_chunks).getD k 0 ≤
      (util.balanced_chunk_sizes n_total n_chunks).getD j 0 := by
  have hk' : k < (util.balanced_chunk_sizes n_total n_chunks).length := by
    rw [length_balanced_chunk_sizes]; exact hk
  have hj' : j < (util.balanced_chunk_sizes n_total n_chunks).length := by omega
  rw [List.getD_eq_getElem _ _ hk', List.getD_eq_getElem _ _ hj',
    getElem_balanced_chunk_sizes, getElem_balanced_chunk_sizes]
  split_ifs <;> omega

theorem overlap_contiguous (x y : Nat) (B : List Nat) (i j k : Nat) (hij : i < j) (hjk : j < k)
    (hk : k < B.length) (hanti : B.getD k 0 ≤ B.getD j 0)
    (hi0 : overlap x y (B.take i).sum (B.take (i + 1)).sum ≠ 0)
    (hk0 : overlap x y (B.take k).sum (B.take (k + 1)).sum ≠ 0) :
    overlap x y (B.take j).sum (B.take (j + 1)).sum ≠ 0 := by
  have h1 : (B.take (i + 1)).sum ≤ (B.take j).sum := take_sum_mono B hij
  have h2 : (B.take (j + 1)).sum ≤ (B.take k).sum := take_sum_mono B hjk
  have h3 := take_succ_sum B j (by omega)
  have h4 := take_succ_sum B k hk
  rw [List.getD_eq_getElem _ _ hk, List.getD_eq_getElem _ _ (by omega : j < B.length)] at hanti
  unfold overlap at hi0 hk0 ⊢
  split_ifs at hi0 hk0 ⊢ <;> omega

end mpi

namespace mpi

theorem getD_map_ofNat_eq (l : List Nat) (i : Nat) :
    (l.map Int.ofNat).getD i 0 = ((l.getD i 0 : Nat) : Int) := by
  rw [List.getD_eq_getElem?_getD, List.getD_eq_getElem?_getD, List.getElem?_map]
  cases l[i]? <;> simp

theorem sum_balanced_chunk_sizes_length (counts : List Nat) :
    (util.balanced_chunk_sizes counts.sum counts.length).sum = counts.sum := by
  cases counts with
  | nil => rfl
  | cons c rest => exact sum_balanced_chunk_sizes _ _ (by simp)

end mpi

/-! ### Victims loaded in the current generation -/

namespace UsageRateCache

variable {V B : Type}

/-- When fewer residents than `max_evict` were loaded in another generation than `Q`, a
victim of the eviction at generation `Q` was loaded in generation `Q`. -/
theorem exists_victim_loaded_now (c : UsageRateCache V) (Q : Nat)
    (hk : c.cache_params.max_evict ≤ c.subtrees.keys.length)
    (hfew : (c.subtrees.keys.filter
      (fun i => decide ((c.meta i).load_generation_ ≠ Q))).length < c.cache_params.max_evict) :
    ∃ i ∈ c.victims Q, (c.meta i).load_generation_ = Q := by
  by_contra hcon
  have hall : ∀ i ∈ c.victims Q, (c.meta i).load_generation_ ≠ Q := by
    intro i hi hg
    exact hcon ⟨i, hi, hg⟩
  have hsub : c.victims Q ⊆
      c.subtrees.keys.filter (fun i => decide ((c.meta i).load_generation_ ≠ Q)) := by
    intro i hi
    rw [List.mem_filter]
    exact ⟨AList.mem_keys.1 (mem_of_mem_victims c Q hi), decide_eq_true (hall i hi)⟩
  have hle := (List.subperm_of_subset (victims_nodup c Q) hsub).length_le
  rw [length_victims c Q hk] at hle
  omega

end UsageRateCache

/-! ### The branch of `distance_segment_segment` for lines treated as parallel -/

section parallel

variable {K : Type} [LinearOrderedField K]

end parallel

section parallel_exact

variable {K : Type} [LinearOrderedField K]

end parallel_exact

/-! ## The claims -/

open UsageRateCache

/-- C1 (as stated, refuted): with room for one element and `max_evict = 1`, sub-tree 0 is
loaded at generation 0 and is resident with `load_generation_ = 0`; the next call, for
sub-tree 1 at the same generation 0, evicts it: only sub-tree 1 is resident afterwards. -/
theorem current_generation_evicted_counterexample :
    ((load_sequence unit_storage [((⟨0, 1, ()⟩ : SubtreeID Unit), 0)]
        (UsageRateCache.empty Unit ⟨1, 1⟩)).toOption.map
          (fun c => (c.subtrees.keys, (c.meta 0).load_generation_)) = some ([0], 0)) ∧
    ((load_sequence unit_storage
        [((⟨0, 1, ()⟩ : SubtreeID Unit), 0), ((⟨1, 1, ()⟩ : SubtreeID Unit), 0)]
        (UsageRateCache.empty Unit ⟨1, 1⟩)).toOption.map
          (fun c => c.subtrees.keys) = some [1]) := by
  decide!

/-- C1 (amended): in a cache whose resident sub-trees were loaded at generations up to
`Q`, with access counts in the range of `size_t`, a call `load_subtree(d, Q)` that is a
hit, or needs no eviction, or finds at least `max_evict` resident sub-trees loaded in
another generation, succeeds and keeps every resident sub-tree whose `load_generation_` is
`Q` resident, with its `load_generation_` unchanged; the requested sub-tree is resident
afterwards.  Every other call that returns (a miss that needs an eviction while fewer than
`max_evict` resident sub-trees were loaded in another generation) evicts a sub-tree whose
`load_generation_` is `Q`. -/
theorem load_subtree_keeps_current_generation {V B : Type} (storage : Nat → RTree V)
    (c : UsageRateCache V) (d : SubtreeID B) (Q : Nat)
    (_hgen : ∀ i ∈ c.subtrees.keys, (c.meta i).load_generation_ ≤ Q)
    (hrange : ∀ i ∈ c.subtrees.keys, (c.meta i).access_count < 2 ^ 64) :
    ((d.id ∈ c.subtrees.keys ∨
        c.cached_elements + d.n_elements ≤ c.cache_params.max_cached_elements ∨
        c.cache_params.max_evict ≤
          (c.subtrees.keys.filter
            (fun i => decide ((c.meta i).load_generation_ ≠ Q))).length) →
      ∃ c' t, c.load_subtree storage d Q = .ok (c', t) ∧ d.id ∈ c'.subtrees.keys ∧
        ∀ i ∈ c.subtrees.keys, (c.meta i).load_generation_ = Q →
          i ∈ c'.subtrees.keys ∧ (c'.meta i).load_generation_ = Q) ∧
    (∀ c' t, c.load_subtree storage d Q = .ok (c', t) →
      ¬ (d.id ∈ c.subtrees.keys ∨
        c.cached_elements + d.n_elements ≤ c.cache_params.max_cached_elements ∨
        c.cache_params.max_evict ≤
          (c.subtrees.keys.filter
            (fun i => decide ((c.meta i).load_generation_ ≠ Q))).length) →
      ∃ i ∈ c.subtrees.keys, (c.meta i).load_generation_ = Q ∧ i ∉ c'.subtrees.keys) := by
  constructor
  · intro hcase
    cases hfind : c.subtrees.lookup d.id with
    | some found =>
      have hin : d.id ∈ c.subtrees := AList.lookup_isSome.1 (by simp [hfind])
      refine ⟨_, found, load_subtree_hit_eq storage c d Q found hfind, AList.mem_keys.1 hin, ?_⟩
      intro i hi hg
      refine ⟨hi, ?_⟩
      by_cases hid : i = d.id
      · subst hid
        rw [meta_update_meta_self]
        exact hg
      · rw [meta_update_meta_ne _ _ hid]
        exact hg
    | none =>
      have hnot : d.id ∉ c.subtrees := AList.lookup_eq_none.1 hfind
      have hcase' : c.cached_elements + d.n_elements ≤ c.cache_params.max_cached_elements ∨
          c.cache_params.max_evict ≤
            (c.subtrees.keys.filter
              (fun i => decide ((c.meta i).load_generation_ ≠ Q))).length := by
        rcases hcase with h | h
        · exact absurd (AList.mem_keys.2 h) hnot
        · exact h
      have hk : c.cached_elements + d.n_elements ≤ c.cache_params.max_cached_elements ∨
          c.cache_params.max_evict ≤ c.subtrees.keys.length := by
        rcases hcase' with h | h
        · exact Or.inl h
        · exact Or.inr (h.trans (List.length_filter_le _ _))
      obtain ⟨vs, hev, hfit, hvs⟩ := evict_subtrees_ok
        ({ c with most_recent_query_count := Q } : UsageRateCache V) d Q hk
      refine ⟨_, _, load_subtree_miss_eq storage c d Q _ hfind hev, ?_, ?_⟩
      · exact AList.mem_keys.1 ((AList.mem_insert _).2 (Or.inl rfl))
      · intro i hi hg
        have hne : i ≠ d.id := fun h => hnot (h ▸ AList.mem_keys.2 hi)
        have hiv : i ∉ vs := by
          intro hmem
          rcases Nat.lt_or_ge c.cache_params.max_cached_elements
            (c.cached_elements + d.n_elements) with h | h
          · have hold : c.cache_params.max_evict ≤
                (c.subtrees.keys.filter
                  (fun i => decide ((c.meta i).load_generation_ ≠ Q))).length := by
              rcases hcase' with h' | h'
              · exact absurd h' (Nat.not_le.2 h)
              · exact h'
            have hv := hvs h
            rw [hv] at hmem
            exact victims_not_loaded_now
              ({ c with most_recent_query_count := Q } : UsageRateCache V) Q hrange hold i hmem hg
          · rw [hfit h] at hmem
            simp at hmem
        constructor
        · apply AList.mem_keys.1
          refine (AList.mem_insert _).2 (Or.inr ?_)
          exact (mem_foldl_evict_one Q vs _ i).2 ⟨AList.mem_keys.2 hi, hiv⟩
        · rw [meta_load_result_ne _ _ _ _ hne, meta_foldl_evict_one_of_not_mem Q vs _ _ hiv]
          exact hg
  · intro c' t hload hcase
    rw [not_or, not_or] at hcase
    obtain ⟨hmiss, hnofit, hfew⟩ := hcase
    have hnot : d.id ∉ c.subtrees := fun h => hmiss (AList.mem_keys.1 h)
    have hfind : c.subtrees.lookup d.id = none := AList.lookup_eq_none.2 hnot
    have hfull : c.cache_params.max_cached_elements < c.cached_elements + d.n_elements :=
      Nat.lt_of_not_le hnofit
    by_cases hk : c.cache_params.max_evict ≤ c.subtrees.keys.length
    · obtain ⟨c1, h1, -, -, -, hmem, -, -, -⟩ :=
        load_subtree_step_evict storage c d Q hfind hfull hk
      rw [h1] at hload
      obtain rfl : c1 = c' := congrArg Prod.fst (Except.ok.inj hload)
      obtain ⟨i, hiv, hig⟩ := exists_victim_loaded_now c Q hk (Nat.lt_of_not_le hfew)
      have hic : i ∈ c.subtrees := mem_of_mem_victims c Q hiv
      refine ⟨i, AList.mem_keys.1 hic, hig, ?_⟩
      intro hi'
      rcases (hmem i).1 (AList.mem_keys.2 hi') with h | h
      · exact hnot (h ▸ hic)
      · exact h.2 hiv
    · rw [load_subtree_step_out_of_range storage c d Q hfind hfull (Nat.lt_of_not_le hk)]
        at hload
      exact Except.noConfusion hload

/-- C2 (as stated, refuted): room for three elements, `max_evict = 1`, sub-tree `id`
holds `id + 1` values.  Sub-trees 0, 1, 2 are loaded at generations 0, 1, 2; the miss on
sub-tree 2 evicts sub-tree 0 only.  After the call for sub-tree 2 at generation 3 (a hit)
the cache holds 5 elements, more than the limit 3, and the resident sub-trees 2 and 1 were
loaded at generations 2 and 1, none at generation 3. -/
theorem cache_bound_counterexample :
    (load_sequence growing_storage
        [((⟨0, 1, ()⟩ : SubtreeID Unit), 0), ((⟨1, 2, ()⟩ : SubtreeID Unit), 1),
         ((⟨2, 3, ()⟩ : SubtreeID Unit), 2), ((⟨2, 3, ()⟩ : SubtreeID Unit), 3)]
        (UsageRateCache.empty Unit ⟨3, 1⟩)).toOption.map
          (fun c => (c.cached_elements, c.cache_params.max_cached_elements,
            c.subtrees.keys.map (fun i => (i, (c.meta i).load_generation_)))) =
      some (5, 3, [(2, 2), (1, 1)]) := by
  decide!

/-- C2 (amended): a call `load_subtree(d, Q)` whose descriptor carries the size of the
stored sub-tree leaves `cached_elements()` unchanged on a hit, adds `n_elements` on a miss
that needs no eviction, and never leaves more than the previous total plus `n_elements`;
so `cached_elements() ≤ max_cached_elements` is preserved by every hit and by every miss
that needs no eviction.  Nothing is promised within the limit after a miss that evicts. -/
theorem load_subtree_cached_elements {V B : Type} (storage : Nat → RTree V)
    (c : UsageRateCache V) (d : SubtreeID B) (Q : Nat)
    (hn : d.n_elements = (storage d.id).size)
    (hk : d.id ∈ c.subtrees.keys ∨
      c.cached_elements + d.n_elements ≤ c.cache_params.max_cached_elements ∨
      c.cache_params.max_evict ≤ c.subtrees.keys.length) :
    ∃ c' t, c.load_subtree storage d Q = .ok (c', t) ∧
      c'.cache_params = c.cache_params ∧
      (d.id ∈ c.subtrees.keys → c'.cached_elements = c.cached_elements) ∧
      (d.id ∉ c.subtrees.keys →
        c.cached_elements + d.n_elements ≤ c.cache_params.max_cached_elements →
        c'.cached_elements = c.cached_elements + d.n_elements) ∧
      c'.cached_elements ≤ c.cached_elements + d.n_elements ∧
      (c.cached_elements ≤ c.cache_params.max_cached_elements →
        (d.id ∈ c.subtrees.keys ∨
          c.cached_elements + d.n_elements ≤ c.cache_params.max_cached_elements) →
        c'.cached_elements ≤ c'.cache_params.max_cached_elements) := by
  cases hfind : c.subtrees.lookup d.id with
  | some found =>
    have hin : d.id ∈ c.subtrees.keys :=
      AList.mem_keys.1 (AList.lookup_isSome.1 (by simp [hfind]))
    refine ⟨_, found, load_subtree_hit_eq storage c d Q found hfind, rfl, fun _ => rfl,
      fun h => absurd hin h, Nat.le_add_right _ _, fun h _ => h⟩
  | none =>
    have hnot : d.id ∉ c.subtrees := AList.lookup_eq_none.1 hfind
    have hnotk : d.id ∉ c.subtrees.keys := fun h => hnot (AList.mem_keys.2 h)
    have hk' : c.cached_elements + d.n_elements ≤ c.cache_params.max_cached_elements ∨
        c.cache_params.max_evict ≤ c.subtrees.keys.length := by
      rcases hk with h | h
      · exact absurd h hnotk
      · exact h
    obtain ⟨vs, hev, hfit, _⟩ := evict_subtrees_ok
      ({ c with most_recent_query_count := Q } : UsageRateCache V) d Q hk'
    have hnot1 : d.id ∉ (vs.foldl (evict_one Q)
        ({ c with most_recent_query_count := Q } : UsageRateCache V)).subtrees :=
      fun h => hnot ((mem_foldl_evict_one Q vs _ _).1 h).1
    have hsize := cached_elements_insert _ d.id (fun m => m.on_load Q) (storage d.id) hnot1
    have hle := cached_elements_foldl_evict_one_le Q vs
      ({ c with most_recent_query_count := Q } : UsageRateCache V)
    have hc0 : ({ c with most_recent_query_count := Q } : UsageRateCache V).cached_elements =
        c.cached_elements := rfl
    refine ⟨_, _, load_subtree_miss_eq storage c d Q _ hfind hev, ?_, fun h => absurd h hnotk,
      ?_, ?_, ?_⟩
    · exact cache_params_foldl_evict_one Q vs _
    · intro _ h
      rw [hsize, hfit h, ← hn]
      rfl
    · rw [hsize, ← hn]
      omega
    · intro _ h
      rcases h with h | h
      · exact absurd h hnotk
      · rw [hsize, hfit h, ← hn]
        exact h

/-- C3 (scenario E5): three sub-trees `A`, `B`, `C` of the same size `s > 0`, room for
`2 * s` elements, `max_evict = 1`.  After `load_subtree(A,0)`, `load_subtree(B,1)`,
`load_subtree(A,2)` the usage rates at generation 3 are `1/3` for `B` and `1/2` for `A`;
the call `load_subtree(C,3)` then succeeds and leaves exactly `A` and `C` resident, `B`
being the one sub-tree evicted. -/
theorem scenario_E5_resident_set {V B : Type} (storage : Nat → RTree V) (a b c s : Nat)
    (ma mb mc : B) (hab : a ≠ b) (hac : a ≠ c) (hbc : b ≠ c) (hs : 0 < s)
    (hsa : (storage a).size = s) (hsb : (storage b).size = s) (hsc : (storage c).size = s) :
    ∃ c3 c4,
      load_sequence storage
        [((⟨a, s, ma⟩ : SubtreeID B), 0), (⟨b, s, mb⟩, 1), (⟨a, s, ma⟩, 2)]
        (UsageRateCache.empty V ⟨2 * s, 1⟩) = .ok c3 ∧
      (c3.meta b).usage_rate 3 = 1 / 3 ∧ (c3.meta a).usage_rate 3 = 1 / 2 ∧
      load_sequence storage
        [((⟨a, s, ma⟩ : SubtreeID B), 0), (⟨b, s, mb⟩, 1), (⟨a, s, ma⟩, 2), (⟨c, s, mc⟩, 3)]
        (UsageRateCache.empty V ⟨2 * s, 1⟩) = .ok c4 ∧
      (∀ i, i ∈ c4.subtrees.keys ↔ i = a ∨ i = c) ∧
      c4.subtrees.lookup a = some (storage a) ∧ c4.subtrees.lookup c = some (storage c) ∧
      (c4.meta b).eviction_count = (c3.meta b).eviction_count + 1 ∧
      (c4.meta a).eviction_count = (c3.meta a).eviction_count := by
  have hba : b ≠ a := fun h => hab h.symm
  have hca : c ≠ a := fun h => hac h.symm
  have hcb : c ≠ b := fun h => hbc h.symm
  -- first call: miss on `a`, nothing to evict
  obtain ⟨c1, h1, hp1, hsub1, -, hce1, hma1, hmo1⟩ := load_subtree_step_fits storage
    (UsageRateCache.empty V ⟨2 * s, 1⟩) (⟨a, s, ma⟩ : SubtreeID B) 0 (AList.lookup_empty _)
    (by show 0 + s ≤ 2 * s; omega)
  -- second call: miss on `b`, nothing to evict
  have hl2 : c1.subtrees.lookup b = none := by
    rw [hsub1]
    dsimp only [UsageRateCache.empty]
    rw [AList.lookup_insert_ne hba]; exact AList.lookup_empty _
  obtain ⟨c2, h2, hp2, hsub2, -, hce2, hmb2, hmo2⟩ := load_subtree_step_fits storage
    c1 (⟨b, s, mb⟩ : SubtreeID B) 1 hl2
    (by rw [hp1, hce1]; show 0 + (storage a).size + s ≤ 2 * s; omega)
  -- third call: hit on `a`
  have hl3 : c2.subtrees.lookup a = some (storage a) := by
    rw [hsub2, hsub1]
    dsimp only [UsageRateCache.empty]
    rw [AList.lookup_insert_ne hab, AList.lookup_insert]
  obtain ⟨c3, h3, hp3, hsub3, -, hma3, hmo3⟩ := load_subtree_step_hit storage
    c2 (⟨a, s, ma⟩ : SubtreeID B) 2 (storage a) hl3
  -- metadata before the fourth call
  have hmeta_a : c3.meta a = ⟨0, 2, 0, 0, 0⟩ := by
    rw [hma3, meta_eq_of_lookup_eq (hmo2 a hab), hma1]
    rfl
  have hmeta_b : c3.meta b = ⟨1, 1, 0, 0, 0⟩ := by
    rw [meta_eq_of_lookup_eq (hmo3 b hba), hmb2, meta_eq_of_lookup_eq (hmo1 b hba)]
    rfl
  have hrb : (c3.meta b).usage_rate 3 = 1 / 3 := by
    rw [hmeta_b]
    norm_num [MetaData.usage_rate, MetaData.access_count, MetaData.incache_count]
  have hra : (c3.meta a).usage_rate 3 = 1 / 2 := by
    rw [hmeta_a]
    norm_num [MetaData.usage_rate, MetaData.access_count, MetaData.incache_count]
  have hmem3 : ∀ i, i ∈ c3.subtrees ↔ i = b ∨ i = a := by
    intro i
    rw [hsub3, hsub2, hsub1, AList.mem_insert, AList.mem_insert]
    simp [UsageRateCache.empty]
  have hkeys3 : c3.subtrees.keys.length = 2 := by
    rw [hsub3, hsub2, hsub1]
    simp [UsageRateCache.empty, AList.keys_insert, hab]
  -- fourth call: miss on `c`, one eviction
  have hl4 : c3.subtrees.lookup c = none := by
    rw [AList.lookup_eq_none, hmem3]
    rintro (h | h)
    · exact hcb h
    · exact hca h
  have hce3 : c3.cached_elements = s + s := by
    rw [cached_elements_eq_of_subtrees_eq hsub3, hce2, hce1, hsa, hsb]
    show 0 + s + s = s + s
    omega
  have hpar3 : c3.cache_params = ⟨2 * s, 1⟩ := by rw [hp3, hp2, hp1]; rfl
  obtain ⟨c4, h4, -, hsub4, -, hmem4, -, hev4, hkeep4⟩ := load_subtree_step_evict storage
    c3 (⟨c, s, mc⟩ : SubtreeID B) 3 hl4
    (by rw [hpar3, hce3]; show 2 * s < s + s + s; omega)
    (by rw [hpar3, hkeys3]; exact Nat.le_succ 1)
  have hvic : c3.victims 3 = [b] := by
    have hlen : (c3.victims 3).length = 1 := by
      rw [length_victims c3 3 (by rw [hpar3, hkeys3]; exact Nat.le_succ 1), hpar3]
    obtain ⟨x, hx⟩ := List.length_eq_one.1 hlen
    have hxin : x ∈ c3.subtrees := mem_of_mem_victims c3 3 (by rw [hx]; exact List.mem_singleton_self x)
    rcases (hmem3 x).1 hxin with rfl | rfl
    · exact hx
    · exfalso
      have hle := victims_usage_rate_le c3 3 (e := x) (r := b)
        (by rw [hx]; exact List.mem_singleton_self x) ((hmem3 b).2 (Or.inl rfl))
        (by rw [hx, List.mem_singleton]; exact hba)
      rw [hra, hrb] at hle
      norm_num at hle
  refine ⟨c3, c4, ?_, hrb, hra, ?_, ?_, ?_, ?_, ?_, ?_⟩
  · rw [load_sequence_cons_ok storage _ _ _ _ _ _ h1, load_sequence_cons_ok storage _ _ _ _ _ _ h2,
      load_sequence_cons_ok storage _ _ _ _ _ _ h3]
    rfl
  · rw [load_sequence_cons_ok storage _ _ _ _ _ _ h1, load_sequence_cons_ok storage _ _ _ _ _ _ h2,
      load_sequence_cons_ok storage _ _ _ _ _ _ h3, load_sequence_cons_ok storage _ _ _ _ _ _ h4]
    rfl
  · intro i
    rw [← AList.mem_keys, hmem4, hmem3, hvic, List.mem_singleton]
    constructor
    · rintro (h | ⟨h | h, h'⟩)
      · exact Or.inr h
      · exact absurd h h'
      · exact Or.inl h
    · rintro (h | h)
      · exact Or.inr ⟨Or.inr h, fun h' => hab (h ▸ h')⟩
      · exact Or.inl h
  · rw [hsub4, AList.lookup_insert_ne hac, hvic]
    show AList.lookup a ((evict_one 3 _ b).subtrees) = _
    rw [show (evict_one 3 ({ c3 with most_recent_query_count := 3 } : UsageRateCache V) b).subtrees
      = c3.subtrees.erase b from rfl, AList.lookup_erase_ne hab, hsub3]
    exact hl3
  · rw [hsub4]
    exact AList.lookup_insert _
  · rw [hev4 b (by rw [hvic]; exact List.mem_singleton_self b)]
    rfl
  · rw [hkeep4 a hac (by rw [hvic, List.mem_singleton]; exact hab)]

/-- C4: when `evict_subtrees` runs to completion (no eviction is needed, or at least
`max_evict` sub-trees are resident) the removed sub-trees are at most `max_evict` in
number, exactly `max_evict` when eviction is needed, and each of them has a usage rate at
the current generation not above that of every sub-tree that stays resident; when
`cached_elements + n_elements ≤ max_cached_elements` the cache is returned unchanged. -/
theorem evict_subtrees_lowest_usage_rate {V B : Type} (c : UsageRateCache V)
    (d : SubtreeID B) (Q : Nat)
    (hk : c.cached_elements + d.n_elements ≤ c.cache_params.max_cached_elements ∨
      c.cache_params.max_evict ≤ c.subtrees.keys.length) :
    ∃ c', c.evict_subtrees d Q = .ok c' ∧
      (c.cached_elements + d.n_elements ≤ c.cache_params.max_cached_elements → c' = c) ∧
      (∀ i ∈ c'.subtrees.keys, i ∈ c.subtrees.keys ∧
        c'.subtrees.lookup i = c.subtrees.lookup i ∧ c'.meta i = c.meta i) ∧
      (c.subtrees.keys.filter (fun i => decide (i ∉ c'.subtrees.keys))).length ≤
        c.cache_params.max_evict ∧
      (c.cache_params.max_cached_elements < c.cached_elements + d.n_elements →
        (c.subtrees.keys.filter (fun i => decide (i ∉ c'.subtrees.keys))).length =
          c.cache_params.max_evict) ∧
      (∀ e ∈ c.subtrees.keys, e ∉ c'.subtrees.keys → ∀ r ∈ c'.subtrees.keys,
        (c.meta e).usage_rate Q ≤ (c.meta r).usage_rate Q) := by
  rcases Nat.lt_or_ge c.cache_params.max_cached_elements (c.cached_elements + d.n_elements)
    with h | h
  · have hk' : c.cache_params.max_evict ≤ c.subtrees.keys.length := by
      rcases hk with hk | hk
      · omega
      · exact hk
    have hmem : ∀ i, i ∈ ((c.victims Q).foldl (evict_one Q) c).subtrees.keys ↔
        i ∈ c.subtrees.keys ∧ i ∉ c.victims Q := fun i => mem_foldl_evict_one Q _ c i
    have hperm := removed_perm c.subtrees.keys_nodup (victims_nodup c Q)
      (fun i hi => AList.mem_keys.1 (mem_of_mem_victims c Q hi)) hmem
    refine ⟨_, evict_subtrees_of_evict c d Q h hk', fun h' => by omega, ?_, ?_, ?_, ?_⟩
    · intro i hi
      have hi' := (hmem i).1 hi
      exact ⟨hi'.1, lookup_foldl_evict_one Q _ c i hi'.2,
        meta_foldl_evict_one_of_not_mem Q _ c i hi'.2⟩
    · rw [hperm.length_eq, length_victims c Q hk']
    · intro _
      rw [hperm.length_eq, length_victims c Q hk']
    · intro e he he' r hr
      have hr' := (hmem r).1 hr
      have hev : e ∈ c.victims Q := by
        by_contra hcon
        exact he' ((hmem e).2 ⟨he, hcon⟩)
      exact victims_usage_rate_le c Q hev (AList.mem_keys.2 hr'.1) hr'.2
  · refine ⟨c, evict_subtrees_of_fits c d Q h, fun _ => rfl, fun i hi => ⟨hi, rfl, rfl⟩, ?_,
      fun h' => by omega, fun e he he' => absurd he he'⟩
    have hnil : c.subtrees.keys.filter (fun i => decide (i ∉ c.subtrees.keys)) = [] := by
      rw [List.filter_eq_nil_iff]
      intro a ha
      simpa using ha
    rw [hnil]
    exact Nat.zero_le _

/-- C5 (code evaluated at the failing input): on an empty cache with room for 5 elements
and `max_evict = 1`, the miss on a sub-tree of 9 elements makes `evict_subtrees` read
`loaded_subtree_ids[0]` of an empty vector. -/
theorem load_subtree_reads_past_end :
    (UsageRateCache.empty Unit ⟨5, 1⟩).load_subtree growing_storage
      (⟨8, 9, ()⟩ : SubtreeID Unit) 0 = .error .out_of_range :=
  load_subtree_step_out_of_range growing_storage (UsageRateCache.empty Unit ⟨5, 1⟩)
    (⟨8, 9, ()⟩ : SubtreeID Unit) 0 (AList.lookup_empty _) (by decide) (by decide)

/-- C6: for a record with `load_generation_ ≤ Q`, `usage_rate(Q)` is the largest `double`
when `load_generation_ = Q`, a value that the usage rate of no record with an access count
in the range of `size_t` exceeds; otherwise it is
`(previous_access_count_ + current_access_count_) /
  ((Q - load_generation_ + 1) + previous_age_)`, and this denominator is at least 1. -/
theorem usage_rate_spec (m : MetaData) (Q : Nat) (hQ : m.load_generation_ ≤ Q) :
    (m.load_generation_ = Q →
      m.usage_rate Q = DBL_MAX ∧
      ∀ m' : MetaData, m'.access_count < 2 ^ 64 → m'.usage_rate Q ≤ m.usage_rate Q) ∧
    (m.load_generation_ ≠ Q →
      m.usage_rate Q =
        ((m.previous_access_count_ + m.current_access_count_ : Nat) : ℚ) /
          (((Q - m.load_generation_ + 1) + m.previous_age_ : Nat) : ℚ) ∧
      1 ≤ (Q - m.load_generation_ + 1) + m.previous_age_ ∧
      m.load_generation_ + ((Q - m.load_generation_ + 1) + m.previous_age_) =
        Q + 1 + m.previous_age_) := by
  constructor
  · intro h
    refine ⟨usage_rate_of_loaded_now m Q h, fun m' hm' => ?_⟩
    rw [usage_rate_of_loaded_now m Q h]
    exact usage_rate_le_DBL_MAX m' Q hm'
  · intro h
    have hne : ¬ Q = m.load_generation_ := fun h' => h h'.symm
    refine ⟨?_, by omega, by omega⟩
    simp only [MetaData.usage_rate, hne, if_false]
    rfl

/-- C7: on a miss for `d.id` at generation `Q` that runs to completion, the eviction is
carried out first, on the cache without `d.id`; the call then returns the tree read from
storage and leaves it resident under `d.id`, with `load_generation_ = Q` and
`current_access_count_ = 1`; the record of `d.id` is not touched by the eviction
(`eviction_count_`, `previous_access_count_` and `previous_age_` keep their values). -/
theorem load_subtree_on_miss {V B : Type} (storage : Nat → RTree V) (c : UsageRateCache V)
    (d : SubtreeID B) (Q : Nat) (hmiss : d.id ∉ c.subtrees.keys)
    (hk : c.cached_elements + d.n_elements ≤ c.cache_params.max_cached_elements ∨
      c.cache_params.max_evict ≤ c.subtrees.keys.length) :
    ∃ c1 c', c.evict_subtrees d Q = .ok c1 ∧ d.id ∉ c1.subtrees.keys ∧
      c.load_subtree storage d Q = .ok (c', storage d.id) ∧
      c'.subtrees = c1.subtrees.insert d.id (storage d.id) ∧
      c'.subtrees.lookup d.id = some (storage d.id) ∧
      (c'.meta d.id).load_generation_ = Q ∧
      (c'.meta d.id).current_access_count_ = 1 ∧
      (c'.meta d.id).eviction_count_ = (c.meta d.id).eviction_count_ ∧
      (c'.meta d.id).previous_access_count_ = (c.meta d.id).previous_access_count_ ∧
      (c'.meta d.id).previous_age_ = (c.meta d.id).previous_age_ := by
  have hnot : d.id ∉ c.subtrees := fun h => hmiss (AList.mem_keys.1 h)
  have hfind : c.subtrees.lookup d.id = none := AList.lookup_eq_none.2 hnot
  obtain ⟨vs, hev, -, hvs⟩ := evict_subtrees_ok_victims c d Q hk
  have hidv : d.id ∉ vs := fun h => hnot (hvs _ h)
  have hev0 : ({ c with most_recent_query_count := Q } : UsageRateCache V).evict_subtrees d Q =
      .ok ({ vs.foldl (evict_one Q) c with most_recent_query_count := Q }) := by
    rw [evict_subtrees_with_query_count, hev]
    rfl
  have hmeta : ∀ f : MetaData → MetaData,
      (({ ({ vs.foldl (evict_one Q) c with most_recent_query_count := Q } :
          UsageRateCache V).update_meta d.id f with
        subtrees := (vs.foldl (evict_one Q) c).subtrees.insert d.id (storage d.id) } :
          UsageRateCache V).meta d.id) = f (c.meta d.id) := by
    intro f
    have h1 := meta_load_result_self
      ({ vs.foldl (evict_one Q) c with most_recent_query_count := Q } : UsageRateCache V)
      d.id f (storage d.id)
    have h2 : ({ vs.foldl (evict_one Q) c with most_recent_query_count := Q } :
        UsageRateCache V).meta d.id = c.meta d.id :=
      meta_foldl_evict_one_of_not_mem Q vs c d.id hidv
    rw [h2] at h1
    exact h1
  refine ⟨_, _, hev, ?_, load_subtree_miss_eq storage c d Q _ hfind hev0, rfl,
    AList.lookup_insert _, ?_, ?_, ?_, ?_, ?_⟩
  · exact fun h => hnot ((mem_foldl_evict_one Q vs c d.id).1 (AList.mem_keys.2 h)).1
  all_goals rw [hmeta]; rfl

/-- C8: on a hit the call returns the resident sub-tree, adds one to the
`current_access_count_` of its record and changes no other field of it; the resident
sub-trees, the cache parameters and the records of all other ids are unchanged, and the
outcome does not depend on the storage. -/
theorem load_subtree_on_hit {V B : Type} (storage : Nat → RTree V) (c : UsageRateCache V)
    (d : SubtreeID B) (Q : Nat) (found : RTree V)
    (hhit : c.subtrees.lookup d.id = some found) :
    ∃ c', c.load_subtree storage d Q = .ok (c', found) ∧
      c'.subtrees = c.subtrees ∧ c'.cache_params = c.cache_params ∧
      (c'.meta d.id).current_access_count_ = (c.meta d.id).current_access_count_ + 1 ∧
      (c'.meta d.id).load_generation_ = (c.meta d.id).load_generation_ ∧
      (c'.meta d.id).previous_access_count_ = (c.meta d.id).previous_access_count_ ∧
      (c'.meta d.id).previous_age_ = (c.meta d.id).previous_age_ ∧
      (c'.meta d.id).eviction_count_ = (c.meta d.id).eviction_count_ ∧
      (∀ i, i ≠ d.id → c'.meta_data.lookup i = c.meta_data.lookup i) ∧
      (∀ storage' : Nat → RTree V,
        c.load_subtree storage' d Q = c.load_subtree storage d Q) := by
  obtain ⟨c', h, hp, hsub, -, hm, ho⟩ := load_subtree_step_hit storage c d Q found hhit
  refine ⟨c', h, hsub, hp, ?_, ?_, ?_, ?_, ?_, ho, ?_⟩
  · rw [hm]; rfl
  · rw [hm]; rfl
  · rw [hm]; rfl
  · rw [hm]; rfl
  · rw [hm]; rfl
  · intro storage'
    rw [load_subtree_hit_eq storage' c d Q found hhit,
      load_subtree_hit_eq storage c d Q found hhit]

/-- C9: when `evict_subtrees` runs to completion at generation `Q`, the record of every
sub-tree it removed is the old record after `on_evict(Q)`: `previous_access_count_` is
the old value plus `current_access_count_`, `previous_age_` is
`Q - load_generation_ + 1` (a subtraction that does not wrap when
`load_generation_ ≤ Q`), `current_access_count_` is 0, `eviction_count_` is one more,
`load_generation_` is unchanged and `access_count()` is the same as before. -/
theorem evict_subtrees_on_evict {V B : Type} (c : UsageRateCache V) (d : SubtreeID B)
    (Q : Nat)
    (hk : c.cached_elements + d.n_elements ≤ c.cache_params.max_cached_elements ∨
      c.cache_params.max_evict ≤ c.subtrees.keys.length) :
    ∃ c', c.evict_subtrees d Q = .ok c' ∧
      ∀ i ∈ c.subtrees.keys, i ∉ c'.subtrees.keys →
        c'.meta i = (c.meta i).on_evict Q ∧
        (c'.meta i).previous_access_count_ =
          (c.meta i).previous_access_count_ + (c.meta i).current_access_count_ ∧
        (c'.meta i).previous_age_ = Q - (c.meta i).load_generation_ + 1 ∧
        ((c.meta i).load_generation_ ≤ Q →
          (c'.meta i).previous_age_ + (c.meta i).load_generation_ = Q + 1) ∧
        (c'.meta i).current_access_count_ = 0 ∧
        (c'.meta i).eviction_count_ = (c.meta i).eviction_count_ + 1 ∧
        (c'.meta i).load_generation_ = (c.meta i).load_generation_ ∧
        (c'.meta i).access_count = (c.meta i).access_count := by
  obtain ⟨vs, hev, hnd, -⟩ := evict_subtrees_ok_victims c d Q hk
  refine ⟨_, hev, ?_⟩
  intro i hi hi'
  have hiv : i ∈ vs := by
    by_contra hcon
    exact hi' (AList.mem_keys.1 ((mem_foldl_evict_one Q vs c i).2 ⟨AList.mem_keys.2 hi, hcon⟩))
  have hm := meta_foldl_evict_one_of_mem Q vs c i hnd hiv
  rw [hm]
  refine ⟨rfl, rfl, rfl, ?_, rfl, rfl, rfl, by simp [MetaData.on_evict, MetaData.access_count]⟩
  intro hle
  show Q - (c.meta i).load_generation_ + 1 + (c.meta i).load_generation_ = Q + 1
  omega

/-- C10: a call of `MultiIndexTreeBase::query` that succeeds returns a tree whose
`query_count` is the old one plus one, whatever the number of sub-trees the top tree
yields, and its cache is the one obtained by calling `load_subtree` for the yielded
descriptors in order, each with the old `query_count`. -/
theorem query_advances_query_count_once {V B : Type} (storage : Nat → RTree V)
    (indexable : V → B) (t : MultiIndexTreeBase V B) (predicates : B → Bool) (out : List V)
    (h : (t.query storage indexable predicates out).toBool = true) :
    ∃ t' out', t.query storage indexable predicates out = .ok (t', out') ∧
      t'.query_count = t.query_count + 1 ∧ t'.top_rtree = t.top_rtree ∧
      UsageRateCache.load_sequence storage
        ((t.top_rtree.query SubtreeID.mbr predicates).map (fun d => (d, t.query_count)))
        t.subtree_cache = .ok t'.subtree_cache := by
  cases hl : MultiIndexTreeBase.query_loop storage indexable predicates
      (t.top_rtree.query SubtreeID.mbr predicates) t out with
  | error e => simp [MultiIndexTreeBase.query, hl, Except.toBool] at h
  | ok r =>
    obtain ⟨t1, out1⟩ := r
    obtain ⟨h1, h2, h3⟩ :=
      MultiIndexTreeBase.query_loop_ok storage indexable predicates _ _ _ _ _ hl
    refine ⟨{ t1 with query_count := t1.query_count + 1 }, out1, ?_, ?_, h2, h3⟩
    · simp [MultiIndexTreeBase.query, hl]
    · show t1.query_count + 1 = t.query_count + 1
      rw [h1]

/-- C11: on a cache that holds the trees of the storage, a call of
`MultiIndexTreeBase::query` that succeeds appends to the output the results of querying
the stored sub-trees of the descriptors that the top tree yields, with the same
predicate, concatenated in the order in which the top tree yields them; the sub-trees
resident afterwards were resident before or belong to a yielded descriptor. -/
theorem query_results_in_top_tree_order {V B : Type} (storage : Nat → RTree V)
    (indexable : V → B) (t : MultiIndexTreeBase V B) (predicates : B → Bool) (out : List V)
    (hc : t.subtree_cache.coherent storage)
    (h : (t.query storage indexable predicates out).toBool = true) :
    ∃ t' out', t.query storage indexable predicates out = .ok (t', out') ∧
      out' = out ++ ((t.top_rtree.query SubtreeID.mbr predicates).map
        (fun d => (storage d.id).query indexable predicates)).flatten ∧
      t'.subtree_cache.coherent storage ∧
      ∀ i ∈ t'.subtree_cache.subtrees.keys, i ∈ t.subtree_cache.subtrees.keys ∨
        ∃ d ∈ t.top_rtree.query SubtreeID.mbr predicates, d.id = i := by
  cases hl : MultiIndexTreeBase.query_loop storage indexable predicates
      (t.top_rtree.query SubtreeID.mbr predicates) t out with
  | error e => simp [MultiIndexTreeBase.query, hl, Except.toBool] at h
  | ok r =>
    obtain ⟨t1, out1⟩ := r
    obtain ⟨h1, h2, h3⟩ :=
      MultiIndexTreeBase.query_loop_results storage indexable predicates _ _ _ _ _ hc hl
    refine ⟨{ t1 with query_count := t1.query_count + 1 }, out1, ?_, h1, h2, h3⟩
    simp [MultiIndexTreeBase.query, hl]

/-- C12 (as stated, refuted): sub-tree 0 of `three_subtrees` holds the values 0 and 1, with
the boxes 0 and 1.  For a shape whose box meets box 0 only and whose exact test holds for
the value 1 only, the entry of sub-tree 0 passes the bounding-box and the exact test and
its sub-tree holds the value 1, which passes the exact test, yet `is_intersecting`
returns `false`: the sweep of a sub-tree only visits the values whose box meets the box of
the shape.  The exact test of the code can hold for a value whose box misses the box of
the shape: `Sphere::intersects` is true for the sphere of radius 1 centred at
`(12.1, 9.3, 0)` and the cylinder of radius 1 from `(0,0,0)` to `(10,10,0)`, although the
first coordinates of the sphere, from 11.1 on, exceed those of the cylinder, up to 11. -/
theorem is_intersecting_box_filter_counterexample :
    (MultiIndexTree.is_intersecting numbered_storage (fun v => v % 10) (fun b => b == 0)
        (fun _ => true) (fun v => v == 1) three_subtrees).toOption.map Prod.snd =
      some false ∧
    (∃ d ∈ three_subtrees.top_rtree.values, (d.mbr == 0) = true ∧
      ∃ v ∈ (numbered_storage d.id).values, (v == 1) = true) ∧
    Sphere.intersects ⟨rat_point (121 / 10) (93 / 10) 0, 1⟩
      ⟨rat_point 0 0 0, rat_point 10 10 0, 1⟩ = some true ∧
    (10 : ℚ) + 1 < 121 / 10 - 1 := by
  refine ⟨by decide!, ⟨⟨0, 2, 0⟩, List.mem_cons_self _ _, rfl, 1, by decide, rfl⟩, by decide!,
    by norm_num⟩

/-- C12 (amended): on a cache that holds the trees of the storage, a call of
`MultiIndexTree::is_intersecting` that succeeds returns `true` exactly when some entry of
the top tree passes the bounding-box and the exact test and its stored sub-tree holds a
value that passes the bounding-box and the exact test.  When it returns `true`, the
entries that pass both tests split into the ones before the first whose sub-tree has such
a value, that one, and the rest; only the first two parts are loaded, in order, with the
current `query_count`. -/
theorem is_intersecting_first_match {V B : Type} (storage : Nat → RTree V)
    (indexable : V → B) (bbox_intersects : B → Bool)
    (geometry_intersects_top : SubtreeID B → Bool) (geometry_intersects : V → Bool)
    (t : MultiIndexTreeBase V B)
    (hc : t.subtree_cache.coherent storage)
    (h : (MultiIndexTree.is_intersecting storage indexable bbox_intersects
      geometry_intersects_top geometry_intersects t).toBool = true) :
    ∃ t' r, MultiIndexTree.is_intersecting storage indexable bbox_intersects
        geometry_intersects_top geometry_intersects t = .ok (t', r) ∧
      (r = true ↔ ∃ d ∈ t.top_rtree.values, bbox_intersects d.mbr = true ∧
        geometry_intersects_top d = true ∧
        ∃ v ∈ (storage d.id).values, bbox_intersects (indexable v) = true ∧
          geometry_intersects v = true) ∧
      (r = true → ∃ pre d post,
        (t.top_rtree.query SubtreeID.mbr bbox_intersects).filter geometry_intersects_top =
          pre ++ d :: post ∧
        (∃ v ∈ (storage d.id).values, bbox_intersects (indexable v) = true ∧
          geometry_intersects v = true) ∧
        (∀ x ∈ pre, ∀ v ∈ (storage x.id).values, bbox_intersects (indexable v) = true →
          geometry_intersects v = false) ∧
        UsageRateCache.load_sequence storage
          ((pre ++ [d]).map (fun x => (x, t.query_count))) t.subtree_cache =
            .ok t'.subtree_cache) := by
  cases hl : MultiIndexTree.is_intersecting_loop storage indexable bbox_intersects
      geometry_intersects_top geometry_intersects
      (t.top_rtree.query SubtreeID.mbr bbox_intersects) t with
  | error e => simp [MultiIndexTree.is_intersecting, hl, Except.toBool] at h
  | ok res =>
    obtain ⟨t', r⟩ := res
    obtain ⟨-, -, -, htrue, hfalse⟩ := MultiIndexTree.is_intersecting_loop_ok storage
      indexable bbox_intersects geometry_intersects_top geometry_intersects _ _ _ _ hc hl
    refine ⟨t', r, hl, ⟨?_, ?_⟩, ?_⟩
    · intro hr
      obtain ⟨pre, d, post, hsplit, hd, -, -⟩ := htrue hr
      have hmem : d ∈ (t.top_rtree.query SubtreeID.mbr bbox_intersects).filter
          geometry_intersects_top := by
        rw [hsplit]; simp
      rw [List.mem_filter] at hmem
      have hq := hmem.1
      simp only [RTree.query, List.mem_filter] at hq
      exact ⟨d, hq.1, hq.2, hmem.2, (MultiIndexTree.inner_sweep_eq_true _ _ _ _).1 hd⟩
    · rintro ⟨d, hd, hb, hg, hv⟩
      cases hr : r with
      | true => rfl
      | false =>
        exfalso
        have hmem : d ∈ (t.top_rtree.query SubtreeID.mbr bbox_intersects).filter
            geometry_intersects_top := by
          simp only [RTree.query, List.mem_filter]
          exact ⟨⟨hd, hb⟩, hg⟩
        have h1 := (hfalse hr).1 d hmem
        rw [(MultiIndexTree.inner_sweep_eq_true _ _ _ _).2 hv] at h1
        exact absurd h1 (by simp)
    · intro hr
      obtain ⟨pre, d, post, hsplit, hd, hpre, hload⟩ := htrue hr
      refine ⟨pre, d, post, hsplit, (MultiIndexTree.inner_sweep_eq_true _ _ _ _).1 hd, ?_,
        hload⟩
      intro x hx v hv hbv
      cases hgv : geometry_intersects v with
      | false => rfl
      | true =>
        have h1 := hpre x hx
        rw [(MultiIndexTree.inner_sweep_eq_true _ _ _ _).2 ⟨v, hv, hbv, hgv⟩] at h1
        exact absurd h1 (by simp)

/-- C19 (as stated, refuted): for the single rank with `2 ^ 31` elements the count does
not fit in `int` and `compute_balance_send_counts` fails instead of returning send
counts. -/
theorem balance_send_counts_overflow_counterexample :
    mpi.compute_balance_send_counts util.balanced_chunk_sizes [2147483648] 0 =
      .error .overflow := by
  rfl

/-- C19 (amended): for counts over `N ≥ 1` ranks that all fit in `int`,
`compute_balance_send_counts` succeeds for every rank, and for every destination rank `i`
the sum over the source ranks of entry `i` of their send counts is the balanced target
size of rank `i`, which is `total / N`, plus one for the first `total % N` ranks. -/
theorem balance_send_counts_column_sums (counts : List Nat) (hN : 0 < counts.length)
    (hfit : ∀ c ∈ counts, c ≤ INT_MAX) :
    ∃ sends : Nat → List Int,
      (∀ r, r < counts.length →
        mpi.compute_balance_send_counts util.balanced_chunk_sizes counts r = .ok (sends r)) ∧
      ∀ i, i < counts.length →
        (util.balanced_chunk_sizes counts.sum counts.length).getD i 0 =
          counts.sum / counts.length + (if i < counts.sum % counts.length then 1 else 0) ∧
        ((List.range counts.length).map (fun r => (sends r).getD i 0)).sum =
          ((counts.sum / counts.length +
            (if i < counts.sum % counts.length then 1 else 0) : Nat) : Int) := by
  have hlen := mpi.length_balanced_chunk_sizes counts.sum counts.length
  have hsum := mpi.sum_balanced_chunk_sizes counts.sum counts.length hN
  refine ⟨fun r => (mpi.overlaps (counts.take r).sum ((counts.take (r + 1)).sum)
    (util.balanced_chunk_sizes counts.sum counts.length) 0).map Int.ofNat, ?_, ?_⟩
  · intro r hr
    dsimp only
    rw [mpi.compute_balance_send_counts_ok util.balanced_chunk_sizes counts r hr hlen
      (hfit _ (List.getElem_mem hr)), mpi.take_succ_sum counts r hr]
  · intro i hi
    have hi' : i < (util.balanced_chunk_sizes counts.sum counts.length).length := by
      rw [hlen]; exact hi
    have hget := mpi.getElem_balanced_chunk_sizes counts.sum counts.length i hi'
    refine ⟨by rw [List.getD_eq_getElem _ 0 hi', hget], ?_⟩
    have hcol := mpi.sum_column_overlaps counts
      (util.balanced_chunk_sizes counts.sum counts.length) i hsum hi'
    rw [hget] at hcol
    rw [← hcol, ← mpi.sum_map_ofNat, List.map_map]
    congr 1
    apply List.map_congr_left
    intro r _
    simp only [Function.comp]
    cases hgi : (mpi.overlaps (counts.take r).sum ((counts.take (r + 1)).sum)
        (util.balanced_chunk_sizes counts.sum counts.length) 0)[i]? with
    | none => simp [List.getD, List.getElem?_map, hgi]
    | some v => simp [List.getD, List.getElem?_map, hgi]

/-- C20: for balanced sizes that are as many as the ranks and sum to the global count,
and a local count that fits in `int`, `compute_balance_send_counts` returns one entry per
rank, the entries are non-negative and their sum is the local count `counts_per_rank[r]`. -/
theorem balance_send_counts_row_sum (balanced_chunk_sizes : Nat → Nat → List Nat)
    (counts : List Nat) (r : Nat) (hr : r < counts.length)
    (hlen : (balanced_chunk_sizes counts.sum counts.length).length = counts.length)
    (hsum : (balanced_chunk_sizes counts.sum counts.length).sum = counts.sum)
    (hfit : counts[r] ≤ INT_MAX) :
    ∃ send_counts : List Int,
      mpi.compute_balance_send_counts balanced_chunk_sizes counts r = .ok send_counts ∧
      send_counts.length = counts.length ∧ (∀ x ∈ send_counts, 0 ≤ x) ∧
      send_counts.sum = (counts[r] : Int) := by
  refine ⟨_, mpi.compute_balance_send_counts_ok balanced_chunk_sizes counts r hr hlen hfit,
    ?_, ?_, ?_⟩
  · rw [List.length_map, mpi.length_overlaps, hlen]
  · intro x hx
    rw [List.mem_map] at hx
    obtain ⟨v, -, rfl⟩ := hx
    exact Int.ofNat_nonneg v
  · rw [mpi.sum_map_ofNat, mpi.sum_overlaps, hsum]
    have h1 := mpi.take_sum_add_getElem_le counts r hr
    have h2 : min (0 + counts.sum) ((counts.take r).sum + counts[r]) -
        max 0 (counts.take r).sum = counts[r] := by omega
    rw [h2]

/-- C15 (as stated, refuted): the cylinders of radius 1 around the parallel segments from
`(0,0,0)` to `(10,0,0)` and from `(0,2,0)` to `(10,2,0)` are at distance exactly
`1 + 1`: no two points of the segments are closer than 2, the end points `(0,0,0)` and
`(0,2,0)` are at distance 2, and `Cylinder::intersects` returns `false`. -/
theorem touching_cylinders_counterexample :
    Cylinder.intersects ⟨rat_point 0 0 0, rat_point 10 0 0, 1⟩
      ⟨rat_point 0 2 0, rat_point 10 2 0, 1⟩ = some false ∧
    distance_sq (segment_point (rat_point 0 0 0) (rat_point 10 0 0) 0)
      (segment_point (rat_point 0 2 0) (rat_point 10 2 0) 0) = (1 + 1) * (1 + 1) ∧
    ∀ s t : ℚ, (1 + 1) * (1 + 1) ≤
      distance_sq (segment_point (rat_point 0 0 0) (rat_point 10 0 0) s)
        (segment_point (rat_point 0 2 0) (rat_point 10 2 0) t) := by
  refine ⟨by decide!, by decide!, ?_⟩
  intro s t
  simp only [distance_sq, segment_point, rat_point, Point3D.sub, Point3D.add, Point3D.smul,
    Point3D.dot]
  nlinarith [mul_self_nonneg (10 * s - 10 * t)]

/-- C15 (amended): over exact arithmetic, for every pair of cylinders whose axis segments
have no two points closer than `r1 + r2`, in particular for parallel cylinders at distance
exactly `r1 + r2`, `Cylinder::intersects` returns `false`: the comparison with `r1 + r2`
is strict and touching does not count as intersecting. -/
theorem touching_cylinders_do_not_intersect {K : Type} [LinearOrderedField K]
    (c1 c : Cylinder K)
    (hmin : ∀ s t, 0 ≤ s → s ≤ 1 → 0 ≤ t → t ≤ 1 →
      (c1.radius + c.radius) * (c1.radius + c.radius) ≤
        distance_sq (segment_point c1.p1 c1.p2 s) (segment_point c.p1 c.p2 t)) :
    c1.intersects c = some false := by
  obtain ⟨sc, tc, -, -, hs0, hs1, ht0, ht1, hd⟩ :=
    distance_segment_segment_eq c1.p1 c1.p2 c.p1 c.p2
  have hlt := sqrt_lt_eq_false
    (⟨distance_sq (segment_point c1.p1 c1.p2 sc) (segment_point c.p1 c.p2 tc)⟩ : Sqrt K)
    (c1.radius + c.radius) (hmin sc tc hs0 hs1 ht0 ht1)
  unfold Cylinder.intersects
  rw [hd]
  exact congrArg some hlt

/-- C16 (as stated, refuted): for the cylinder from `(0,0,0)` to `(10,0,0)` of radius 1,
the test with the sphere of radius 2.5 centred at `(5,0,3)` is true, not false. -/
theorem scenario_E2_counterexample :
    Sphere.intersects ⟨rat_point 5 0 3, 5 / 2⟩ ⟨rat_point 0 0 0, rat_point 10 0 0, 1⟩ =
      some true := by
  decide!

/-- C16 (amended): for the cylinder from `(0,0,0)` to `(10,0,0)` of radius 1 and the
sphere centred at `(5,0,3)`, at distance 3 from the axis, the test is true for every
sphere radius from 2 on, for 2.5 as for 2.1. -/
theorem scenario_E2_sphere_cylinder (r : ℚ) (hr : 2 ≤ r) :
    Sphere.intersects ⟨rat_point 5 0 3, r⟩ ⟨rat_point 0 0 0, rat_point 10 0 0, 1⟩ =
      some true := by
  have h1 : ¬ (r + 1 < 0 ∨ (r + 1) * (r + 1) < 9) := by
    rintro (h | h)
    · linarith
    · nlinarith
  have h2 : (0 : ℚ) ≤ r := by linarith
  norm_num [Sphere.intersects, checked_div, Sqrt.gt, Sqrt.div_lt_add, Point3D.norm,
    rat_point, Point3D.sub, Point3D.dot, h1, h2]

/-- C17 (code evaluated at the failing input): for the sphere of radius 1 centred at
`(0,0,0)` and the degenerate cylinder with `p1 = p2 = (0,0,0)` and radius 1, the method
divides `proj * proj = 0` by `v.dot(v) = 0` and has no value. -/
theorem degenerate_cylinder_division_by_zero :
    Sphere.intersects ⟨rat_point 0 0 0, 1⟩ ⟨rat_point 0 0 0, rat_point 0 0 0, 1⟩ = none :=
  sphere_intersects_degenerate _ _ rfl

/-- C14 (as stated, refuted): for the cylinder from `(0,0,0)` to `(10,0,0)` of radius 1 and
the sphere of radius 1 centred at `(11.5,0,0)`, the centre lies on the axis and the
clamped axis point `(10,0,0)` is at distance `1.5 ≤ 1 + 1` of it, so that the test of the
claim holds, yet `Sphere::intersects` returns `false`. -/
theorem sphere_beyond_cap_counterexample :
    Sphere.intersects ⟨rat_point (23 / 2) 0 0, 1⟩ ⟨rat_point 0 0 0, rat_point 10 0 0, 1⟩ =
      some false ∧
    sphere_cylinder_clamped_test ⟨rat_point (23 / 2) 0 0, 1⟩
      ⟨rat_point 0 0 0, rat_point 10 0 0, 1⟩ = true := by
  decide!

/-- C14 (amended): over the real numbers, for every sphere and every cylinder with
`p1 ≠ p2`, `Sphere::intersects` has a value, and it is `true` exactly when the
perpendicular distance from the centre of the sphere to the infinite axis is at most
`r_sphere + r_cyl` and the coordinate of the centre along the axis, measured from `p1`,
lies strictly between `-r_sphere` and `|p2 - p1| + r_sphere`. -/
theorem sphere_cylinder_axial_test (s : Sphere ℝ) (c : Cylinder ℝ) (hne : c.p1 ≠ c.p2) :
    (∃ r, s.intersects c = some r) ∧
    (s.intersects c = some true ↔
      Real.sqrt ((s.centroid.sub c.p1).dot (s.centroid.sub c.p1) -
        (s.centroid.sub c.p1).dot (c.p2.sub c.p1) * (s.centroid.sub c.p1).dot (c.p2.sub c.p1) /
          (c.p2.sub c.p1).dot (c.p2.sub c.p1)) ≤ s.radius + c.radius ∧
      -s.radius < (s.centroid.sub c.p1).dot (c.p2.sub c.p1) /
        Real.sqrt ((c.p2.sub c.p1).dot (c.p2.sub c.p1)) ∧
      (s.centroid.sub c.p1).dot (c.p2.sub c.p1) /
        Real.sqrt ((c.p2.sub c.p1).dot (c.p2.sub c.p1)) <
          Real.sqrt ((c.p2.sub c.p1).dot (c.p2.sub c.p1)) + s.radius) := by
  have hvv := dot_self_pos_of_ne c.p1 c.p2 hne
  have hvne : (c.p2.sub c.p1).dot (c.p2.sub c.p1) ≠ 0 := ne_of_gt hvv
  have hwv : (s.centroid.sub c.p2).dot (c.p2.sub c.p1) =
      (s.centroid.sub c.p1).dot (c.p2.sub c.p1) - (c.p2.sub c.p1).dot (c.p2.sub c.p1) := by
    simp only [Point3D.sub, Point3D.dot]
    ring
  have hform : s.intersects c =
      if Sqrt.gt ⟨(s.centroid.sub c.p1).dot (s.centroid.sub c.p1) -
          (s.centroid.sub c.p1).dot (c.p2.sub c.p1) * (s.centroid.sub c.p1).dot (c.p2.sub c.p1) /
            (c.p2.sub c.p1).dot (c.p2.sub c.p1)⟩ (s.radius + c.radius) = true
      then some false
      else some (Sqrt.div_lt_add
        (max (abs ((s.centroid.sub c.p1).dot (c.p2.sub c.p1)))
          (abs ((s.centroid.sub c.p1).dot (c.p2.sub c.p1) -
            (c.p2.sub c.p1).dot (c.p2.sub c.p1))))
        ⟨(c.p2.sub c.p1).dot (c.p2.sub c.p1)⟩ s.radius) := by
    unfold Sphere.intersects
    simp only [checked_div, if_neg hvne, Point3D.norm, hwv]
  rw [hform]
  by_cases hgt : Sqrt.gt ⟨(s.centroid.sub c.p1).dot (s.centroid.sub c.p1) -
      (s.centroid.sub c.p1).dot (c.p2.sub c.p1) * (s.centroid.sub c.p1).dot (c.p2.sub c.p1) /
        (c.p2.sub c.p1).dot (c.p2.sub c.p1)⟩ (s.radius + c.radius) = true
  · rw [if_pos hgt]
    refine ⟨⟨false, rfl⟩, ?_⟩
    constructor
    · intro h
      exact absurd h (by simp)
    · rintro ⟨h1, -⟩
      exact absurd ((sqrt_gt_iff_real _ _).1 hgt) (not_lt.2 h1)
  · rw [if_neg hgt]
    refine ⟨⟨_, rfl⟩, ?_⟩
    have hle := not_lt.1 (fun h => hgt ((sqrt_gt_iff_real _ _).2 h))
    rw [Option.some.injEq, div_lt_add_iff_real _ _ _ hvv, caps_test_iff _ _ _ hvv]
    exact ⟨fun h => ⟨hle, h⟩, fun h => h.2⟩

/-- C21: for `dim` in `{0, 1, 2}` and totally ordered coordinates,
`STRKey<GetCoordinate, dim>::compare(a, b)` is true exactly when the coordinate tuple
`(x_dim, ..., x_2)` of `a` is lexicographically strictly smaller than that of `b`; hence
`compare` is irreflexive, asymmetric and transitive. -/
theorem compare_is_strict_lexicographic_order {V K : Type} [LinearOrder K]
    (GetCoordinate : Nat → V → K) (dim : Nat) (hdim : dim ≤ 2) :
    (∀ a b, STRKey.compare GetCoordinate dim a b = true ↔
      List.Lex (· < ·) (STRKey.coordinates GetCoordinate dim a)
        (STRKey.coordinates GetCoordinate dim b)) ∧
    (∀ a, STRKey.compare GetCoordinate dim a a = false) ∧
    (∀ a b, STRKey.compare GetCoordinate dim a b = true →
      STRKey.compare GetCoordinate dim b a = false) ∧
    (∀ a b c, STRKey.compare GetCoordinate dim a b = true →
      STRKey.compare GetCoordinate dim b c = true →
      STRKey.compare GetCoordinate dim a c = true) :=
  ⟨fun a b => STRKey.compare_iff_lex GetCoordinate a b dim hdim,
    fun a => STRKey.compare_self GetCoordinate a dim hdim,
    fun a b => STRKey.compare_asymm GetCoordinate a b dim hdim,
    fun a b c => STRKey.compare_trans GetCoordinate a b c dim hdim⟩

/-- C23 (code evaluated at the failing input): a `region_corners` array of shape `3x2`
has two dimensions and six elements, so that both `place` bindings accept it: they raise
no error and call `place` with the box whose corners are the elements 0 to 2 and 2 to 4
of the array. -/
theorem place_accepts_three_by_two {S R : Type} (place : Box3D ℚ → S → R) (shape : S) :
    add_IndexTree_place_bindings place ⟨[3, 2], [1, 2, 3, 4, 5, 6]⟩ shape =
      .ok (place ⟨⟨1, 2, 3⟩, ⟨3, 4, 5⟩⟩ shape) ∧
    add_MorphIndex_place_bindings place ⟨[3, 2], [1, 2, 3, 4, 5, 6]⟩ shape =
      .ok (place ⟨⟨1, 2, 3⟩, ⟨3, 4, 5⟩⟩ shape) :=
  ⟨rfl, rfl⟩

/-- C24 (as stated, refuted): for 16 points, 16 radii, `has_soma = true` and the branch
offsets `[1, 11]`, `add_neuron` inserts one soma, 9 segments of section 1 and 4 segments
of section 2, not 5, and logs no warning. -/
theorem add_neuron_docstring_counterexample :
    (add_neuron [] 1 (line_points 16) (List.replicate 16 1) [1, 11] true).toOption.map
      (fun r => ((r.1.filter MorphoEntry.is_soma).length,
        (r.1.filter (MorphoEntry.is_segment_of 1)).length,
        (r.1.filter (MorphoEntry.is_segment_of 2)).length, r.1.length, r.2)) =
      some (1, 9, 4, 14, []) := by
  rfl

/-- C24 (amended): for `n` points with `13 ≤ n`, at least `n - 1` radii,
`has_soma = true` and the branch offsets `[1, 11]`, `add_neuron` inserts into an empty
index the soma of point 0, then a first branch of 9 segments of section 1, then a second
branch of `n - 12` segments of section 2: 4 segments for 16 points and 5 segments for 17
points. -/
theorem add_neuron_docstring_example {K : Type} (gid : Nat) (points : List (Point3D K))
    (radii : List K) (hn : 13 ≤ points.length) (hmax : points.length < 4294967296)
    (hr : points.length - 1 ≤ radii.length) :
    ∃ soma_point soma_radius branch1 branch2,
      points[0]? = some soma_point ∧ radii[0]? = some soma_radius ∧
      add_neuron [] gid points radii [1, 11] true =
        .ok (.soma gid soma_point soma_radius :: (branch1 ++ branch2), []) ∧
      branch1.length = 9 ∧ (∀ e ∈ branch1, e.is_segment_of 1 = true) ∧
      branch2.length = points.length - 12 ∧ (∀ e ∈ branch2, e.is_segment_of 2 = true) := by
  have hp0 : 0 < points.length := by omega
  have hr0 : 0 < radii.length := by omega
  obtain ⟨branch1, h1, hlen1, hsec1⟩ :=
    add_branch_ok ([] ++ [.soma gid points[0] radii[0]]) gid 1 9 points radii 1
      (Or.inr (by omega)) (by omega)
  have hu : to_unsigned ((points.length : Int) - ((11 : Nat) : Int) - 1) = points.length - 12 :=
    to_unsigned_of_lt (points.length - 12) _ (by omega) (by omega)
  obtain ⟨branch2, h2, hlen2, hsec2⟩ :=
    add_branch_ok (([] ++ [.soma gid points[0] radii[0]]) ++ branch1) gid 2
      (points.length - 12) points radii 11 (Or.inr (by omega)) (by omega)
  refine ⟨points[0], radii[0], branch1, branch2, List.getElem?_eq_getElem hp0,
    List.getElem?_eq_getElem hr0, ?_, hlen1, hsec1, hlen2, hsec2⟩
  have h9 : to_unsigned (((11 : Nat) : Int) - ((1 : Nat) : Int) - 1) = 9 := by decide
  simp only [add_neuron, add_neuron_checks_example points.length radii.length hn hmax hr,
    if_true, List.getElem?_eq_getElem hp0, List.getElem?_eq_getElem hr0, List.length_cons,
    List.length_nil, add_neuron_loop, List.getElem?_cons_zero, List.getElem?_cons_succ,
    h9, h1, hu, h2, Nat.reduceAdd, Nat.reduceSub, ne_eq, OfNat.ofNat_ne_zero,
    not_false_eq_true]
  simp

/-- C25 (code evaluated at the failing inputs): for 16 points, 16 radii, `has_soma = true`
and the decreasing branch offsets `[5, 3]`, the sanity checks of `add_neuron` pass, the
segment count of the first branch is `3 - 5 - 1` as an `unsigned`, that is
`4294967293`, and `add_branch` reads the point array past its end.  The same happens for
a neuron without segment points (one point, one radius) and the branch offset `[5]`,
whose segment count is `1 - 5 - 1`. -/
theorem add_neuron_accepts_decreasing_offsets :
    add_neuron_checks 16 16 2 [5, 3] true = .ok [] ∧
    to_unsigned ((3 : Int) - 5 - 1) = 4294967293 ∧
    add_neuron [] 1 (line_points 16) (List.replicate 16 1) [5, 3] true =
      .error .out_of_bounds ∧
    add_neuron_checks 1 1 1 [5] true = .ok ["Neuron has no segments"] ∧
    add_neuron [] 1 (line_points 1) [(1 : ℚ)] [5] true = .error .out_of_bounds :=
  ⟨rfl, by decide, rfl, rfl, rfl⟩

/-- C26 (code evaluated at the failing input): `MultiIndexTree::is_intersecting` has no
`++query_count`: after every call that returns, `query_count` has the value it had before
the call.  On `three_subtrees`, whose `query_count` is 0, the call that finds the value 11
returns `true` with `query_count` still 0; sub-tree 0, which the call loaded, has load
generation 0 and, at the generation 0 of the next call, the usage rate `DBL_MAX` of a
sub-tree loaded during the current query. -/
theorem is_intersecting_keeps_query_count {V B : Type} (storage : Nat → RTree V)
    (indexable : V → B) (bbox_intersects : B → Bool)
    (geometry_intersects_top : SubtreeID B → Bool) (geometry_intersects : V → Bool)
    (t : MultiIndexTreeBase V B) :
    (MultiIndexTree.is_intersecting storage indexable bbox_intersects
        geometry_intersects_top geometry_intersects t).toOption.map
          (fun p => p.1.query_count) =
      (MultiIndexTree.is_intersecting storage indexable bbox_intersects
        geometry_intersects_top geometry_intersects t).toOption.map
          (fun _ => t.query_count) ∧
    (MultiIndexTree.is_intersecting numbered_storage (fun v => v / 10) (fun _ => true)
        (fun _ => true) (fun v => v == 11) three_subtrees).toOption.map
          (fun p => (p.2, p.1.query_count, (p.1.subtree_cache.meta 0).load_generation_,
            decide ((p.1.subtree_cache.meta 0).usage_rate p.1.query_count = DBL_MAX))) =
      some (true, 0, 0, true) := by
  refine ⟨?_, by decide!⟩
  cases h : MultiIndexTree.is_intersecting storage indexable bbox_intersects
      geometry_intersects_top geometry_intersects t with
  | error e => rfl
  | ok p =>
    obtain ⟨t', r⟩ := p
    simp only [Except.toOption, Option.map_some']
    exact congrArg some (MultiIndexTree.is_intersecting_loop_query_count storage indexable
      bbox_intersects geometry_intersects_top geometry_intersects _ t t' r h)

/-- C28: for every stream of `load_subtree` calls that runs to completion from an empty
cache, and every sub-tree id, `access_count()` of the record of the id is the number of
calls of the stream with that id; an id that is not resident has
`current_access_count_ = 0` and a resident id has `current_access_count_ ≥ 1`; the access
count after a part of the stream is at most the access count after the whole stream. -/
theorem access_count_is_number_of_loads {V B : Type} (storage : Nat → RTree V)
    (p : UsageRateCacheParams) (calls : List (SubtreeID B × Nat))
    (h : (UsageRateCache.load_sequence storage calls (UsageRateCache.empty V p)).toBool =
      true) :
    ∃ c, UsageRateCache.load_sequence storage calls (UsageRateCache.empty V p) = .ok c ∧
      (∀ id, (c.meta id).access_count =
          (calls.filter (fun call => decide (call.1.id = id))).length ∧
        (id ∉ c.subtrees → (c.meta id).current_access_count_ = 0) ∧
        (id ∈ c.subtrees → 1 ≤ (c.meta id).current_access_count_)) ∧
      ∀ pre post, calls = pre ++ post →
        ∃ c0, UsageRateCache.load_sequence storage pre (UsageRateCache.empty V p) = .ok c0 ∧
          ∀ id, (c0.meta id).access_count ≤ (c.meta id).access_count := by
  have hout : ∀ i, i ∉ (UsageRateCache.empty V p).subtrees →
      ((UsageRateCache.empty V p).meta i).current_access_count_ = 0 := fun _ _ => rfl
  have hin : ∀ i, i ∈ (UsageRateCache.empty V p).subtrees →
      1 ≤ ((UsageRateCache.empty V p).meta i).current_access_count_ :=
    fun i hi => absurd hi (AList.not_mem_empty i)
  cases hc : UsageRateCache.load_sequence storage calls (UsageRateCache.empty V p) with
  | error e =>
    rw [hc] at h
    exact absurd h (by simp [Except.toBool])
  | ok c =>
    obtain ⟨hout', hin', hacc⟩ :=
      load_sequence_access_count storage calls _ c hout hin hc
    refine ⟨c, rfl, ?_, ?_⟩
    · intro id
      refine ⟨?_, hout' id, hin' id⟩
      rw [hacc id, empty_meta]
      simp [MetaData.access_count, MetaData.init]
    · intro pre post hcalls
      subst hcalls
      obtain ⟨c0, h0, h1⟩ := load_sequence_append storage pre post _ c hc
      obtain ⟨hout0, hin0, -⟩ := load_sequence_access_count storage pre _ c0 hout hin h0
      obtain ⟨-, -, hacc1⟩ := load_sequence_access_count storage post c0 c hout0 hin0 h1
      refine ⟨c0, h0, ?_⟩
      intro id
      rw [hacc1 id]
      exact Nat.le_add_right _ _

/-- C27: for all end points, over exact arithmetic, `distance_segment_segment` returns the
distance of the points with parameters `sc` and `tc` in `[0, 1]` of the two segments;
the value is not negative and every lower bound of the distances between the segments is
a lower bound of it.  `Cylinder::intersects` is true exactly when this distance is below
`r1 + r2`, so that a true result has two points of the axis segments at a distance below
`r1 + r2`. -/
theorem cylinder_intersects_no_false_positive {K : Type} [LinearOrderedField K]
    (s1_0 s1_1 s2_0 s2_1 : Point3D K) (r1 r2 : K) :
    ∃ sc tc, 0 ≤ sc ∧ sc ≤ 1 ∧ 0 ≤ tc ∧ tc ≤ 1 ∧
      distance_segment_segment s1_0 s1_1 s2_0 s2_1 =
        some ⟨distance_sq (segment_point s1_0 s1_1 sc) (segment_point s2_0 s2_1 tc)⟩ ∧
      0 ≤ distance_sq (segment_point s1_0 s1_1 sc) (segment_point s2_0 s2_1 tc) ∧
      (∀ m, (∀ s t, 0 ≤ s → s ≤ 1 → 0 ≤ t → t ≤ 1 →
          m ≤ distance_sq (segment_point s1_0 s1_1 s) (segment_point s2_0 s2_1 t)) →
        m ≤ distance_sq (segment_point s1_0 s1_1 sc) (segment_point s2_0 s2_1 tc)) ∧
      Cylinder.intersects ⟨s1_0, s1_1, r1⟩ ⟨s2_0, s2_1, r2⟩ =
        some (decide (0 < r1 + r2 ∧
          distance_sq (segment_point s1_0 s1_1 sc) (segment_point s2_0 s2_1 tc) <
            (r1 + r2) * (r1 + r2))) := by
  obtain ⟨sc, tc, -, -, h0, h1, h2, h3, h⟩ := distance_segment_segment_eq s1_0 s1_1 s2_0 s2_1
  refine ⟨sc, tc, h0, h1, h2, h3, h, dot_self_nonneg _, fun m hm => hm sc tc h0 h1 h2 h3, ?_⟩
  simp only [Cylinder.intersects, h, Sqrt.lt]

/-- C30: for every sphere and every cylinder with `p1 ≠ p2`, over exact arithmetic,
`Sphere::intersects` has a value, and the same value for the cylinder `(p1, p2, r)` and
for the cylinder `(p2, p1, r)` with swapped end points. -/
theorem sphere_intersects_swapped_end_points {K : Type} [LinearOrderedField K]
    (s : Sphere K) (p1 p2 : Point3D K) (radius : K) (hne : p1 ≠ p2) :
    ∃ r, s.intersects ⟨p1, p2, radius⟩ = some r ∧ s.intersects ⟨p2, p1, radius⟩ = some r := by
  have h := sphere_intersects_swap s p1 p2 radius hne
  rw [← h, sphere_intersects_form s ⟨p1, p2, radius⟩ (dot_self_ne_zero_of_ne p1 p2 hne)]
  exact ⟨_, rfl, rfl⟩

/-- C29 (as stated, refuted): of two ranks, rank 1 holds all the `2 ^ 31 + 5` elements;
its two send counts, `2 ^ 30 + 3` and `2 ^ 30 + 2`, fit in `int`, their sum does not, and
`compute_balance_send_counts` fails in `assert_counts_are_safe` instead of returning send
counts. -/
theorem send_counts_sum_overflow_counterexample :
    mpi.compute_balance_send_counts_loop 0 2147483653
      (util.balanced_chunk_sizes 2147483653 2) 2 0 0 0 = .ok [1073741827, 1073741826] ∧
    mpi.compute_balance_send_counts util.balanced_chunk_sizes [0, 2147483653] 1 =
      .error .overflow :=
  ⟨rfl, rfl⟩

/-- C29 (amended): for local arrays whose lengths fit in `int`,
`compute_balance_send_counts` succeeds for every rank `r`, and its entry `i` is the
length of the intersection of the global index interval of rank `r` with the balanced
interval of rank `i`.  The entries that are not zero occupy a contiguous range of
destination ranks, the blocks sent to the ranks `0, 1, ...` are consecutive blocks of the
local array, and the concatenation in rank order of the arrays after the exchange is the
concatenation in rank order of the arrays before it. -/
theorem send_counts_are_interval_overlaps {α : Type} (arrays : List (List α))
    (hfit : ∀ a ∈ arrays, a.length ≤ INT_MAX) :
    ∃ sends : Nat → List Int,
      (∀ r, r < arrays.length →
        mpi.compute_balance_send_counts util.balanced_chunk_sizes (arrays.map List.length) r =
          .ok (sends r)) ∧
      (∀ r i, r < arrays.length → i < arrays.length →
        (sends r).getD i 0 =
          ((mpi.overlap ((arrays.map List.length).take r).sum
            ((arrays.map List.length).take (r + 1)).sum
            ((util.balanced_chunk_sizes (arrays.map List.length).sum arrays.length).take i).sum
            ((util.balanced_chunk_sizes (arrays.map List.length).sum arrays.length).take
              (i + 1)).sum : Nat) : Int)) ∧
      (∀ r i j k, r < arrays.length → i < j → j < k → k < arrays.length →
        (sends r).getD i 0 ≠ 0 → (sends r).getD k 0 ≠ 0 → (sends r).getD j 0 ≠ 0) ∧
      (∀ r, r < arrays.length →
        ((List.range arrays.length).map
          (fun i => mpi.send_block (arrays.getD r []) (sends r) i)).flatten =
            arrays.getD r []) ∧
      ((List.range arrays.length).map (fun i => mpi.received arrays sends i)).flatten =
        arrays.flatten := by
  have hN : (arrays.map List.length).length = arrays.length := List.length_map _ _
  have hBlen : (util.balanced_chunk_sizes (arrays.map List.length).sum arrays.length).length =
      arrays.length := mpi.length_balanced_chunk_sizes _ _
  have hBsum : (util.balanced_chunk_sizes (arrays.map List.length).sum arrays.length).sum =
      (arrays.map List.length).sum := by
    have h := mpi.sum_balanced_chunk_sizes_length (arrays.map List.length)
    rw [hN] at h
    exact h
  have hget : ∀ r i, i < arrays.length →
      ((mpi.overlaps ((arrays.map List.length).take r).sum
        ((arrays.map List.length).take (r + 1)).sum
        (util.balanced_chunk_sizes (arrays.map List.length).sum arrays.length) 0).map
          Int.ofNat).getD i 0 =
        ((mpi.overlap ((arrays.map List.length).take r).sum
          ((arrays.map List.length).take (r + 1)).sum
          ((util.balanced_chunk_sizes (arrays.map List.length).sum arrays.length).take i).sum
          ((util.balanced_chunk_sizes (arrays.map List.length).sum arrays.length).take
            (i + 1)).sum : Nat) : Int) := by
    intro r i hi
    rw [mpi.getD_map_ofNat_eq, mpi.getD_overlaps _ _ _ 0 i (by rw [hBlen]; exact hi)]
    simp only [Nat.zero_add]
  refine ⟨fun r => (mpi.overlaps ((arrays.map List.length).take r).sum
    ((arrays.map List.length).take (r + 1)).sum
    (util.balanced_chunk_sizes (arrays.map List.length).sum arrays.length) 0).map Int.ofNat,
    ?_, ?_, ?_, ?_, ?_⟩
  · intro r hr
    have hr' : r < (arrays.map List.length).length := by rw [hN]; exact hr
    have hok := mpi.compute_balance_send_counts_ok util.balanced_chunk_sizes
      (arrays.map List.length) r hr' (mpi.length_balanced_chunk_sizes _ _)
      (by
        rw [List.getElem_map]
        exact hfit _ (List.getElem_mem _))
    rw [hok, hN]
    beta_reduce
    rw [mpi.take_succ_sum _ r hr']
  · intro r i _ hi
    exact hget r i hi
  · intro r i j k _ hij hjk hk hi0 hk0
    simp only [] at hi0 hk0 ⊢
    rw [hget r i (by omega)] at hi0
    rw [hget r k hk] at hk0
    rw [hget r j (by omega)]
    have hi0' := fun h => hi0 (congrArg Nat.cast h)
    have hk0' := fun h => hk0 (congrArg Nat.cast h)
    have hj := mpi.overlap_contiguous _ _ _ i j k hij hjk (by rw [hBlen]; exact hk)
      (mpi.balanced_chunk_sizes_antitone _ _ j k (Nat.le_of_lt hjk) hk) hi0' hk0'
    exact fun h => hj (Int.ofNat.inj h)
  · intro r hr
    have hr' : r < (arrays.map List.length).length := by rw [hN]; exact hr
    have hx : ((arrays.map List.length).take r).sum ≤
        ((arrays.map List.length).take (r + 1)).sum :=
      mpi.take_sum_mono _ (Nat.le_add_right r 1)
    have hD : (arrays.getD r []).length =
        ((arrays.map List.length).take (r + 1)).sum - ((arrays.map List.length).take r).sum := by
      rw [mpi.take_succ_sum _ r hr', List.getElem_map, List.getD_eq_getElem _ _ hr]
      omega
    have h := mpi.flatten_send_blocks (arrays.getD r []) _ _
      (util.balanced_chunk_sizes (arrays.map List.length).sum arrays.length) hD hx
      (by rw [hBsum]; exact mpi.take_sum_le _ _)
    rw [hBlen] at h
    exact h
  · have h := mpi.flatten_received arrays
      (util.balanced_chunk_sizes (arrays.map List.length).sum arrays.length) hBsum
    rw [hBlen] at h
    exact h

/-! ## Witnesses -/

/-- Witness for C1: in `two_resident` at generation 1 the miss on sub-tree 2 evicts
sub-tree 0 and keeps sub-tree 1, which was loaded at generation 1. -/
theorem load_subtree_keeps_current_generation_witness :
    ∃ c' t, two_resident.load_subtree unit_storage (⟨2, 1, ()⟩ : SubtreeID Unit) 1 =
        .ok (c', t) ∧ 2 ∈ c'.subtrees.keys ∧
      ∀ i ∈ two_resident.subtrees.keys, (two_resident.meta i).load_generation_ = 1 →
        i ∈ c'.subtrees.keys ∧ (c'.meta i).load_generation_ = 1 :=
  (load_subtree_keeps_current_generation unit_storage two_resident
    (⟨2, 1, ()⟩ : SubtreeID Unit) 1 (by decide!) (by decide!)).1
      (Or.inr (Or.inr (by decide!)))

/-- Witness for C2: the miss on sub-tree 2 in `two_resident`, which needs an eviction. -/
theorem load_subtree_cached_elements_witness :
    ∃ c' t, two_resident.load_subtree unit_storage (⟨2, 1, ()⟩ : SubtreeID Unit) 2 =
        .ok (c', t) ∧ c'.cache_params = two_resident.cache_params ∧
      c'.cached_elements ≤ two_resident.cached_elements + 1 := by
  obtain ⟨c', t, h, hp, -, -, hle, -⟩ := load_subtree_cached_elements unit_storage
    two_resident (⟨2, 1, ()⟩ : SubtreeID Unit) 2 (by decide) (Or.inr (Or.inr (by decide!)))
  exact ⟨c', t, h, hp, hle⟩

/-- Witness for C3: the scenario with ids 0, 1, 2 and sub-trees of one value. -/
theorem scenario_E5_resident_set_witness :
    ∃ c4, load_sequence unit_storage
        [((⟨0, 1, ()⟩ : SubtreeID Unit), 0), (⟨1, 1, ()⟩, 1), (⟨0, 1, ()⟩, 2), (⟨2, 1, ()⟩, 3)]
        (UsageRateCache.empty Unit ⟨2 * 1, 1⟩) = .ok c4 ∧
      (∀ i, i ∈ c4.subtrees.keys ↔ i = 0 ∨ i = 2) := by
  obtain ⟨-, c4, -, -, -, h, hres, -⟩ := scenario_E5_resident_set unit_storage 0 1 2 1
    () () () (by decide) (by decide) (by decide) (by decide) rfl rfl rfl
  exact ⟨c4, h, hres⟩

/-- Witness for C4: the eviction for a miss on sub-tree 2 in `two_resident` at generation
2 removes one sub-tree. -/
theorem evict_subtrees_lowest_usage_rate_witness :
    ∃ c', two_resident.evict_subtrees (⟨2, 1, ()⟩ : SubtreeID Unit) 2 = .ok c' ∧
      (two_resident.subtrees.keys.filter (fun i => decide (i ∉ c'.subtrees.keys))).length = 1 := by
  obtain ⟨c', h, -, -, -, hn, -⟩ := evict_subtrees_lowest_usage_rate two_resident
    (⟨2, 1, ()⟩ : SubtreeID Unit) 2 (Or.inr (by decide!))
  exact ⟨c', h, hn (by decide!)⟩

/-- Witness for C6: a record loaded at generation 1, read at generation 3. -/
theorem usage_rate_spec_witness :
    (⟨1, 1, 0, 0, 0⟩ : MetaData).usage_rate 3 = ((0 + 1 : Nat) : ℚ) / ((3 - 1 + 1 + 0 : Nat) : ℚ) :=
  ((usage_rate_spec ⟨1, 1, 0, 0, 0⟩ 3 (by decide)).2 (by decide)).1

/-- Witness for C7: the miss on sub-tree 2 in `two_resident` at generation 2. -/
theorem load_subtree_on_miss_witness :
    ∃ c', two_resident.load_subtree unit_storage (⟨2, 1, ()⟩ : SubtreeID Unit) 2 =
        .ok (c', unit_storage 2) ∧
      (c'.meta 2).load_generation_ = 2 ∧ (c'.meta 2).current_access_count_ = 1 := by
  obtain ⟨-, c', -, -, h, -, -, hg, hc, -⟩ := load_subtree_on_miss unit_storage two_resident
    (⟨2, 1, ()⟩ : SubtreeID Unit) 2 (by decide!) (Or.inr (by decide!))
  exact ⟨c', h, hg, hc⟩

/-- Witness for C8: the hit on sub-tree 0 in `two_resident`. -/
theorem load_subtree_on_hit_witness :
    ∃ c', two_resident.load_subtree unit_storage (⟨0, 1, ()⟩ : SubtreeID Unit) 2 =
        .ok (c', ⟨[()]⟩) ∧ c'.subtrees = two_resident.subtrees ∧
      (c'.meta 0).current_access_count_ = (two_resident.meta 0).current_access_count_ + 1 := by
  obtain ⟨c', h, hs, -, hc, -⟩ := load_subtree_on_hit unit_storage two_resident
    (⟨0, 1, ()⟩ : SubtreeID Unit) 2 ⟨[()]⟩ rfl
  exact ⟨c', h, hs, hc⟩

/-- Witness for C9: the eviction for a miss on sub-tree 2 in `two_resident` at
generation 2. -/
theorem evict_subtrees_on_evict_witness :
    ∃ c', two_resident.evict_subtrees (⟨2, 1, ()⟩ : SubtreeID Unit) 2 = .ok c' ∧
      ∀ i ∈ two_resident.subtrees.keys, i ∉ c'.subtrees.keys →
        c'.meta i = (two_resident.meta i).on_evict 2 := by
  obtain ⟨c', h, hv⟩ := evict_subtrees_on_evict two_resident
    (⟨2, 1, ()⟩ : SubtreeID Unit) 2 (Or.inr (by decide!))
  exact ⟨c', h, fun i hi hi' => (hv i hi hi').1⟩

/-- Witness for C10: a query whose top tree yields two sub-trees. -/
theorem query_advances_query_count_once_witness :
    ∃ t' out', two_subtrees.query unit_storage (fun _ => ()) (fun _ => true) [] =
        .ok (t', out') ∧ t'.query_count = 0 + 1 := by
  obtain ⟨t', out', h, hq, -⟩ := query_advances_query_count_once unit_storage (fun _ => ())
    two_subtrees (fun _ => true) [] (by decide!)
  exact ⟨t', out', h, hq⟩

/-- Witness for C11: the top tree yields sub-trees 0 and 2 of `three_subtrees`. -/
theorem query_results_in_top_tree_order_witness :
    ∃ t' out', three_subtrees.query numbered_storage (fun v => v / 10) (fun b => b != 1) [] =
        .ok (t', out') ∧ out' = [0, 1, 20, 21] := by
  obtain ⟨t', out', h, hout, -⟩ := query_results_in_top_tree_order numbered_storage
    (fun v => v / 10) three_subtrees (fun b => b != 1) []
    (UsageRateCache.coherent_empty numbered_storage ⟨4, 1⟩) (by decide!)
  exact ⟨t', out', h, hout.trans (by decide)⟩

/-- Witness for C12: for a shape whose box meets the boxes 1 and 2 and whose exact test
holds for the value 21 only, sub-tree 1 is swept without a match and the value 21 of
sub-tree 2 is found. -/
theorem is_intersecting_first_match_witness :
    ∃ t' r, MultiIndexTree.is_intersecting numbered_storage (fun v => v / 10)
        (fun b => decide (1 ≤ b)) (fun _ => true) (fun v => v == 21) three_subtrees =
          .ok (t', r) ∧ r = true ∧ t'.subtree_cache.subtrees.keys = [2, 1] := by
  obtain ⟨t', r, h, hr, -⟩ := is_intersecting_first_match numbered_storage
    (fun v => v / 10) (fun b => decide (1 ≤ b)) (fun _ => true) (fun v => v == 21)
    three_subtrees (UsageRateCache.coherent_empty numbered_storage ⟨4, 1⟩) (by decide!)
  have hr' : r = true := hr.2 ⟨⟨2, 2, 2⟩,
    List.mem_cons_of_mem _ (List.mem_cons_of_mem _ (List.mem_cons_self _ _)), by decide, rfl,
    21, by decide, by decide, by decide⟩
  refine ⟨t', r, h, hr', ?_⟩
  have h2 : Except.map (fun q => q.1.subtree_cache.subtrees.keys)
      (MultiIndexTree.is_intersecting numbered_storage (fun v => v / 10)
        (fun b => decide (1 ≤ b)) (fun _ => true) (fun v => v == 21) three_subtrees) =
      .ok [2, 1] := rfl
  rw [h] at h2
  exact Except.ok.inj h2

/-- Witness for C19: the counts (100, 200) of the test; rank 0 sends (100, 0), rank 1
sends (50, 150), and every rank ends with 150 elements. -/
theorem balance_send_counts_column_sums_witness :
    ∃ sends : Nat → List Int,
      mpi.compute_balance_send_counts util.balanced_chunk_sizes [100, 200] 0 =
        .ok (sends 0) ∧
      mpi.compute_balance_send_counts util.balanced_chunk_sizes [100, 200] 1 =
        .ok (sends 1) ∧
      (sends 0).getD 0 0 + (sends 1).getD 0 0 = 150 ∧
      (sends 0).getD 1 0 + (sends 1).getD 1 0 = 150 := by
  obtain ⟨sends, hok, hcol⟩ := balance_send_counts_column_sums [100, 200] (by decide)
    (by decide)
  refine ⟨sends, hok 0 (by decide), hok 1 (by decide), ?_, ?_⟩
  · have h := (hcol 0 (by decide)).2
    simpa [List.range_succ] using h
  · have h := (hcol 1 (by decide)).2
    simpa [List.range_succ] using h

/-- Witness for C20: rank 1 of the counts (100, 200) sends 50 + 150 = 200 elements. -/
theorem balance_send_counts_row_sum_witness :
    ∃ send_counts : List Int,
      mpi.compute_balance_send_counts util.balanced_chunk_sizes [100, 200] 1 =
        .ok send_counts ∧ send_counts.sum = 200 := by
  obtain ⟨s, h, -, -, hs⟩ := balance_send_counts_row_sum util.balanced_chunk_sizes
    [100, 200] 1 (by decide) (by decide) (by decide) (by decide)
  exact ⟨s, h, hs⟩

/-- Witness for C15: the parallel cylinders of radius 1/2 around the segments from
`(0,0,0)` to `(10,0,0)` and from `(0,2,0)` to `(10,2,0)`. -/
theorem touching_cylinders_do_not_intersect_witness :
    Cylinder.intersects ⟨rat_point 0 0 0, rat_point 10 0 0, 1 / 2⟩
      ⟨rat_point 0 2 0, rat_point 10 2 0, 1 / 2⟩ = some false :=
  touching_cylinders_do_not_intersect _ _ (by
    intro s t _ _ _ _
    simp only [distance_sq, segment_point, rat_point, Point3D.sub, Point3D.add,
      Point3D.smul, Point3D.dot]
    nlinarith [mul_self_nonneg (10 * s - 10 * t)])

/-- Witness for C16: the sphere radius 2.1 of the scenario. -/
theorem scenario_E2_sphere_cylinder_witness :
    (2 : ℚ) ≤ 21 / 10 ∧
    Sphere.intersects ⟨rat_point 5 0 3, 21 / 10⟩ ⟨rat_point 0 0 0, rat_point 10 0 0, 1⟩ =
      some true :=
  ⟨by norm_num, scenario_E2_sphere_cylinder (21 / 10) (by norm_num)⟩

/-- Witness for C14: the cylinder from `(0,0,0)` to `(10,0,0)` of radius 1 and the sphere
of radius 5/2 centred at `(5,0,3)`, over the real numbers. -/
theorem sphere_cylinder_axial_test_witness :
    ∃ r, Sphere.intersects (⟨⟨5, 0, 3⟩, 5 / 2⟩ : Sphere ℝ) ⟨⟨0, 0, 0⟩, ⟨10, 0, 0⟩, 1⟩ =
      some r :=
  (sphere_cylinder_axial_test ⟨⟨5, 0, 3⟩, 5 / 2⟩ ⟨⟨0, 0, 0⟩, ⟨10, 0, 0⟩, 1⟩ (by
    intro h
    have hx := congrArg Point3D.x h
    norm_num at hx)).1

/-- Witness for C21: the order of triples of natural numbers from the first coordinate
on. -/
theorem compare_is_strict_lexicographic_order_witness :
    0 ≤ 2 ∧
    ((∀ a b, STRKey.compare triple_coordinate 0 a b = true ↔
      List.Lex (· < ·) (STRKey.coordinates triple_coordinate 0 a)
        (STRKey.coordinates triple_coordinate 0 b)) ∧
    (∀ a, STRKey.compare triple_coordinate 0 a a = false) ∧
    (∀ a b, STRKey.compare triple_coordinate 0 a b = true →
      STRKey.compare triple_coordinate 0 b a = false) ∧
    (∀ a b c, STRKey.compare triple_coordinate 0 a b = true →
      STRKey.compare triple_coordinate 0 b c = true →
      STRKey.compare triple_coordinate 0 a c = true)) :=
  ⟨by decide, compare_is_strict_lexicographic_order triple_coordinate 0 (by decide)⟩

/-- Witness for C24: 16 points on a line and 16 radii; the second branch has
`16 - 12 = 4` segments. -/
theorem add_neuron_docstring_example_witness :
    13 ≤ (line_points 16).length ∧ (line_points 16).length < 4294967296 ∧
    (line_points 16).length - 1 ≤ (List.replicate 16 (1 : ℚ)).length ∧
    ∃ soma_point soma_radius branch1 branch2,
      (line_points 16)[0]? = some soma_point ∧
      (List.replicate 16 (1 : ℚ))[0]? = some soma_radius ∧
      add_neuron [] 7 (line_points 16) (List.replicate 16 1) [1, 11] true =
        .ok (.soma 7 soma_point soma_radius :: (branch1 ++ branch2), []) ∧
      branch1.length = 9 ∧ (∀ e ∈ branch1, e.is_segment_of 1 = true) ∧
      branch2.length = (line_points 16).length - 12 ∧
      (∀ e ∈ branch2, e.is_segment_of 2 = true) :=
  ⟨by decide, by decide, by decide,
    add_neuron_docstring_example 7 (line_points 16) (List.replicate 16 1) (by decide)
      (by decide) (by decide)⟩

/-- Witness for C28: with room for two elements, the sub-trees 0, 1, 0 and 2 of one
element each are loaded in the generations 0 to 3; the last call evicts a sub-tree, and
the record of sub-tree 0 counts its two calls. -/
theorem access_count_is_number_of_loads_witness :
    ∃ c, UsageRateCache.load_sequence unit_storage
        [((⟨0, 1, ()⟩ : SubtreeID Unit), 0), (⟨1, 1, ()⟩, 1), (⟨0, 1, ()⟩, 2), (⟨2, 1, ()⟩, 3)]
        (UsageRateCache.empty Unit ⟨2, 1⟩) = .ok c ∧
      (c.meta 0).access_count = 2 ∧ (c.meta 1).access_count = 1 := by
  obtain ⟨c, hc, hacc, -⟩ := access_count_is_number_of_loads unit_storage ⟨2, 1⟩
    [((⟨0, 1, ()⟩ : SubtreeID Unit), 0), (⟨1, 1, ()⟩, 1), (⟨0, 1, ()⟩, 2), (⟨2, 1, ()⟩, 3)]
    (by decide!)
  exact ⟨c, hc, (hacc 0).1.trans (by decide), (hacc 1).1.trans (by decide)⟩

/-- Witness for C30: the sphere of radius 1 centred at `(11.5,0,0)` and the cylinder of
radius 1 between `(0,0,0)` and `(10,0,0)`, in both orientations. -/
theorem sphere_intersects_swapped_end_points_witness :
    rat_point 0 0 0 ≠ rat_point 10 0 0 ∧
    ∃ r, Sphere.intersects ⟨rat_point (23 / 2) 0 0, 1⟩ ⟨rat_point 0 0 0, rat_point 10 0 0, 1⟩ =
        some r ∧
      Sphere.intersects ⟨rat_point (23 / 2) 0 0, 1⟩ ⟨rat_point 10 0 0, rat_point 0 0 0, 1⟩ =
        some r :=
  ⟨by
    intro h
    have hx := congrArg Point3D.x h
    simp [rat_point] at hx,
  sphere_intersects_swapped_end_points ⟨rat_point (23 / 2) 0 0, 1⟩ (rat_point 0 0 0)
    (rat_point 10 0 0) 1 (by
      intro h
      have hx := congrArg Point3D.x h
      simp [rat_point] at hx)⟩

/-- Witness for C29: rank 0 holds one element and rank 1 two elements, which become two
elements on rank 0 and one on rank 1; the sequence 10, 20, 30 is kept. -/
theorem send_counts_are_interval_overlaps_witness :
    ∃ sends : Nat → List Int,
      mpi.compute_balance_send_counts util.balanced_chunk_sizes [1, 2] 1 = .ok (sends 1) ∧
      (sends 1).getD 0 0 = 1 ∧
      ((List.range 2).map (fun i => mpi.received [[10], [20, 30]] sends i)).flatten =
        [10, 20, 30] := by
  obtain ⟨sends, h1, h2, -, -, h5⟩ :=
    send_counts_are_interval_overlaps [[10], [20, 30]] (by decide)
  exact ⟨sends, h1 1 (by decide), (h2 1 0 (by decide) (by decide)).trans (by decide), h5⟩

end spatial_index
